import Mathlib

/-!
Verification development for the heap-tuple row codec of
`src/backend/access/common/heaptuple.c` (OpenTenBase).

The C code is shallowly embedded: the data region of a tuple is a
`List Nat` of bytes (each < 256 under the well-formedness predicates),
a logical column value is a `Datum`, per-column metadata is an `Attr`,
and the mutable per-column offset cache (`attcacheoff`) is threaded
explicitly as a `List Int`.

Byte-level varlena header formats follow the spec's description
(1-byte header has the high bit set; `0x80` alone tags an external
reference; otherwise a 4-byte big-endian length word whose two top
bits are flags), since the `postgres.h` / `tupmacs.h` macro layer is
not part of the excerpted source.
-/

namespace HeapTuple

/-- `att_align_nominal` / TYPEALIGN: round `off` up to a multiple of `a`. -/
def alignUp (off a : Nat) : Nat := ((off + a - 1) / a) * a

/-- Little-endian byte encoding of a pass-by-value scalar (`store_att_byval`). -/
def leBytes : Nat → Nat → List Nat
  | 0, _ => []
  | k + 1, v => (v % 256) :: leBytes k (v / 256)

/-- Little-endian byte decoding of a pass-by-value scalar (`fetch_att`). -/
def leVal : Nat → List Nat → Nat
  | 0, _ => 0
  | k + 1, bs => bs.headD 0 + 256 * leVal k bs.tail

/-- Modelled from the spec: `VARATT_IS_1B` — 1-byte varlena header, high bit set. -/
def varattIs1B (bs : List Nat) : Bool := 128 ≤ bs.headD 0

/-- Modelled from the spec: `VARATT_IS_1B_E` / `VARATT_IS_EXTERNAL` — the header
byte `0x80` alone tags an external (toast-pointer) value. -/
def varattIsExternal (bs : List Nat) : Bool := bs.headD 0 == 128

/-- Modelled from the spec: `VARSIZE_1B` — total size of a short varlena,
header byte with the high bit masked off. -/
def varSize1B (bs : List Nat) : Nat := bs.headD 0 - 128

/-- Modelled from the spec: `VARSIZE_4B` — 4-byte big-endian length word with
the two top flag bits masked off (`& 0x3FFFFFFF`). -/
def varSize4B (bs : List Nat) : Nat :=
  (bs.headD 0 * 16777216 + bs.getD 1 0 * 65536 + bs.getD 2 0 * 256 + bs.getD 3 0) % 1073741824

/-- Modelled from the spec: `VARATT_IS_4B_U` — plain uncompressed 4-byte header
(top two bits of the first byte are 00). -/
def varattIs4BU (bs : List Nat) : Bool := bs.headD 0 < 64

/-- Modelled from the spec: `VARSIZE_EXTERNAL` for an on-disk toast pointer:
2-byte external header plus a 16-byte `varatt_external` payload. -/
def varSizeExternal : Nat := 18

/-- Modelled from the spec: `VARSIZE_ANY` — size of a varlena read off its
leading byte(s). -/
def varSizeAny (bs : List Nat) : Nat :=
  if varattIsExternal bs then varSizeExternal
  else if varattIs1B bs then varSize1B bs
  else varSize4B bs

/-- Modelled from the spec: `VARATT_CAN_MAKE_SHORT` — an uncompressed 4-byte
header value whose converted short form (payload + 1 header byte) fits the
1-byte header, i.e. is at most 127 bytes. -/
def varattCanMakeShort (bs : List Nat) : Bool :=
  varattIs4BU bs && varSize4B bs - 4 + 1 ≤ 127

/-- Modelled from the spec: `VARATT_CONVERTED_SHORT_SIZE`. -/
def varattConvertedShortSize (bs : List Nat) : Nat := varSize4B bs - 4 + 1

/-- `SET_VARSIZE_SHORT` followed by copying the payload: the short form of a
4-byte-header varlena. -/
def toShortForm (bs : List Nat) : List Nat :=
  (128 + (varSize4B bs - 4 + 1)) :: bs.drop 4

/-- Per-column metadata (`Form_pg_attribute`): declared length class, alignment
in bytes, pass-by-value flag, `attstorage == 'p'` flag, dropped flag and the
`atthasmissing` flag. -/
structure Attr where
  attlen : Int
  attalign : Nat
  attbyval : Bool
  attstoragePlain : Bool
  attisdropped : Bool
  atthasmissing : Bool
  deriving DecidableEq, Repr, Inhabited

/-- `ATT_IS_PACKABLE`: varlena whose storage is not 'p'. -/
def ATT_IS_PACKABLE (a : Attr) : Bool := a.attlen == -1 && !a.attstoragePlain

/-- A logical column value: a pass-by-value scalar, a pointer to a byte blob
(varlena, cstring, or fixed-length by-reference), or an expanded external
object carrying its flattened form (`ExpandedObjectHeader`, with
`EOH_get_flat_size` = length of `flat` and `EOH_flatten_into` writing `flat`).  -/
inductive Datum where
  | byval (v : Nat)
  | byref (bs : List Nat)
  | expanded (flat : List Nat)
  deriving DecidableEq, Repr, Inhabited

/-- The bytes a `DatumGetPointer` would expose.  An expanded object presents
itself as an external toast pointer (leading byte `0x80` and an
expanded-object tag), which is how `VARATT_IS_EXTERNAL` sees it. -/
def pointerBytes : Datum → List Nat
  | .byval _ => []
  | .byref bs => bs
  | .expanded _ => [128, 2]

/-- `VARATT_IS_EXTERNAL_EXPANDED` on a datum. -/
def isExpandedD : Datum → Bool
  | .expanded _ => true
  | _ => false

/-- `EOH_get_flat_size`: length of the flattened form. -/
def flatSize : Datum → Nat
  | .expanded flat => flat.length
  | _ => 0

def scalarOf : Datum → Nat
  | .byval v => v
  | _ => 0

/-- Well-formed in-memory varlena bytes: external on-disk pointer, short form
with the declared size, or 4-byte-header form with the declared size. -/
def wfVarlenaBytes (bs : List Nat) : Bool :=
  bs.all (· < 256) &&
  (if bs.headD 0 == 128 then bs.length == 18 && bs.getD 1 0 == 18
   else if 128 ≤ bs.headD 0 then bs.length == bs.headD 0 - 128
   else decide (4 ≤ bs.length) && varSize4B bs == bs.length)

/-- A datum consistent with its column's length class. -/
def wfDatum (a : Attr) (d : Datum) : Bool :=
  if a.attbyval then
    match d with
    | .byval v => v < 256 ^ a.attlen.toNat
    | _ => false
  else if a.attlen == -1 then
    match d with
    | .byval _ => false
    | .byref bs => wfVarlenaBytes bs
    | .expanded flat =>
        flat.all (· < 256) && decide (4 ≤ flat.length) &&
        flat.headD 0 < 64 && varSize4B flat == flat.length
  else if a.attlen == -2 then
    match d with
    | .byref bs =>
        bs.all (· < 256) && bs.getLast? == some 0 && bs.dropLast.all (· ≠ 0)
    | _ => false
  else
    match d with
    | .byref bs => bs.all (· < 256) && bs.length == a.attlen.toNat
    | _ => false

/-- Well-formed column metadata: alignment is one of the four classes, the
length class is fixed-positive / varlena / cstring, pass-by-value columns have
a machine scalar width, and cstrings have byte alignment. -/
def wfAttr (a : Attr) : Bool :=
  (a.attalign == 1 || a.attalign == 2 || a.attalign == 4 || a.attalign == 8) &&
  (0 < a.attlen || a.attlen == -1 || a.attlen == -2) &&
  (!a.attbyval || (a.attlen == 1 || a.attlen == 2 || a.attlen == 4 || a.attlen == 8)) &&
  (a.attlen ≠ -2 || a.attalign == 1)

def zip3 : List Attr → List Datum → List Bool → List (Attr × Datum × Bool)
  | a :: as, d :: ds, n :: ns => (a, d, n) :: zip3 as ds ns
  | _, _, _ => []

/-- The data bytes `fill_val` appends for one non-null column starting at data
offset `off` (alignment padding followed by the value bytes), together with the
`HEAP_HASVARWIDTH` / `HEAP_HASEXTERNAL` infomask contributions. -/
def fill_val (a : Attr) (d : Datum) (off : Nat) : List Nat × Bool × Bool :=
  if a.attbyval then
    (List.replicate (alignUp off a.attalign - off) 0 ++ leBytes a.attlen.toNat (scalarOf d),
     false, false)
  else if a.attlen == -1 then
    if isExpandedD d then
      (List.replicate (alignUp off a.attalign - off) 0 ++
         (match d with | .expanded flat => flat | _ => []), true, false)
    else
      let bs := pointerBytes d
      if varattIsExternal bs then (bs.take varSizeExternal, true, true)
      else if varattIs1B bs then (bs.take (varSize1B bs), true, false)
      else if !a.attstoragePlain && varattCanMakeShort bs then (toShortForm bs, true, false)
      else (List.replicate (alignUp off a.attalign - off) 0 ++ bs.take (varSize4B bs),
            true, false)
  else if a.attlen == -2 then
    (let bs := pointerBytes d
     bs.take (((bs.takeWhile (· ≠ 0)).length) + 1), true, false)
  else
    (List.replicate (alignUp off a.attalign - off) 0 ++ (pointerBytes d).take a.attlen.toNat,
     false, false)

/-- Data-region part of `heap_fill_tuple`: walk the columns with a write
cursor, appending each non-null column's bytes; returns the data region and
the accumulated var-width / external flags. -/
def fillLoop : List (Attr × Datum × Bool) → Nat → List Nat × Bool × Bool
  | [], _ => ([], false, false)
  | (a, d, isnull) :: rest, off =>
    if isnull then fillLoop rest off
    else
      let c := fill_val a d off
      let r := fillLoop rest (off + c.1.length)
      (c.1 ++ r.1, c.2.1 || r.2.1, c.2.2 || r.2.2)

/-- `att_align_datum`: skip alignment for a varlena datum already in 1-byte
header form, else round up. -/
def att_align_datum (a : Attr) (d : Datum) (off : Nat) : Nat :=
  if a.attlen == -1 && varattIs1B (pointerBytes d) then off else alignUp off a.attalign

/-- `att_addlength_datum` on an in-memory datum. -/
def att_addlength_datum (a : Attr) (d : Datum) (off : Nat) : Nat :=
  if a.attlen == -1 then off + varSizeAny (pointerBytes d)
  else if a.attlen == -2 then off + ((pointerBytes d).takeWhile (· ≠ 0)).length + 1
  else off + a.attlen.toNat

/-- One column's contribution inside `heap_compute_data_size`. -/
def computeSizeOne (a : Attr) (d : Datum) (acc : Nat) : Nat :=
  if ATT_IS_PACKABLE a && varattCanMakeShort (pointerBytes d) then
    acc + varattConvertedShortSize (pointerBytes d)
  else if a.attlen == -1 && isExpandedD d then
    alignUp acc a.attalign + flatSize d
  else
    att_addlength_datum a d (att_align_datum a d acc)

def computeSizeLoop : List (Attr × Datum × Bool) → Nat → Nat
  | [], acc => acc
  | (a, d, isnull) :: rest, acc =>
    computeSizeLoop rest (if isnull then acc else computeSizeOne a d acc)

/-- Row-level tuple-descriptor data: the attribute array, `tdhasoid`, and the
optional `constr->missing` side table (`AttrMissing` array: `some d` when
`ammissingPresent`). -/
structure TupleDesc where
  attrs : List Attr
  tdhasoid : Bool
  missing : Option (List (Option Datum))
  deriving DecidableEq, Repr, Inhabited

def TupleDesc.natts (td : TupleDesc) : Nat := td.attrs.length

/-- `heap_compute_data_size`. -/
def heap_compute_data_size (td : TupleDesc) (values : List Datum) (isnull : List Bool) : Nat :=
  computeSizeLoop (zip3 td.attrs values isnull) 0

/-- Null-bitmap byte construction of `fill_val`: `cur` is the byte being
assembled, `mask` the bit of the previously processed column; a column first
advances the mask (or starts a fresh byte after the high bit) and then sets
its bit exactly when it is not null. -/
def fillBitmapAux : List Bool → Nat → Nat → List Nat
  | [], cur, _ => [cur]
  | isnull :: rest, cur, mask =>
    if mask == 128 then cur :: fillBitmapAux rest (if isnull then 0 else 1) 1
    else fillBitmapAux rest (if isnull then cur else cur + mask * 2) (mask * 2)

/-- The whole null bitmap for a row (`bitP = &bit[-1]`, `bitmask = HIGHBIT`
start state of `heap_fill_tuple`). -/
def fillBitmap : List Bool → List Nat
  | [] => []
  | isnull :: rest => fillBitmapAux rest (if isnull then 0 else 1) 1

/-- `att_isnull`: attribute `i` (0-based) is null when its bitmap bit is clear. -/
def att_isnull (i : Nat) (bits : List Nat) : Bool :=
  bits.getD (i / 8) 0 / 2 ^ (i % 8) % 2 == 0

/-- In-memory heap tuple: header fields that matter to the codec plus the
null bitmap and the data region as byte lists.  `t_infomask` keeps the real
bit assignments (`HEAP_HASNULL = 0x1`, `HEAP_HASVARWIDTH = 0x2`,
`HEAP_HASEXTERNAL = 0x4`, `HEAP_HASOID = 0x8`). -/
structure HTuple where
  tupNatts : Nat
  infomask : Nat
  t_bits : List Nat
  tdata : List Nat
  t_ctid : Nat × Nat
  t_self : Nat × Nat
  t_tableOid : Nat
  t_xc_node_id : Nat
  t_oid : Nat
  shardid : Int
  deriving DecidableEq, Repr, Inhabited

def HeapTupleHasNulls (t : HTuple) : Bool := t.infomask % 2 == 1

def HeapTupleHasVarWidth (t : HTuple) : Bool := t.infomask / 2 % 2 == 1

def HeapTupleHasExternal (t : HTuple) : Bool := t.infomask / 4 % 2 == 1

def HeapTupleHasOid (t : HTuple) : Bool := t.infomask / 8 % 2 == 1

/-- `heap_fill_tuple`: produce the data region, the null bitmap (when
requested by the caller) and the new infomask; the three content flags are
first cleared from `infomask0` and then recomputed from the columns. -/
def heap_fill_tuple (td : TupleDesc) (values : List Datum) (isnull : List Bool)
    (infomask0 : Nat) (withBitmap : Bool) : List Nat × List Nat × Nat :=
  let r := fillLoop (zip3 td.attrs values isnull) 0
  let hasnull := withBitmap && isnull.any id
  let mask := infomask0 / 8 * 8 + (if hasnull then 1 else 0) +
    (if r.2.1 then 2 else 0) + (if r.2.2 then 4 else 0)
  (r.1, if withBitmap then fillBitmap isnull else [], mask)

/-- The `_SHARDING_` flag argument of `heap_form_tuple_shard`.  `PlainShard`
carries the result of the external `EvaluateShardId` collaborator, which is
outside this core. -/
inductive SetShardFlag where
  | NoShard
  | ToastShard (sid : Int)
  | PlainShard (shardId : Int)
  deriving DecidableEq, Repr

/-- `heap_form_tuple_shard`: build a tuple from values/isnull arrays — detect
nulls, fill data and bitmap, set natts and the shard id per the flag. -/
def heap_form_tuple_shard (td : TupleDesc) (values : List Datum) (isnull : List Bool)
    (sflag : SetShardFlag) : HTuple :=
  let hasnull := isnull.any id
  let r := heap_fill_tuple td values isnull (if td.tdhasoid then 8 else 0) hasnull
  { tupNatts := td.natts
    infomask := r.2.2
    t_bits := r.2.1
    tdata := r.1
    t_ctid := (0, 0)
    t_self := (0, 0)
    t_tableOid := 0
    t_xc_node_id := 0
    t_oid := 0
    shardid := match sflag with
      | .NoShard => -1
      | .ToastShard sid => sid
      | .PlainShard s => s }

/-- `heap_form_tuple`, per the source's commented-out definition: the shard
variant with `SetFlag_NoShard`. -/
def heap_form_tuple (td : TupleDesc) (values : List Datum) (isnull : List Bool) : HTuple :=
  heap_form_tuple_shard td values isnull .NoShard

/-- `fetchatt`: read one column value at data offset `off`. -/
def fetchatt (a : Attr) (data : List Nat) (off : Nat) : Datum :=
  if a.attbyval then .byval (leVal a.attlen.toNat (data.drop off))
  else if a.attlen == -1 then .byref ((data.drop off).take (varSizeAny (data.drop off)))
  else if a.attlen == -2 then .byref ((data.drop off).takeWhile (· ≠ 0) ++ [0])
  else .byref ((data.drop off).take a.attlen.toNat)

/-- `att_align_pointer`: for a varlena whose first byte is nonzero the
position is already the value start; otherwise round up (padding is zero). -/
def att_align_pointer (a : Attr) (data : List Nat) (off : Nat) : Nat :=
  if a.attlen == -1 && data.getD off 0 ≠ 0 then off else alignUp off a.attalign

/-- `att_addlength_pointer`: advance past the value at `off`. -/
def att_addlength_pointer (a : Attr) (data : List Nat) (off : Nat) : Nat :=
  if a.attlen == -1 then off + varSizeAny (data.drop off)
  else if a.attlen == -2 then off + ((data.drop off).takeWhile (· ≠ 0)).length + 1
  else off + a.attlen.toNat

/-- Loop state of the deforming routines: the output arrays, the shared
attribute-offset cache, the data cursor and the `slow` (cache distrust) flag. -/
structure DStat where
  values : List Datum
  nulls : List Bool
  cache : List Int
  off : Nat
  slow : Bool
  deriving DecidableEq, Repr

/-- One iteration of the `heap_deform_tuple` / `slot_deform_tuple` loop, for
attribute `i` (0-based). -/
def deformStep (td : TupleDesc) (tup : HTuple) (i : Nat) (st : DStat) : DStat :=
  let a := td.attrs.getD i default
  if HeapTupleHasNulls tup && att_isnull i tup.t_bits then
    { st with values := st.values.set i (.byval 0), nulls := st.nulls.set i true, slow := true }
  else
    let c := st.cache.getD i (-1)
    let s1 : Nat × List Int × Bool :=
      if st.slow = false ∧ 0 ≤ c then (c.toNat, st.cache, st.slow)
      else if a.attlen == -1 then
        if st.slow = false ∧ alignUp st.off a.attalign = st.off then
          (st.off, st.cache.set i (Int.ofNat st.off), st.slow)
        else (att_align_pointer a tup.tdata st.off, st.cache, true)
      else
        let o := alignUp st.off a.attalign
        (o, if st.slow = false then st.cache.set i (Int.ofNat o) else st.cache, st.slow)
    { values := st.values.set i (fetchatt a tup.tdata s1.1)
      nulls := st.nulls.set i false
      cache := s1.2.1
      off := att_addlength_pointer a tup.tdata s1.1
      slow := s1.2.2 || a.attlen ≤ 0 }

/-- `count`-fold of `deformStep` starting at attribute `i`. -/
def deform_loop (td : TupleDesc) (tup : HTuple) : Nat → Nat → DStat → DStat
  | 0, _, st => st
  | n + 1, i, st => deform_loop td tup n (i + 1) (deformStep td tup i st)

/-- State of the cache-free reference byte-walk. -/
structure WStat where
  values : List Datum
  nulls : List Bool
  off : Nat
  deriving DecidableEq, Repr

/-- One step of the cache-free byte-walk: align as the data dictates, fetch,
advance — never consulting nor writing the offset cache. -/
def walkStep (td : TupleDesc) (tup : HTuple) (i : Nat) (st : WStat) : WStat :=
  let a := td.attrs.getD i default
  if HeapTupleHasNulls tup && att_isnull i tup.t_bits then
    { st with values := st.values.set i (.byval 0), nulls := st.nulls.set i true }
  else
    let o := if a.attlen == -1 then att_align_pointer a tup.tdata st.off
             else alignUp st.off a.attalign
    { values := st.values.set i (fetchatt a tup.tdata o)
      nulls := st.nulls.set i false
      off := att_addlength_pointer a tup.tdata o }

def walk_loop (td : TupleDesc) (tup : HTuple) : Nat → Nat → WStat → WStat
  | 0, _, st => st
  | n + 1, i, st => walk_loop td tup n (i + 1) (walkStep td tup i st)

/-- `getmissingattr` (1-based `attnum`): the column's missing value when one
is flagged present, else null. -/
def getmissingattr (td : TupleDesc) (attnum : Nat) : Datum × Bool :=
  let a := td.attrs.getD (attnum - 1) default
  if a.atthasmissing && !a.attisdropped then
    match td.missing with
    | some tbl =>
      match tbl.getD (attnum - 1) none with
      | some d => (d, false)
      | none => (.byval 0, true)
    | none => (.byval 0, true)
  else (.byval 0, true)

/-- Tail loop of `heap_deform_tuple`: fill attributes the physical tuple does
not have from the missing-values table. -/
def missingTail (td : TupleDesc) : Nat → Nat → List Datum → List Bool → List Datum × List Bool
  | 0, _, vs, ns => (vs, ns)
  | k + 1, i, vs, ns =>
    let m := getmissingattr td (i + 1)
    missingTail td k (i + 1) (vs.set i m.1) (ns.set i m.2)

structure DeformOut where
  values : List Datum
  nulls : List Bool
  cache : List Int
  deriving DecidableEq, Repr

/-- Well-formed zipped column list: each attribute is well formed and each
non-null datum matches its column. -/
def wfItems (items : List (Attr × Datum × Bool)) : Bool :=
  items.all fun x => wfAttr x.1 && (x.2.2 || wfDatum x.1 x.2.1)

/-- Well-formed input row for the encoder. -/
def wfRow (td : TupleDesc) (values : List Datum) (isnull : List Bool) : Bool :=
  values.length == td.natts && isnull.length == td.natts &&
  wfItems (zip3 td.attrs values isnull)

/-- `heap_deform_tuple`: extract all columns of a tuple into values/isnull
arrays, reading and updating the shared offset cache. -/
def heap_deform_tuple (td : TupleDesc) (cache : List Int) (tup : HTuple) : DeformOut :=
  let natts := min tup.tupNatts td.natts
  let st := deform_loop td tup natts 0
    ⟨List.replicate td.natts (.byval 0), List.replicate td.natts true, cache, 0, false⟩
  let t := missingTail td (td.natts - natts) natts st.values st.nulls
  ⟨t.1, t.2, st.cache⟩

/-! ## Basic arithmetic and byte-codec lemmas -/

theorem alignUp_ge {a : Nat} (off : Nat) (ha : 1 ≤ a) : off ≤ alignUp off a := by
  have h := Nat.div_add_mod (off + a - 1) a
  have hm : (off + a - 1) % a < a := Nat.mod_lt _ (by omega)
  unfold alignUp
  rw [Nat.mul_comm] at h
  omega

theorem alignUp_one (off : Nat) : alignUp off 1 = off := by
  simp [alignUp]

theorem alignUp_zero_left {a : Nat} (ha : 1 ≤ a) : alignUp 0 a = 0 := by
  have h0 : (0 + a - 1) / a = 0 := Nat.div_eq_of_lt (by omega)
  unfold alignUp
  rw [h0, Nat.zero_mul]

theorem leBytes_length (k v : Nat) : (leBytes k v).length = k := by
  induction k generalizing v with
  | zero => rfl
  | succ k ih => simp [leBytes, ih]

theorem leBytes_lt (k v : Nat) : ∀ b ∈ leBytes k v, b < 256 := by
  induction k generalizing v with
  | zero => simp [leBytes]
  | succ k ih =>
    simp only [leBytes, List.mem_cons]
    rintro b (rfl | hb)
    · exact Nat.mod_lt _ (by omega)
    · exact ih _ _ hb

theorem leVal_leBytes (k v : Nat) (r : List Nat) (hv : v < 256 ^ k) :
    leVal k (leBytes k v ++ r) = v := by
  induction k generalizing v with
  | zero =>
    simp only [pow_zero, Nat.lt_one_iff] at hv
    simp [leVal, leBytes, hv]
  | succ k ih =>
    have hdiv : v / 256 < 256 ^ k := by
      rw [Nat.div_lt_iff_lt_mul (by omega)]
      calc v < 256 ^ (k + 1) := hv
        _ = 256 ^ k * 256 := by ring
    simp only [leBytes, leVal, List.cons_append, List.headD_cons, List.tail_cons]
    rw [ih _ hdiv]
    omega

theorem drop_append_len {α : Type} (l₁ l₂ : List α) (n : Nat) (h : n = l₁.length) :
    (l₁ ++ l₂).drop n = l₂ := by
  subst h
  simp

theorem take_append_len {α : Type} (l₁ l₂ : List α) (n : Nat) (h : n = l₁.length) :
    (l₁ ++ l₂).take n = l₁ := by
  subst h
  simp

theorem takeWhile_append_zero (l : List Nat) (h : ∀ b ∈ l, b ≠ 0) (r : List Nat) :
    (l ++ 0 :: r).takeWhile (· ≠ 0) = l := by
  induction l with
  | nil => simp [List.takeWhile]
  | cons x xs ih =>
    have hx : x ≠ 0 := h x (by simp)
    have ih2 := ih (fun b hb => h b (by simp [hb]))
    rw [List.cons_append, List.takeWhile_cons, if_pos (by simp [hx]), ih2]

theorem getLast?_split (l : List Nat) (h : l.getLast? = some 0) :
    l = l.dropLast ++ [0] := by
  induction l with
  | nil => simp at h
  | cons x xs ih =>
    cases xs with
    | nil =>
      simp only [List.getLast?_singleton, Option.some.injEq] at h
      simp [h]
    | cons y ys =>
      rw [List.getLast?_cons_cons] at h
      have h2 := ih h
      rw [List.dropLast_cons_of_ne_nil (by simp)]
      conv_lhs => rw [h2]
      simp

/-! ## Facts extracted from well-formed varlena bytes -/

theorem wfVarlena_external {bs : List Nat} (h : wfVarlenaBytes bs = true)
    (he : bs.headD 0 = 128) : bs.length = 18 := by
  unfold wfVarlenaBytes at h
  rw [Bool.and_eq_true] at h
  have h2 := h.2
  rw [if_pos (by rw [beq_iff_eq]; exact he)] at h2
  rw [Bool.and_eq_true] at h2
  simpa using h2.1

theorem wfVarlena_short {bs : List Nat} (h : wfVarlenaBytes bs = true)
    (hs : 128 < bs.headD 0) : bs.length = bs.headD 0 - 128 := by
  unfold wfVarlenaBytes at h
  rw [Bool.and_eq_true] at h
  have h2 := h.2
  rw [if_neg (by simp only [beq_iff_eq]; omega),
     if_pos (by omega : 128 ≤ bs.headD 0)] at h2
  simpa using h2

theorem wfVarlena_full {bs : List Nat} (h : wfVarlenaBytes bs = true)
    (hf : bs.headD 0 < 128) : 4 ≤ bs.length ∧ varSize4B bs = bs.length := by
  unfold wfVarlenaBytes at h
  rw [Bool.and_eq_true] at h
  have h2 := h.2
  rw [if_neg (by simp only [beq_iff_eq]; omega),
     if_neg (by omega : ¬ 128 ≤ bs.headD 0)] at h2
  rw [Bool.and_eq_true] at h2
  exact ⟨by simpa using h2.1, by simpa using h2.2⟩

theorem wfVarlena_bytes_lt {bs : List Nat} (h : wfVarlenaBytes bs = true) :
    ∀ b ∈ bs, b < 256 := by
  unfold wfVarlenaBytes at h
  rw [Bool.and_eq_true] at h
  have h1 := h.1
  simp only [List.all_eq_true, decide_eq_true_eq] at h1
  exact h1

/-! ## Facts extracted from well-formed attributes -/

theorem wfAttr_align {a : Attr} (h : wfAttr a = true) : 1 ≤ a.attalign := by
  unfold wfAttr at h
  simp only [Bool.and_eq_true, Bool.or_eq_true, beq_iff_eq] at h
  omega

theorem wfAttr_len_cases {a : Attr} (h : wfAttr a = true) :
    0 < a.attlen ∨ a.attlen = -1 ∨ a.attlen = -2 := by
  unfold wfAttr at h
  simp only [Bool.and_eq_true, Bool.or_eq_true, beq_iff_eq, decide_eq_true_eq] at h
  omega

theorem wfAttr_byval_len {a : Attr} (h : wfAttr a = true) (hb : a.attbyval = true) :
    a.attlen = 1 ∨ a.attlen = 2 ∨ a.attlen = 4 ∨ a.attlen = 8 := by
  unfold wfAttr at h
  simp only [Bool.and_eq_true, Bool.or_eq_true, beq_iff_eq, decide_eq_true_eq, hb,
    Bool.not_true, Bool.false_eq_true, false_or] at h
  omega

theorem wfAttr_cstring_align {a : Attr} (h : wfAttr a = true) (hl : a.attlen = -2) :
    a.attalign = 1 := by
  unfold wfAttr at h
  simp only [Bool.and_eq_true, Bool.or_eq_true, beq_iff_eq, decide_eq_true_eq, hl] at h
  omega

/-! ## Size agreement: fill length matches heap_compute_data_size -/

theorem fill_val_len (a : Attr) (d : Datum) (off : Nat)
    (ha : wfAttr a = true) (hd : wfDatum a d = true) :
    off + (fill_val a d off).1.length = computeSizeOne a d off := by
  have hal : 1 ≤ a.attalign := wfAttr_align ha
  have hle := alignUp_ge off hal
  by_cases hbv : a.attbyval = true
  · have hlen : 0 < a.attlen := by rcases wfAttr_byval_len ha hbv with h | h | h | h <;> omega
    have hne1 : a.attlen ≠ -1 := by omega
    have hne2 : a.attlen ≠ -2 := by omega
    simp [fill_val, computeSizeOne, ATT_IS_PACKABLE, att_align_datum,
      att_addlength_datum, hbv, hne1, hne2, leBytes_length]
    omega
  · have hbv' : a.attbyval = false := by revert hbv; cases a.attbyval <;> simp
    rcases wfAttr_len_cases ha with hpos | hm1 | hm2
    · -- fixed-length pass-by-reference
      have hne1 : a.attlen ≠ -1 := by omega
      have hne2 : a.attlen ≠ -2 := by omega
      obtain ⟨bs, rfl⟩ : ∃ bs, d = .byref bs := by
        cases d with
        | byref bs => exact ⟨bs, rfl⟩
        | byval v => simp [wfDatum, hbv', hne1, hne2] at hd
        | expanded f => simp [wfDatum, hbv', hne1, hne2] at hd
      have hlen : bs.length = a.attlen.toNat := by
        simp [wfDatum, hbv', hne1, hne2] at hd
        exact hd.2
      simp [fill_val, computeSizeOne, ATT_IS_PACKABLE, att_align_datum,
        att_addlength_datum, hbv', hne1, hne2, pointerBytes, hlen]
      omega
    · -- varlena
      cases d with
      | byval v => simp [wfDatum, hbv', hm1] at hd
      | expanded flat =>
        have cCMS : varattCanMakeShort (pointerBytes (Datum.expanded flat)) = false := by
          unfold varattCanMakeShort varattIs4BU pointerBytes
          simp
        simp [fill_val, computeSizeOne, ATT_IS_PACKABLE, isExpandedD, hbv', hm1,
          cCMS, flatSize]
        omega
      | byref bs =>
        have hwf : wfVarlenaBytes bs = true := by
          simpa [wfDatum, hbv', hm1] using hd
        have hb256 : bs.headD 0 < 256 := by
          cases bs with
          | nil => simp
          | cons x xs => exact wfVarlena_bytes_lt hwf x (by simp)
        by_cases hext : bs.headD 0 = 128
        · -- external toast pointer, copied verbatim without alignment
          have hlen18 := wfVarlena_external hwf hext
          have cExt : varattIsExternal bs = true := by
            unfold varattIsExternal
            rw [beq_iff_eq]
            exact hext
          have cCMS : varattCanMakeShort bs = false := by
            unfold varattCanMakeShort varattIs4BU
            rw [decide_eq_false (by omega : ¬ bs.headD 0 < 64), Bool.false_and]
          have hext2 : bs.head?.getD 0 = 128 := by
            rw [← List.headD_eq_head?_getD]
            exact hext
          simp [fill_val, computeSizeOne, ATT_IS_PACKABLE, isExpandedD, hbv', hm1,
            pointerBytes, att_align_datum, att_addlength_datum, varSizeAny, cExt,
            cCMS, varattIs1B, hlen18, varSizeExternal, hext, hext2]
        · by_cases hshort : 128 ≤ bs.headD 0
          · -- already-short varlena, copied verbatim without alignment
            have hlenS := wfVarlena_short hwf (by omega)
            have cExt : varattIsExternal bs = false := by
              unfold varattIsExternal
              rw [beq_eq_false_iff_ne]
              exact hext
            have c1B : varattIs1B bs = true := by
              unfold varattIs1B
              exact decide_eq_true hshort
            have cCMS : varattCanMakeShort bs = false := by
              unfold varattCanMakeShort varattIs4BU
              rw [decide_eq_false (by omega : ¬ bs.headD 0 < 64), Bool.false_and]
            simp [fill_val, computeSizeOne, ATT_IS_PACKABLE, isExpandedD, hbv', hm1,
              pointerBytes, att_align_datum, att_addlength_datum, varSizeAny, cExt,
              c1B, cCMS, varSize1B, hlenS]
          · -- 4-byte-header input
            obtain ⟨hge4, hsz⟩ := wfVarlena_full hwf (by omega)
            have cExt : varattIsExternal bs = false := by
              unfold varattIsExternal
              rw [beq_eq_false_iff_ne]
              exact hext
            have c1B : varattIs1B bs = false := by
              unfold varattIs1B
              exact decide_eq_false (by omega)
            by_cases hpack : (!a.attstoragePlain && varattCanMakeShort bs) = true
            · rw [Bool.and_eq_true] at hpack
              simp [fill_val, computeSizeOne, ATT_IS_PACKABLE, isExpandedD, hbv', hm1,
                pointerBytes, cExt, c1B, hpack.1, hpack.2, toShortForm,
                varattConvertedShortSize, hsz]
            · have cPK : (!a.attstoragePlain && varattCanMakeShort bs) = false := by
                revert hpack
                cases (!a.attstoragePlain && varattCanMakeShort bs) <;> simp
              simp [fill_val, computeSizeOne, ATT_IS_PACKABLE, isExpandedD, hbv', hm1,
                pointerBytes, att_align_datum, att_addlength_datum, varSizeAny, cExt,
                c1B, cPK, hsz]
              omega
    · -- cstring
      have hne1 : a.attlen ≠ -1 := by omega
      have hca := wfAttr_cstring_align ha hm2
      obtain ⟨bs, rfl⟩ : ∃ bs, d = .byref bs := by
        cases d with
        | byref bs => exact ⟨bs, rfl⟩
        | byval v => simp [wfDatum, hbv', hne1, hm2] at hd
        | expanded f => simp [wfDatum, hbv', hne1, hm2] at hd
      have hcs : bs.getLast? = some 0 ∧ (∀ b ∈ bs.dropLast, b ≠ 0) := by
        have hne1b : (a.attlen == -1) = false := by simp only [beq_eq_false_iff_ne, ne_eq]; omega
        have he2b : (a.attlen == -2) = true := by simp [hm2]
        rw [wfDatum, if_neg (by simp [hbv']), if_neg (by simp [hne1b]),
          if_pos (by simp [he2b])] at hd
        rw [Bool.and_eq_true, Bool.and_eq_true] at hd
        refine ⟨by simpa using hd.1.2, ?_⟩
        have h2 := hd.2
        simp only [List.all_eq_true, decide_eq_true_eq] at h2
        exact h2
      have hsplit := getLast?_split bs hcs.1
      have hnz : ∀ b ∈ bs.dropLast, b ≠ 0 := hcs.2
      have htw : bs.takeWhile (· ≠ 0) = bs.dropLast := by
        conv_lhs => rw [hsplit]
        have h3 := takeWhile_append_zero bs.dropLast hnz []
        simpa using h3
      have hblen : bs.length = bs.dropLast.length + 1 := by
        conv_lhs => rw [hsplit]
        simp
      have htw2 : List.takeWhile (fun x => !decide (x = 0)) bs = bs.dropLast := by
        have hfun : (fun (x : Nat) => !decide (x = 0)) = fun x => decide (x ≠ 0) := by
          funext x
          simp
        rw [hfun]
        exact htw
      simp [fill_val, computeSizeOne, ATT_IS_PACKABLE, att_align_datum,
        att_addlength_datum, hbv', hne1, hm2, pointerBytes, htw2, hca, alignUp_one]
      omega

theorem computeSizeLoop_eq_fill (items : List (Attr × Datum × Bool)) (off : Nat)
    (h : wfItems items = true) :
    computeSizeLoop items off = off + (fillLoop items off).1.length := by
  induction items generalizing off with
  | nil => simp [computeSizeLoop, fillLoop]
  | cons x rest ih =>
    obtain ⟨a, d, n⟩ := x
    have hx : (wfAttr a && (n || wfDatum a d)) = true ∧ wfItems rest = true := by
      unfold wfItems at h ⊢
      rw [List.all_cons, Bool.and_eq_true] at h
      exact h
    cases n with
    | true =>
      simp only [computeSizeLoop, fillLoop, if_pos rfl, if_true]
      exact ih off hx.2
    | false =>
      rw [Bool.and_eq_true, Bool.false_or] at hx
      have h1 := fill_val_len a d off hx.1.1 hx.1.2
      simp only [computeSizeLoop, fillLoop, Bool.false_eq_true, if_false]
      rw [ih _ hx.2, ← h1]
      simp only [List.length_append]
      omega

/-! ## Null bitmap bit layout -/

theorem bit_of_mod {x c : Nat} (p : Nat) (hmod : x % 2 ^ (p + 1) = c) :
    x / 2 ^ p % 2 = c / 2 ^ p % 2 := by
  have hx := Nat.div_add_mod x (2 ^ (p + 1))
  rw [hmod] at hx
  have hp : (0:Nat) < 2 ^ p := Nat.pos_pow_of_pos _ (by omega)
  have hsplit : 2 ^ (p + 1) = 2 ^ p * 2 := by ring
  calc x / 2 ^ p % 2 = (2 ^ (p + 1) * (x / 2 ^ (p + 1)) + c) / 2 ^ p % 2 := by rw [hx]
    _ = (2 ^ p * (2 * (x / 2 ^ (p + 1))) + c) / 2 ^ p % 2 := by ring_nf
    _ = (2 * (x / 2 ^ (p + 1)) + c / 2 ^ p) % 2 := by
        rw [Nat.mul_add_div hp]
    _ = c / 2 ^ p % 2 := by omega

theorem fillBitmapAux_head_mod (rest : List Bool) (cur j : Nat) (hj : j ≤ 7)
    (hcur : cur < 2 ^ (j + 1)) :
    (fillBitmapAux rest cur (2 ^ j)).headD 0 % 2 ^ (j + 1) = cur := by
  induction rest generalizing cur j with
  | nil => simp [fillBitmapAux, Nat.mod_eq_of_lt hcur]
  | cons n rest ih =>
    by_cases h7 : j = 7
    · subst h7
      rw [fillBitmapAux, if_pos (by norm_num)]
      simp only [List.headD_cons]
      exact Nat.mod_eq_of_lt hcur
    · have hlt : 2 ^ j < 128 := by
        calc 2 ^ j < 2 ^ 7 := Nat.pow_lt_pow_right (by omega) (by omega)
          _ = 128 := by norm_num
      rw [fillBitmapAux, if_neg (by simp only [beq_iff_eq]; omega)]
      have hpow : 2 ^ j * 2 = 2 ^ (j + 1) := by ring
      have hpow2 : 2 ^ (j + 1 + 1) = 2 ^ (j + 1) * 2 := by ring
      have hcur2 : (if n then cur else cur + 2 ^ j * 2) < 2 ^ (j + 1 + 1) := by
        cases n
        · rw [if_neg (by simp)]
          omega
        · rw [if_pos rfl]
          omega
      have ihx := ih (if n then cur else cur + 2 ^ j * 2) (j + 1) (by omega) hcur2
      rw [hpow] at ihx ⊢
      have hdvd : 2 ^ (j + 1) ∣ 2 ^ (j + 1 + 1) := pow_dvd_pow 2 (by omega)
      calc (fillBitmapAux rest (if n then cur else cur + 2 ^ (j + 1)) (2 ^ (j + 1))).headD 0
            % 2 ^ (j + 1)
          = (fillBitmapAux rest (if n then cur else cur + 2 ^ (j + 1)) (2 ^ (j + 1))).headD 0
            % 2 ^ (j + 1 + 1) % 2 ^ (j + 1) := by rw [Nat.mod_mod_of_dvd _ hdvd]
        _ = (if n then cur else cur + 2 ^ (j + 1)) % 2 ^ (j + 1) := by rw [ihx]
        _ = cur := by
            cases n
            · rw [if_neg (by simp), Nat.add_mod_right]
              exact Nat.mod_eq_of_lt hcur
            · rw [if_pos rfl]
              exact Nat.mod_eq_of_lt hcur

theorem fillBitmapAux_get (rest : List Bool) (cur j : Nat) (hj : j ≤ 7)
    (hcur : cur < 2 ^ (j + 1)) (i : Nat) (hi : i < rest.length) :
    att_isnull (j + 1 + i) (fillBitmapAux rest cur (2 ^ j)) = rest.getD i true := by
  induction rest generalizing cur j i with
  | nil => simp at hi
  | cons n rest ih =>
    by_cases h7 : j = 7
    · subst h7
      rw [fillBitmapAux, if_pos (by norm_num)]
      cases i with
      | zero =>
        have hh := fillBitmapAux_head_mod rest (if n then 0 else 1) 0 (by omega)
          (by cases n <;> simp)
        simp only [att_isnull]
        have hp : (7 + 1 + 0) / 8 = 1 := by norm_num
        have hm : (7 + 1 + 0) % 8 = 0 := by norm_num
        rw [hp, hm]
        have hg : (cur :: fillBitmapAux rest (if n then 0 else 1) (2 ^ 0)).getD 1 0 =
            (fillBitmapAux rest (if n then 0 else 1) (2 ^ 0)).headD 0 := by
          cases hx : fillBitmapAux rest (if n then 0 else 1) (2 ^ 0) with
          | nil => simp [List.getD]
          | cons y ys => simp [List.getD]
        rw [show (2:Nat)^0 = 1 from rfl] at hg
        rw [hg]
        have := hh
        rw [show (2:Nat)^(0+1) = 2 from rfl] at this
        rw [show (2:Nat)^0 = 1 from rfl] at this ⊢
        rw [Nat.div_one]
        rw [this]
        cases n <;> simp
      | succ i' =>
        have hrec := ih (if n then 0 else 1) 0 (by omega) (by cases n <;> simp) i'
          (by simpa using hi)
        simp only [att_isnull] at hrec ⊢
        have hp : (7 + 1 + (i' + 1)) / 8 = 1 + (0 + 1 + i') / 8 := by omega
        have hm : (7 + 1 + (i' + 1)) % 8 = (0 + 1 + i') % 8 := by omega
        rw [hp, hm]
        have hg : ∀ (k : Nat) (tl : List Nat),
            (cur :: tl).getD (1 + k) 0 = tl.getD k 0 := by
          intro k tl
          simp [List.getD_cons_succ, Nat.add_comm 1 k]
        rw [hg]
        simpa using hrec
    · have hlt : 2 ^ j < 128 := by
        calc 2 ^ j < 2 ^ 7 := Nat.pow_lt_pow_right (by omega) (by omega)
          _ = 128 := by norm_num
      rw [fillBitmapAux, if_neg (by simp only [beq_iff_eq]; omega)]
      have hpow : 2 ^ j * 2 = 2 ^ (j + 1) := by ring
      have hcur2 : (if n then cur else cur + 2 ^ j * 2) < 2 ^ (j + 1 + 1) := by
        have h2 : 2 ^ (j + 1 + 1) = 2 ^ (j + 1) * 2 := by ring
        cases n <;> simp <;> omega
      cases i with
      | zero =>
        have hh := fillBitmapAux_head_mod rest (if n then cur else cur + 2 ^ j * 2)
          (j + 1) (by omega) hcur2
        simp only [att_isnull]
        have hj8 : j + 1 + 0 < 8 := by omega
        have hp : (j + 1 + 0) / 8 = 0 := Nat.div_eq_of_lt hj8
        have hm : (j + 1 + 0) % 8 = j + 1 := by omega
        rw [hp, hm]
        have hg : (fillBitmapAux rest (if n then cur else cur + 2 ^ j * 2) (2 ^ j * 2)).getD 0 0
            = (fillBitmapAux rest (if n then cur else cur + 2 ^ j * 2) (2 ^ j * 2)).headD 0 := by
          cases hx : fillBitmapAux rest (if n then cur else cur + 2 ^ j * 2) (2 ^ j * 2) with
          | nil => simp [List.getD]
          | cons y ys => simp [List.getD]
        rw [hg, hpow]
        rw [hpow] at hh
        have hb := bit_of_mod (j + 1) hh
        rw [hb]
        have hcc : (if n then cur else cur + 2 ^ (j + 1)) / 2 ^ (j + 1) % 2
            = if n then 0 else 1 := by
          have hpos : (0:Nat) < 2 ^ (j + 1) := Nat.pos_pow_of_pos _ (by omega)
          cases n
          · rw [if_neg (by simp), Nat.add_div_right _ hpos, Nat.div_eq_of_lt hcur]
            simp
          · rw [if_pos rfl, Nat.div_eq_of_lt hcur]
            simp
        rw [hcc]
        cases n <;> simp
      | succ i' =>
        have hrec := ih (if n then cur else cur + 2 ^ j * 2) (j + 1) (by omega) hcur2 i'
          (by simpa using hi)
        rw [hpow] at hrec ⊢
        have heq : j + 1 + (i' + 1) = j + 1 + 1 + i' := by omega
        rw [heq]
        simpa using hrec

theorem att_isnull_fillBitmap (nulls : List Bool) (i : Nat) (hi : i < nulls.length) :
    att_isnull i (fillBitmap nulls) = nulls.getD i true := by
  cases nulls with
  | nil => simp at hi
  | cons n rest =>
    cases i with
    | zero =>
      rw [fillBitmap]
      have hh := fillBitmapAux_head_mod rest (if n then 0 else 1) 0 (by omega)
        (by cases n <;> simp)
      simp only [att_isnull]
      have hg : (fillBitmapAux rest (if n then 0 else 1) 1).getD 0 0 =
          (fillBitmapAux rest (if n then 0 else 1) 1).headD 0 := by
        cases hx : fillBitmapAux rest (if n then 0 else 1) 1 with
        | nil => simp [List.getD]
        | cons y ys => simp [List.getD]
      rw [show (2:Nat)^0 = 1 from rfl] at hh ⊢
      rw [show (2:Nat)^(0+1) = 2 from rfl] at hh
      rw [Nat.div_one, hg, hh]
      cases n <;> simp
    | succ i' =>
      rw [fillBitmap]
      have hrec := fillBitmapAux_get rest (if n then 0 else 1) 0 (by omega)
        (by cases n <;> simp) i' (by simpa using hi)
      rw [show (2:Nat)^0 = 1 from rfl] at hrec
      have heq : 0 + 1 + i' = i' + 1 := by omega
      rw [heq] at hrec
      simpa using hrec

/-! ## Decoding what fill_val wrote -/

/-- The form in which a non-null input datum ends up stored inside the tuple:
verbatim except for small 4-byte-header varlenas on packable columns (packed
to short form) and expanded objects (flattened). -/
def storedDatum (a : Attr) (d : Datum) : Datum :=
  if a.attbyval then d
  else if a.attlen == -1 then
    match d with
    | .expanded flat => .byref flat
    | .byval v => .byval v
    | .byref bs =>
      if varattIsExternal bs then .byref bs
      else if varattIs1B bs then .byref bs
      else if !a.attstoragePlain && varattCanMakeShort bs then .byref (toShortForm bs)
      else .byref bs
  else d

theorem getD_eq_drop_headD {α : Type} (l : List α) (i : Nat) (d : α) :
    l.getD i d = (l.drop i).headD d := by
  induction l generalizing i with
  | nil => simp [List.getD]
  | cons x xs ih =>
    cases i with
    | zero => simp [List.getD]
    | succ n => simpa [List.getD] using ih n

theorem headD_append_left {α : Type} (l1 l2 : List α) (d : α) (h : l1 ≠ []) :
    (l1 ++ l2).headD d = l1.headD d := by
  cases l1 with
  | nil => simp at h
  | cons x xs => simp

theorem varSize4B_append (bs R : List Nat) (h : 4 ≤ bs.length) :
    varSize4B (bs ++ R) = varSize4B bs := by
  unfold varSize4B
  rw [headD_append_left _ _ _ (by intro hc; subst hc; simp at h),
    List.getD_append _ _ _ _ (by omega), List.getD_append _ _ _ _ (by omega),
    List.getD_append _ _ _ _ (by omega)]

theorem varSizeAny_stored_full (bs R : List Nat) (hb : bs.headD 0 < 128)
    (h4 : 4 ≤ bs.length) (hsz : varSize4B bs = bs.length) :
    varSizeAny (bs ++ R) = bs.length ∧ (bs ++ R).take bs.length = bs := by
  have hne : bs ≠ [] := by intro hc; subst hc; simp at h4
  have hh : (bs ++ R).headD 0 = bs.headD 0 := headD_append_left _ _ _ hne
  constructor
  · unfold varSizeAny varattIsExternal varattIs1B
    rw [if_neg (by rw [beq_iff_eq, hh]; omega),
      if_neg (by rw [decide_eq_true_eq, hh]; omega),
      varSize4B_append _ _ h4, hsz]
  · exact take_append_len _ _ _ rfl

theorem varSizeAny_stored_ext (bs R : List Nat) (hb : bs.headD 0 = 128)
    (hlen : bs.length = 18) :
    varSizeAny (bs ++ R) = 18 ∧ (bs ++ R).take 18 = bs := by
  have hne : bs ≠ [] := by intro hc; subst hc; simp at hb
  have hh : (bs ++ R).headD 0 = bs.headD 0 := headD_append_left _ _ _ hne
  constructor
  · unfold varSizeAny varattIsExternal varSizeExternal
    rw [if_pos (by rw [beq_iff_eq, hh]; exact hb)]
  · exact take_append_len _ _ _ hlen.symm

theorem varSizeAny_stored_short (bs R : List Nat) (hb : 128 < bs.headD 0)
    (hlen : bs.length = bs.headD 0 - 128) :
    varSizeAny (bs ++ R) = bs.length ∧ (bs ++ R).take bs.length = bs := by
  have hne : bs ≠ [] := by
    intro hc
    subst hc
    simp at hb
  have hh : (bs ++ R).headD 0 = bs.headD 0 := headD_append_left _ _ _ hne
  constructor
  · unfold varSizeAny varattIsExternal varattIs1B varSize1B
    rw [if_neg (by rw [beq_iff_eq, hh]; omega),
      if_pos (by rw [decide_eq_true_eq, hh]; omega), hh]
    omega
  · exact take_append_len _ _ _ rfl

/-- `att_align_pointer` on a data region where the padding written before an
aligned value is zero lands exactly on the aligned offset. -/
theorem att_align_pointer_fill (a : Attr) (D vb R : List Nat) (hal : 1 ≤ a.attalign) :
    att_align_pointer a ((D ++ List.replicate (alignUp D.length a.attalign - D.length) 0) ++
      (vb ++ R)) D.length = alignUp D.length a.attalign := by
  rw [att_align_pointer]
  by_cases hpc : alignUp D.length a.attalign = D.length
  · rw [hpc]
    exact ite_self _
  · have hle := alignUp_ge D.length hal
    have hrep : List.replicate (alignUp D.length a.attalign - D.length) 0 =
        0 :: List.replicate (alignUp D.length a.attalign - D.length - 1) 0 := by
      have h1 : alignUp D.length a.attalign - D.length =
          (alignUp D.length a.attalign - D.length - 1) + 1 := by omega
      rw [h1]
      simp [List.replicate_succ]
    rw [if_neg]
    simp only [Bool.and_eq_true, decide_eq_true_eq, not_and, ne_eq, not_not]
    intro _
    have hdrop0 : ((D ++ List.replicate (alignUp D.length a.attalign - D.length) 0) ++
        (vb ++ R)).drop D.length =
        List.replicate (alignUp D.length a.attalign - D.length) 0 ++ (vb ++ R) := by
      rw [List.append_assoc]
      exact drop_append_len _ _ _ rfl
    rw [getD_eq_drop_headD, hdrop0, hrep]
    simp

/-- Decoding one column from data written by `fill_val`: the byte-walk
alignment plus `fetchatt` recovers the stored form of the value, and
`att_addlength_pointer` advances exactly past the written chunk. -/
theorem fill_step_decode (a : Attr) (d : Datum) (D R : List Nat)
    (ha : wfAttr a = true) (hd : wfDatum a d = true) :
    fetchatt a (D ++ ((fill_val a d D.length).1 ++ R))
        (if a.attlen == -1
         then att_align_pointer a (D ++ ((fill_val a d D.length).1 ++ R)) D.length
         else alignUp D.length a.attalign) = storedDatum a d ∧
    att_addlength_pointer a (D ++ ((fill_val a d D.length).1 ++ R))
        (if a.attlen == -1
         then att_align_pointer a (D ++ ((fill_val a d D.length).1 ++ R)) D.length
         else alignUp D.length a.attalign)
      = D.length + (fill_val a d D.length).1.length := by
  have hal : 1 ≤ a.attalign := wfAttr_align ha
  have hle := alignUp_ge D.length hal
  by_cases hbv : a.attbyval = true
  · -- pass-by-value
    have hlenp : 0 < a.attlen := by rcases wfAttr_byval_len ha hbv with h | h | h | h <;> omega
    have hne1 : a.attlen ≠ -1 := by omega
    have hne2 : a.attlen ≠ -2 := by omega
    obtain ⟨v, rfl⟩ : ∃ v, d = .byval v := by
      cases d with
      | byval v => exact ⟨v, rfl⟩
      | byref bs => simp [wfDatum, hbv] at hd
      | expanded f => simp [wfDatum, hbv] at hd
    have hv : v < 256 ^ a.attlen.toNat := by
      simpa [wfDatum, hbv] using hd
    have hch : (fill_val a (Datum.byval v) D.length).1 =
        List.replicate (alignUp D.length a.attalign - D.length) 0 ++
          leBytes a.attlen.toNat v := by
      simp [fill_val, hbv, scalarOf]
    have hbeq : (a.attlen == -1) = false := by simp [hne1]
    rw [hch]
    simp only [hbeq, Bool.false_eq_true, if_false]
    have hdata : D ++ ((List.replicate (alignUp D.length a.attalign - D.length) 0 ++
        leBytes a.attlen.toNat v) ++ R) =
        (D ++ List.replicate (alignUp D.length a.attalign - D.length) 0) ++
          (leBytes a.attlen.toNat v ++ R) := by
      simp [List.append_assoc]
    rw [hdata]
    have hdlen : (D ++ List.replicate (alignUp D.length a.attalign - D.length) 0).length =
        alignUp D.length a.attalign := by
      simp
      omega
    have hdrop : ((D ++ List.replicate (alignUp D.length a.attalign - D.length) 0) ++
        (leBytes a.attlen.toNat v ++ R)).drop (alignUp D.length a.attalign) =
        leBytes a.attlen.toNat v ++ R := drop_append_len _ _ _ hdlen.symm
    constructor
    · rw [fetchatt, if_pos hbv, hdrop, leVal_leBytes _ _ _ hv]
      simp [storedDatum, hbv]
    · rw [att_addlength_pointer, if_neg (by simp [hne1]), if_neg (by simp [hne2])]
      simp only [List.length_append, List.length_replicate, leBytes_length]
      omega
  · have hbv' : a.attbyval = false := by revert hbv; cases a.attbyval <;> simp
    rcases wfAttr_len_cases ha with hpos | hm1 | hm2
    · -- fixed-length pass-by-reference
      have hne1 : a.attlen ≠ -1 := by omega
      have hne2 : a.attlen ≠ -2 := by omega
      obtain ⟨bs, rfl⟩ : ∃ bs, d = .byref bs := by
        cases d with
        | byref bs => exact ⟨bs, rfl⟩
        | byval v => simp [wfDatum, hbv', hne1, hne2] at hd
        | expanded f => simp [wfDatum, hbv', hne1, hne2] at hd
      have hlen : bs.length = a.attlen.toNat := by
        simp [wfDatum, hbv', hne1, hne2] at hd
        exact hd.2
      have hch : (fill_val a (Datum.byref bs) D.length).1 =
          List.replicate (alignUp D.length a.attalign - D.length) 0 ++ bs := by
        simp [fill_val, hbv', hne1, hne2, pointerBytes, List.take_of_length_le, hlen.le]
      have hbeq : (a.attlen == -1) = false := by simp [hne1]
      rw [hch]
      simp only [hbeq, Bool.false_eq_true, if_false]
      have hdata : D ++ ((List.replicate (alignUp D.length a.attalign - D.length) 0 ++ bs) ++ R) =
          (D ++ List.replicate (alignUp D.length a.attalign - D.length) 0) ++ (bs ++ R) := by
        simp [List.append_assoc]
      rw [hdata]
      have hdlen : (D ++ List.replicate (alignUp D.length a.attalign - D.length) 0).length =
          alignUp D.length a.attalign := by
        simp
        omega
      have hdrop : ((D ++ List.replicate (alignUp D.length a.attalign - D.length) 0) ++
          (bs ++ R)).drop (alignUp D.length a.attalign) = bs ++ R :=
        drop_append_len _ _ _ hdlen.symm
      constructor
      · rw [fetchatt, if_neg (by simp [hbv']), if_neg (by simp [hne1]),
          if_neg (by simp [hne2]), hdrop, ← hlen, take_append_len _ _ _ rfl]
        simp [storedDatum, hbv', hne1]
      · rw [att_addlength_pointer, if_neg (by simp [hne1]), if_neg (by simp [hne2])]
        simp only [List.length_append, List.length_replicate]
        omega
    · -- varlena
      have he1 : (a.attlen == -1) = true := by simp [hm1]
      cases d with
      | byval v => simp [wfDatum, hbv', hm1] at hd
      | expanded flat =>
        have hwfe : (∀ b ∈ flat, b < 256) ∧ 4 ≤ flat.length ∧ flat.headD 0 < 64 ∧
            varSize4B flat = flat.length := by
          have hh := hd
          simp [wfDatum, hbv', hm1] at hh
          refine ⟨hh.1.1.1, hh.1.1.2, ?_, hh.2⟩
          rw [List.headD_eq_head?_getD]
          exact hh.1.2
        have hch : (fill_val a (Datum.expanded flat) D.length).1 =
            List.replicate (alignUp D.length a.attalign - D.length) 0 ++ flat := by
          simp [fill_val, hbv', hm1, isExpandedD]
        rw [hch, if_pos he1]
        have hdata : D ++ ((List.replicate (alignUp D.length a.attalign - D.length) 0 ++ flat)
            ++ R) = (D ++ List.replicate (alignUp D.length a.attalign - D.length) 0) ++
            (flat ++ R) := by
          simp [List.append_assoc]
        rw [hdata]
        have hdlen : (D ++ List.replicate (alignUp D.length a.attalign - D.length) 0).length =
            alignUp D.length a.attalign := by
          simp
          omega
        have hdrop : ((D ++ List.replicate (alignUp D.length a.attalign - D.length) 0) ++
            (flat ++ R)).drop (alignUp D.length a.attalign) = flat ++ R :=
          drop_append_len _ _ _ hdlen.symm
        have hfne : flat ≠ [] := by
          intro hc
          rw [hc] at hwfe
          simp at hwfe
        obtain ⟨hany, htake⟩ := varSizeAny_stored_full flat R (by omega) hwfe.2.1 hwfe.2.2.2
        have ho := att_align_pointer_fill a D flat R hal
        rw [ho]
        constructor
        · rw [fetchatt, if_neg (by simp [hbv']), if_pos he1, hdrop, hany, htake]
          simp [storedDatum, hbv', hm1]
        · rw [att_addlength_pointer, if_pos he1, hdrop, hany]
          simp only [List.length_append, List.length_replicate]
          omega
      | byref bs =>
        have hwf : wfVarlenaBytes bs = true := by
          simpa [wfDatum, hbv', hm1] using hd
        have hb256 : bs.headD 0 < 256 := by
          cases bs with
          | nil => simp
          | cons x xs => exact wfVarlena_bytes_lt hwf x (by simp)
        by_cases hext : bs.headD 0 = 128
        · -- external toast pointer
          have hlen18 := wfVarlena_external hwf hext
          have hch : (fill_val a (Datum.byref bs) D.length).1 = bs := by
            have cExt : varattIsExternal bs = true := by
              unfold varattIsExternal
              rw [beq_iff_eq]
              exact hext
            simp [fill_val, hbv', hm1, isExpandedD, pointerBytes, cExt,
              varSizeExternal, List.take_of_length_le, hlen18.le]
          rw [hch, if_pos he1]
          have hdrop : (D ++ (bs ++ R)).drop D.length = bs ++ R :=
            drop_append_len _ _ _ rfl
          have hne : bs ≠ [] := by intro hc; rw [hc] at hlen18; simp at hlen18
          have ho : att_align_pointer a (D ++ (bs ++ R)) D.length = D.length := by
            rw [att_align_pointer, if_pos]
            simp only [Bool.and_eq_true, decide_eq_true_eq, ne_eq]
            refine ⟨he1, ?_⟩
            rw [getD_eq_drop_headD, hdrop, headD_append_left _ _ _ hne]
            omega
          rw [ho]
          obtain ⟨hany, htake⟩ := varSizeAny_stored_ext bs R hext hlen18
          constructor
          · rw [fetchatt, if_neg (by simp [hbv']), if_pos he1, hdrop, hany, htake]
            have cExt : varattIsExternal bs = true := by
              unfold varattIsExternal
              rw [beq_iff_eq]
              exact hext
            simp [storedDatum, hbv', hm1, cExt]
          · rw [att_addlength_pointer, if_pos he1, hdrop, hany]
            omega
        · by_cases hshort : 128 ≤ bs.headD 0
          · -- already-short varlena
            have hs : 128 < bs.headD 0 := by omega
            have hlenS := wfVarlena_short hwf hs
            have c1B : varattIs1B bs = true := by
              unfold varattIs1B
              exact decide_eq_true hshort
            have cExt : varattIsExternal bs = false := by
              unfold varattIsExternal
              rw [beq_eq_false_iff_ne]
              exact hext
            have hch : (fill_val a (Datum.byref bs) D.length).1 = bs := by
              simp [fill_val, hbv', hm1, isExpandedD, pointerBytes, cExt, c1B,
                varSize1B, List.take_of_length_le, hlenS.le]
              rw [← List.headD_eq_head?_getD]
              omega
            rw [hch, if_pos he1]
            have hdrop : (D ++ (bs ++ R)).drop D.length = bs ++ R :=
              drop_append_len _ _ _ rfl
            have hne : bs ≠ [] := by
              intro hc
              rw [hc] at hs
              simp at hs
            have ho : att_align_pointer a (D ++ (bs ++ R)) D.length = D.length := by
              rw [att_align_pointer, if_pos]
              simp only [Bool.and_eq_true, decide_eq_true_eq, ne_eq]
              refine ⟨he1, ?_⟩
              rw [getD_eq_drop_headD, hdrop, headD_append_left _ _ _ hne]
              omega
            rw [ho]
            obtain ⟨hany, htake⟩ := varSizeAny_stored_short bs R hs hlenS
            constructor
            · rw [fetchatt, if_neg (by simp [hbv']), if_pos he1, hdrop, hany, htake]
              simp [storedDatum, hbv', hm1, cExt, c1B]
            · rw [att_addlength_pointer, if_pos he1, hdrop, hany]
          · -- 4-byte-header input
            obtain ⟨hge4, hsz⟩ := wfVarlena_full hwf (by omega)
            have cExt : varattIsExternal bs = false := by
              unfold varattIsExternal
              rw [beq_eq_false_iff_ne]
              exact hext
            have c1B : varattIs1B bs = false := by
              unfold varattIs1B
              exact decide_eq_false (by omega)
            by_cases hpack : (!a.attstoragePlain && varattCanMakeShort bs) = true
            · -- converted to short form
              rw [Bool.and_eq_true] at hpack
              have hcms := hpack.2
              rw [varattCanMakeShort, Bool.and_eq_true] at hcms
              have hfit : varSize4B bs - 4 + 1 ≤ 127 := by
                simpa using hcms.2
              have hch : (fill_val a (Datum.byref bs) D.length).1 = toShortForm bs := by
                simp [fill_val, hbv', hm1, isExpandedD, pointerBytes, cExt, c1B,
                  hpack.1, hpack.2]
              rw [hch, if_pos he1]
              have hdrop : (D ++ (toShortForm bs ++ R)).drop D.length = toShortForm bs ++ R :=
                drop_append_len _ _ _ rfl
              have hhead : (toShortForm bs).headD 0 = 128 + (bs.length - 4 + 1) := by
                rw [toShortForm, hsz]
                simp
              have hlenT : (toShortForm bs).length = bs.length - 4 + 1 := by
                rw [toShortForm]
                simp
              have hlow : 1 ≤ bs.length - 4 + 1 := by omega
              have ho : att_align_pointer a (D ++ (toShortForm bs ++ R)) D.length =
                  D.length := by
                rw [att_align_pointer, if_pos]
                simp only [Bool.and_eq_true, decide_eq_true_eq, ne_eq]
                refine ⟨he1, ?_⟩
                rw [getD_eq_drop_headD, hdrop,
                  headD_append_left _ _ _ (by rw [toShortForm]; simp), hhead]
                omega
              rw [ho]
              have hlenS2 : (toShortForm bs).length = (toShortForm bs).headD 0 - 128 := by
                rw [hhead, hlenT]
                omega
              obtain ⟨hany, htake⟩ := varSizeAny_stored_short (toShortForm bs) R
                (by rw [hhead]; omega) hlenS2
              constructor
              · rw [fetchatt, if_neg (by simp [hbv']), if_pos he1, hdrop, hany, htake]
                simp [storedDatum, hbv', hm1, cExt, c1B, hpack.1, hpack.2]
              · rw [att_addlength_pointer, if_pos he1, hdrop, hany]
            · -- kept in 4-byte-header form
              have cPK : (!a.attstoragePlain && varattCanMakeShort bs) = false := by
                revert hpack
                cases (!a.attstoragePlain && varattCanMakeShort bs) <;> simp
              have hch : (fill_val a (Datum.byref bs) D.length).1 =
                  List.replicate (alignUp D.length a.attalign - D.length) 0 ++ bs := by
                simp [fill_val, hbv', hm1, isExpandedD, pointerBytes, cExt, c1B, cPK,
                  List.take_of_length_le, hsz, le_refl]
              rw [hch, if_pos he1]
              have hdata : D ++ ((List.replicate (alignUp D.length a.attalign - D.length) 0 ++
                  bs) ++ R) = (D ++ List.replicate
                  (alignUp D.length a.attalign - D.length) 0) ++ (bs ++ R) := by
                simp [List.append_assoc]
              rw [hdata]
              have hdlen : (D ++ List.replicate
                  (alignUp D.length a.attalign - D.length) 0).length =
                  alignUp D.length a.attalign := by
                simp
                omega
              have hdrop : ((D ++ List.replicate (alignUp D.length a.attalign - D.length) 0)
                  ++ (bs ++ R)).drop (alignUp D.length a.attalign) = bs ++ R :=
                drop_append_len _ _ _ hdlen.symm
              have hbne : bs ≠ [] := by intro hc; rw [hc] at hge4; simp at hge4
              have ho := att_align_pointer_fill a D bs R hal
              rw [ho]
              obtain ⟨hany, htake⟩ := varSizeAny_stored_full bs R (by omega) hge4 hsz
              constructor
              · rw [fetchatt, if_neg (by simp [hbv']), if_pos he1, hdrop, hany, htake]
                simp [storedDatum, hbv', hm1, cExt, c1B, cPK]
              · rw [att_addlength_pointer, if_pos he1, hdrop, hany]
                simp only [List.length_append, List.length_replicate]
                omega
    · -- cstring
      have hne1 : a.attlen ≠ -1 := by omega
      have hca := wfAttr_cstring_align ha hm2
      obtain ⟨bs, rfl⟩ : ∃ bs, d = .byref bs := by
        cases d with
        | byref bs => exact ⟨bs, rfl⟩
        | byval v => simp [wfDatum, hbv', hne1, hm2] at hd
        | expanded f => simp [wfDatum, hbv', hne1, hm2] at hd
      have hcs : bs.getLast? = some 0 ∧ (∀ b ∈ bs.dropLast, b ≠ 0) := by
        have hne1b : (a.attlen == -1) = false := by simp only [beq_eq_false_iff_ne, ne_eq]; omega
        have he2b : (a.attlen == -2) = true := by simp [hm2]
        rw [wfDatum, if_neg (by simp [hbv']), if_neg (by simp [hne1b]),
          if_pos (by simp [he2b])] at hd
        rw [Bool.and_eq_true, Bool.and_eq_true] at hd
        refine ⟨by simpa using hd.1.2, ?_⟩
        have h2 := hd.2
        simp only [List.all_eq_true, decide_eq_true_eq] at h2
        exact h2
      have hsplit := getLast?_split bs hcs.1
      have hnz : ∀ b ∈ bs.dropLast, b ≠ 0 := hcs.2
      have htwbs : bs.takeWhile (· ≠ 0) = bs.dropLast := by
        conv_lhs => rw [hsplit]
        have h3 := takeWhile_append_zero bs.dropLast hnz []
        simpa using h3
      have hblen : bs.length = bs.dropLast.length + 1 := by
        conv_lhs => rw [hsplit]
        simp
      have htwbs2 : List.takeWhile (fun x => !decide (x = 0)) bs = bs.dropLast := by
        have hfun : (fun (x : Nat) => !decide (x = 0)) = fun x => decide (x ≠ 0) := by
          funext x
          simp
        rw [hfun]
        exact htwbs
      have hch : (fill_val a (Datum.byref bs) D.length).1 = bs := by
        simp [fill_val, hbv', hne1, hm2, pointerBytes]
        rw [htwbs2, ← hblen]
      have hbeq : (a.attlen == -1) = false := by simp [hne1]
      rw [hch]
      simp only [hbeq, Bool.false_eq_true, if_false]
      have hdrop : (D ++ (bs ++ R)).drop (alignUp D.length a.attalign) = bs ++ R := by
        rw [hca, alignUp_one]
        exact drop_append_len _ _ _ rfl
      have htwR : (bs ++ R).takeWhile (· ≠ 0) = bs.dropLast := by
        conv_lhs => rw [hsplit]
        rw [List.append_assoc, List.cons_append]
        exact takeWhile_append_zero bs.dropLast hnz R
      constructor
      · rw [fetchatt, if_neg (by simp [hbv']), if_neg (by simp [hne1]),
          if_pos (by simp [hm2]), hdrop, htwR]
        rw [← hsplit]
        simp [storedDatum, hbv', hne1, hm2]
      · rw [att_addlength_pointer, if_neg (by simp [hne1]), if_pos (by simp [hm2]),
          hdrop, htwR, hca, alignUp_one]
        omega

/-! ## The cache-free byte-walk decodes a filled data region -/

def setSeq {α : Type} : List α → Nat → List α → List α
  | l, _, [] => l
  | l, i, x :: xs => setSeq (l.set i x) (i + 1) xs

theorem drop_cons_getD {α : Type} [Inhabited α] (l : List α) (i : Nat) (h : i < l.length) :
    l.drop i = l.getD i default :: l.drop (i + 1) := by
  induction l generalizing i with
  | nil => simp at h
  | cons x xs ih =>
    cases i with
    | zero => simp [List.getD]
    | succ n =>
      have := ih n (by simpa using h)
      simpa [List.getD] using this

theorem getD_mem_of_lt {α : Type} [Inhabited α] (l : List α) (i : Nat) (h : i < l.length) :
    l.getD i default ∈ l := by
  induction l generalizing i with
  | nil => simp at h
  | cons x xs ih =>
    cases i with
    | zero => simp [List.getD]
    | succ n =>
      have := ih n (by simpa using h)
      simp [List.getD]
      right
      simpa [List.getD] using this

theorem zip3_length (as : List Attr) (ds : List Datum) (ns : List Bool)
    (h1 : ds.length = as.length) (h2 : ns.length = as.length) :
    (zip3 as ds ns).length = as.length := by
  induction as generalizing ds ns with
  | nil => simp at h1 h2; cases ds <;> cases ns <;> simp [zip3]
  | cons a as ih =>
    cases ds with
    | nil => simp at h1
    | cons d ds =>
      cases ns with
      | nil => simp at h2
      | cons n ns =>
        simp only [zip3, List.length_cons]
        rw [ih ds ns (by simpa using h1) (by simpa using h2)]

theorem zip3_getD (as : List Attr) (ds : List Datum) (ns : List Bool) (i : Nat)
    (h1 : ds.length = as.length) (h2 : ns.length = as.length) (hi : i < as.length) :
    (zip3 as ds ns).getD i default =
      (as.getD i default, ds.getD i default, ns.getD i false) := by
  induction as generalizing ds ns i with
  | nil => simp at hi
  | cons a as ih =>
    cases ds with
    | nil => simp at h1
    | cons d ds =>
      cases ns with
      | nil => simp at h2
      | cons n ns =>
        cases i with
        | zero => simp [zip3, List.getD]
        | succ j =>
          simp only [zip3, List.getD_cons_succ]
          exact ih ds ns j (by simpa using h1) (by simpa using h2) (by simpa using hi)

/-- The cache-free byte-walk over a data region produced by `fillLoop`
recovers the stored values, the isnull flags, and ends its cursor exactly at
the end of the written bytes. -/
theorem walk_loop_fill (td : TupleDesc) (tup : HTuple) (vals : List Datum)
    (nulls : List Bool)
    (hva : vals.length = td.attrs.length) (hna : nulls.length = td.attrs.length)
    (hwf : wfItems (zip3 td.attrs vals nulls) = true)
    (hnul : ∀ j, j < td.attrs.length →
      (HeapTupleHasNulls tup && att_isnull j tup.t_bits) = nulls.getD j false) :
    ∀ (k i : Nat) (D : List Nat) (vs0 : List Datum) (ns0 : List Bool),
      i + k = td.attrs.length →
      tup.tdata = D ++ (fillLoop ((zip3 td.attrs vals nulls).drop i) D.length).1 →
      walk_loop td tup k i ⟨vs0, ns0, D.length⟩ =
        ⟨setSeq vs0 i (((zip3 td.attrs vals nulls).drop i).map
            (fun x => if x.2.2 then Datum.byval 0 else storedDatum x.1 x.2.1)),
         setSeq ns0 i (nulls.drop i),
         D.length + (fillLoop ((zip3 td.attrs vals nulls).drop i) D.length).1.length⟩ := by
  have hzlen : (zip3 td.attrs vals nulls).length = td.attrs.length :=
    zip3_length _ _ _ hva hna
  intro k
  induction k with
  | zero =>
    intro i D vs0 ns0 hik hdata
    have hi : td.attrs.length ≤ i := by omega
    have hdr : (zip3 td.attrs vals nulls).drop i = [] :=
      List.drop_eq_nil_of_le (by omega)
    have hdrn : nulls.drop i = [] := List.drop_eq_nil_of_le (by omega)
    rw [walk_loop, hdr, hdrn]
    simp [fillLoop, setSeq]
  | succ k ih =>
    intro i D vs0 ns0 hik hdata
    have hi : i < td.attrs.length := by omega
    have hdr : (zip3 td.attrs vals nulls).drop i =
        (zip3 td.attrs vals nulls).getD i default :: (zip3 td.attrs vals nulls).drop (i + 1) :=
      drop_cons_getD _ _ (by omega)
    have hget := zip3_getD td.attrs vals nulls i hva hna hi
    have hdrn : nulls.drop i = nulls.getD i false :: nulls.drop (i + 1) := by
      have := drop_cons_getD nulls i (by omega)
      simpa using this
    have hwfi : (wfAttr (td.attrs.getD i default) &&
        (nulls.getD i false || wfDatum (td.attrs.getD i default) (vals.getD i default)))
          = true := by
      have hmem := getD_mem_of_lt (zip3 td.attrs vals nulls) i (by omega)
      rw [hget] at hmem
      unfold wfItems at hwf
      rw [List.all_eq_true] at hwf
      exact hwf _ hmem
    rw [Bool.and_eq_true] at hwfi
    have hstep : walk_loop td tup (k + 1) i ⟨vs0, ns0, D.length⟩ =
        walk_loop td tup k (i + 1) (walkStep td tup i ⟨vs0, ns0, D.length⟩) := rfl
    rw [hstep]
    by_cases hn : nulls.getD i false = true
    · -- null column: no bytes written, value comes back as 0/null
      have hws : walkStep td tup i ⟨vs0, ns0, D.length⟩ =
          ⟨vs0.set i (.byval 0), ns0.set i true, D.length⟩ := by
        rw [walkStep, if_pos]
        rw [hnul i hi]
        exact hn
      rw [hws]
      have hfl : (fillLoop ((zip3 td.attrs vals nulls).drop i) D.length).1 =
          (fillLoop ((zip3 td.attrs vals nulls).drop (i + 1)) D.length).1 := by
        rw [hdr, hget]
        simp only [fillLoop]
        rw [if_pos hn]
      rw [hfl] at hdata
      have hrec := ih (i + 1) D (vs0.set i (.byval 0)) (ns0.set i true) (by omega) hdata
      rw [hrec, hdr, hget, hdrn, hn]
      simp only [WStat.mk.injEq, List.map_cons, setSeq, fillLoop, eq_self_iff_true,
        if_true]
    · have hnf : nulls.getD i false = false := by
        revert hn
        cases nulls.getD i false <;> simp
      have hwfd : wfDatum (td.attrs.getD i default) (vals.getD i default) = true := by
        have h2 := hwfi.2
        rw [hnf, Bool.false_or] at h2
        exact h2
      have hfl : (fillLoop ((zip3 td.attrs vals nulls).drop i) D.length).1 =
          (fill_val (td.attrs.getD i default) (vals.getD i default) D.length).1 ++
          (fillLoop ((zip3 td.attrs vals nulls).drop (i + 1))
            (D.length + (fill_val (td.attrs.getD i default) (vals.getD i default)
              D.length).1.length)).1 := by
        rw [hdr, hget]
        simp only [fillLoop]
        rw [if_neg (by rw [hnf]; simp)]
      have hdata2 : tup.tdata =
          D ++ ((fill_val (td.attrs.getD i default) (vals.getD i default) D.length).1 ++
          (fillLoop ((zip3 td.attrs vals nulls).drop (i + 1))
            (D.length + (fill_val (td.attrs.getD i default) (vals.getD i default)
              D.length).1.length)).1) := by
        rw [hdata, hfl]
      obtain ⟨hfetch, haddlen⟩ := fill_step_decode (td.attrs.getD i default)
        (vals.getD i default) D
        ((fillLoop ((zip3 td.attrs vals nulls).drop (i + 1))
            (D.length + (fill_val (td.attrs.getD i default) (vals.getD i default)
              D.length).1.length)).1) hwfi.1 hwfd
      have hws : walkStep td tup i ⟨vs0, ns0, D.length⟩ =
          ⟨vs0.set i (storedDatum (td.attrs.getD i default) (vals.getD i default)),
           ns0.set i false,
           D.length + (fill_val (td.attrs.getD i default) (vals.getD i default)
             D.length).1.length⟩ := by
        rw [walkStep, if_neg]
        · rw [hdata2]
          dsimp only
          rw [hfetch, haddlen]
        · rw [hnul i hi, hnf]
          simp
      rw [hws]
      have hctail : D.length + (fill_val (td.attrs.getD i default) (vals.getD i default)
          D.length).1.length =
          (D ++ (fill_val (td.attrs.getD i default) (vals.getD i default) D.length).1).length
          := by simp
      have hdata3 : tup.tdata =
          (D ++ (fill_val (td.attrs.getD i default) (vals.getD i default) D.length).1) ++
          (fillLoop ((zip3 td.attrs vals nulls).drop (i + 1))
            ((D ++ (fill_val (td.attrs.getD i default) (vals.getD i default)
              D.length).1).length)).1 := by
        rw [hdata2, ← hctail]
        simp [List.append_assoc]
      have hrec := ih (i + 1)
        (D ++ (fill_val (td.attrs.getD i default) (vals.getD i default) D.length).1)
        (vs0.set i (storedDatum (td.attrs.getD i default) (vals.getD i default)))
        (ns0.set i false) (by omega) hdata3
      rw [hfl, hctail, hrec, hdr, hget, hdrn, hnf]
      simp only [WStat.mk.injEq, List.map_cons, setSeq, Bool.false_eq_true, if_false,
        List.length_append, eq_self_iff_true, true_and, and_true]
      omega

/-! ## Offset-cache well-formedness -/

/-- Offset of column `i` reached through all-fixed-length preceding columns:
the value `attcacheoff` caching arithmetic is built on. -/
def fixedSizeTo (td : TupleDesc) : Nat → Nat
  | 0 => 0
  | i + 1 => alignUp (fixedSizeTo td i) (td.attrs.getD i default).attalign +
      (td.attrs.getD i default).attlen.toNat

/-- The one value `attcacheoff` of column `i` may legitimately hold. -/
def canonOff (td : TupleDesc) (i : Nat) : Nat :=
  alignUp (fixedSizeTo td i) (td.attrs.getD i default).attalign

/-- All columns before `i` have fixed positive length. -/
def prefixFixed (td : TupleDesc) (i : Nat) : Bool :=
  (List.range i).all fun j => decide (0 < (td.attrs.getD j default).attlen)

/-- Cache well-formedness: a set entry is the canonical offset of a column
reachable through fixed-length columns only, and for a varlena column the
canonical offset is alignment-clean. -/
def cacheWF (td : TupleDesc) (cache : List Int) : Bool :=
  cache.length == td.natts &&
  (List.range td.natts).all fun i =>
    cache.getD i (-1) < 0 ||
    (prefixFixed td i && cache.getD i (-1) == (canonOff td i : Int) &&
     ((td.attrs.getD i default).attlen ≠ -1 ||
      alignUp (fixedSizeTo td i) (td.attrs.getD i default).attalign == fixedSizeTo td i))

theorem getD_set_self {α : Type} (l : List α) (i : Nat) (v d : α) (h : i < l.length) :
    (l.set i v).getD i d = v := by
  induction l generalizing i with
  | nil => simp at h
  | cons x xs ih =>
    cases i with
    | zero => simp [List.getD]
    | succ j => simpa [List.getD] using ih j (by simpa using h)

theorem getD_set_ne {α : Type} (l : List α) (i j : Nat) (v d : α) (h : i ≠ j) :
    (l.set i v).getD j d = l.getD j d := by
  induction l generalizing i j with
  | nil => simp [List.getD]
  | cons x xs ih =>
    cases i with
    | zero =>
      cases j with
      | zero => omega
      | succ j2 => simp [List.getD]
    | succ i2 =>
      cases j with
      | zero => simp [List.getD]
      | succ j2 => simpa [List.getD] using ih i2 j2 (by omega)

theorem cacheWF_length {td : TupleDesc} {cache : List Int}
    (h : cacheWF td cache = true) : cache.length = td.natts := by
  unfold cacheWF at h
  rw [Bool.and_eq_true] at h
  simpa using h.1

theorem cacheWF_entry {td : TupleDesc} {cache : List Int}
    (h : cacheWF td cache = true) (i : Nat) (hi : i < td.natts)
    (hnn : 0 ≤ cache.getD i (-1)) :
    prefixFixed td i = true ∧ cache.getD i (-1) = (canonOff td i : Int) ∧
      ((td.attrs.getD i default).attlen = -1 →
        alignUp (fixedSizeTo td i) (td.attrs.getD i default).attalign = fixedSizeTo td i) := by
  unfold cacheWF at h
  rw [Bool.and_eq_true] at h
  have h2 := h.2
  rw [List.all_eq_true] at h2
  have h3 := h2 i (by simp [List.mem_range]; omega)
  rw [Bool.or_eq_true] at h3
  rcases h3 with h3 | h3
  · simp only [decide_eq_true_eq] at h3
    omega
  · rw [Bool.and_eq_true, Bool.and_eq_true] at h3
    refine ⟨h3.1.1, by simpa using h3.1.2, ?_⟩
    intro hm1
    have h4 := h3.2
    rw [Bool.or_eq_true] at h4
    rcases h4 with h4 | h4
    · simp only [decide_eq_true_eq] at h4
      omega
    · simpa using h4

theorem cacheWF_set_canon {td : TupleDesc} {cache : List Int}
    (h : cacheWF td cache = true) (i : Nat) (hi : i < td.natts)
    (hpf : prefixFixed td i = true)
    (hcl : (td.attrs.getD i default).attlen = -1 →
      alignUp (fixedSizeTo td i) (td.attrs.getD i default).attalign = fixedSizeTo td i) :
    cacheWF td (cache.set i (Int.ofNat (canonOff td i))) = true := by
  have hlen := cacheWF_length h
  unfold cacheWF
  rw [Bool.and_eq_true]
  constructor
  · simp [hlen]
  · rw [List.all_eq_true]
    intro j hj
    rw [List.mem_range] at hj
    by_cases hij : i = j
    · subst hij
      rw [getD_set_self _ _ _ _ (by omega)]
      rw [Bool.or_eq_true]
      right
      rw [Bool.and_eq_true, Bool.and_eq_true]
      refine ⟨⟨hpf, by simp⟩, ?_⟩
      rw [Bool.or_eq_true]
      by_cases hm : (td.attrs.getD i default).attlen = -1
      · right
        rw [beq_iff_eq]
        exact hcl hm
      · left
        rw [decide_eq_true_eq]
        exact hm
    · rw [getD_set_ne _ _ _ _ _ hij]
      unfold cacheWF at h
      rw [Bool.and_eq_true] at h
      have h2 := h.2
      rw [List.all_eq_true] at h2
      exact h2 j (by simp [List.mem_range]; omega)

theorem prefixFixed_succ (td : TupleDesc) (i : Nat) (h : prefixFixed td i = true)
    (hl : 0 < (td.attrs.getD i default).attlen) : prefixFixed td (i + 1) = true := by
  unfold prefixFixed at h ⊢
  rw [List.all_eq_true] at h ⊢
  intro j hj
  rw [List.mem_range] at hj
  by_cases hji : j = i
  · subst hji
    simpa using hl
  · exact h j (by rw [List.mem_range]; omega)

theorem att_align_pointer_self (a : Attr) (data : List Nat) (off : Nat)
    (hal : alignUp off a.attalign = off) :
    att_align_pointer a data off = off := by
  rw [att_align_pointer]
  split
  · rfl
  · exact hal

/-- The deforming loop agrees with the cache-free byte-walk on every output,
for any tuple contents, provided the offset cache is well formed; and the
cache stays well formed. -/
theorem deform_loop_eq_walk (td : TupleDesc) (tup : HTuple) :
    ∀ (k i : Nat) (vs0 : List Datum) (ns0 : List Bool) (off : Nat) (slow : Bool)
      (cache : List Int),
      cacheWF td cache = true →
      (slow = false → off = fixedSizeTo td i ∧ prefixFixed td i = true) →
      i + k ≤ td.natts →
      (deform_loop td tup k i ⟨vs0, ns0, cache, off, slow⟩).values =
          (walk_loop td tup k i ⟨vs0, ns0, off⟩).values ∧
      (deform_loop td tup k i ⟨vs0, ns0, cache, off, slow⟩).nulls =
          (walk_loop td tup k i ⟨vs0, ns0, off⟩).nulls ∧
      (deform_loop td tup k i ⟨vs0, ns0, cache, off, slow⟩).off =
          (walk_loop td tup k i ⟨vs0, ns0, off⟩).off ∧
      cacheWF td (deform_loop td tup k i ⟨vs0, ns0, cache, off, slow⟩).cache = true := by
  intro k
  induction k with
  | zero =>
    intro i vs0 ns0 off slow cache hc hinv hik
    exact ⟨rfl, rfl, rfl, hc⟩
  | succ k ih =>
    intro i vs0 ns0 off slow cache hc hinv hik
    have hi : i < td.natts := by omega
    have hDL : deform_loop td tup (k + 1) i ⟨vs0, ns0, cache, off, slow⟩ =
        deform_loop td tup k (i + 1) (deformStep td tup i ⟨vs0, ns0, cache, off, slow⟩) := rfl
    have hWL : walk_loop td tup (k + 1) i ⟨vs0, ns0, off⟩ =
        walk_loop td tup k (i + 1) (walkStep td tup i ⟨vs0, ns0, off⟩) := rfl
    rw [hDL, hWL]
    by_cases hnull : (HeapTupleHasNulls tup && att_isnull i tup.t_bits) = true
    · have hd1 : deformStep td tup i ⟨vs0, ns0, cache, off, slow⟩ =
          ⟨vs0.set i (.byval 0), ns0.set i true, cache, off, true⟩ := by
        rw [deformStep, if_pos hnull]
      have hw1 : walkStep td tup i ⟨vs0, ns0, off⟩ =
          ⟨vs0.set i (.byval 0), ns0.set i true, off⟩ := by
        rw [walkStep, if_pos hnull]
      rw [hd1, hw1]
      exact ih (i + 1) _ _ _ _ _ hc (by intro hcon; cases hcon) (by omega)
    · -- non-null column
      by_cases hB1 : slow = false ∧ 0 ≤ cache.getD i (-1)
      · -- cached offset reused
        obtain ⟨hpf, hcv, hclean⟩ := cacheWF_entry hc i hi hB1.2
        obtain ⟨hoffS, hpfi⟩ := hinv hB1.1
        have hco : (cache.getD i (-1)).toNat = canonOff td i := by
          rw [hcv]
          simp
        have hwalko : (if (td.attrs.getD i default).attlen == -1
            then att_align_pointer (td.attrs.getD i default) tup.tdata off
            else alignUp off (td.attrs.getD i default).attalign) =
            (cache.getD i (-1)).toNat := by
          rw [hco]
          by_cases hm : (td.attrs.getD i default).attlen = -1
          · rw [if_pos (by rw [beq_iff_eq]; exact hm)]
            have hcl := hclean hm
            have h2 : canonOff td i = fixedSizeTo td i := hcl
            rw [h2, ← hoffS]
            exact att_align_pointer_self _ _ _ (by rw [hoffS]; exact hcl)
          · rw [if_neg (by rw [beq_iff_eq]; exact hm)]
            rw [hoffS]
            rfl
        have hd1 : deformStep td tup i ⟨vs0, ns0, cache, off, slow⟩ =
            ⟨vs0.set i (fetchatt (td.attrs.getD i default) tup.tdata
                ((cache.getD i (-1)).toNat)),
             ns0.set i false, cache,
             att_addlength_pointer (td.attrs.getD i default) tup.tdata
               ((cache.getD i (-1)).toNat),
             slow || (td.attrs.getD i default).attlen ≤ 0⟩ := by
          rw [deformStep, if_neg hnull]
          dsimp only
          rw [if_pos hB1]
        have hw1 : walkStep td tup i ⟨vs0, ns0, off⟩ =
            ⟨vs0.set i (fetchatt (td.attrs.getD i default) tup.tdata
                ((cache.getD i (-1)).toNat)),
             ns0.set i false,
             att_addlength_pointer (td.attrs.getD i default) tup.tdata
               ((cache.getD i (-1)).toNat)⟩ := by
          rw [walkStep, if_neg hnull]
          dsimp only
          rw [hwalko]
        rw [hd1, hw1]
        apply ih (i + 1) _ _ _ _ _ hc _ (by omega)
        intro hs
        rw [Bool.or_eq_false_iff] at hs
        have hlp : 0 < (td.attrs.getD i default).attlen := by
          have := hs.2
          simp only [decide_eq_false_iff_not, not_le] at this
          exact this
        constructor
        · rw [att_addlength_pointer, if_neg (by rw [beq_iff_eq]; omega),
            if_neg (by rw [beq_iff_eq]; omega)]
          rw [hco]
          rfl
        · exact prefixFixed_succ td i hpfi hlp
      · by_cases hm : (td.attrs.getD i default).attlen = -1
        · by_cases hB2 : slow = false ∧ alignUp off (td.attrs.getD i default).attalign = off
          · -- varlena at an alignment-clean offset: cache it
            obtain ⟨hoffS, hpfi⟩ := hinv hB2.1
            have hwalko2 : (if (td.attrs.getD i default).attlen == -1
                then att_align_pointer (td.attrs.getD i default) tup.tdata off
                else alignUp off (td.attrs.getD i default).attalign) = off := by
              rw [if_pos (by rw [beq_iff_eq]; exact hm)]
              exact att_align_pointer_self _ _ _ hB2.2
            have hd1 : deformStep td tup i ⟨vs0, ns0, cache, off, slow⟩ =
                ⟨vs0.set i (fetchatt (td.attrs.getD i default) tup.tdata off),
                 ns0.set i false, cache.set i (Int.ofNat off),
                 att_addlength_pointer (td.attrs.getD i default) tup.tdata off,
                 slow || (td.attrs.getD i default).attlen ≤ 0⟩ := by
              rw [deformStep, if_neg hnull]
              dsimp only
              rw [if_neg hB1, if_pos (by rw [beq_iff_eq]; exact hm), if_pos hB2]
            have hw1 : walkStep td tup i ⟨vs0, ns0, off⟩ =
                ⟨vs0.set i (fetchatt (td.attrs.getD i default) tup.tdata off),
                 ns0.set i false,
                 att_addlength_pointer (td.attrs.getD i default) tup.tdata off⟩ := by
              rw [walkStep, if_neg hnull]
              dsimp only
              rw [hwalko2]
            rw [hd1, hw1]
            have hcanon : off = canonOff td i := by
              unfold canonOff
              rw [← hoffS]
              exact hB2.2.symm
            have hc2 : cacheWF td (cache.set i (Int.ofNat off)) = true := by
              rw [hcanon]
              exact cacheWF_set_canon hc i hi hpfi
                (fun _ => by rw [← hoffS]; exact hB2.2)
            apply ih (i + 1) _ _ _ _ _ hc2 _ (by omega)
            intro hs
            rw [Bool.or_eq_false_iff] at hs
            have := hs.2
            simp only [decide_eq_false_iff_not, not_le, hm] at this
            omega
          · -- varlena, slow or unaligned: byte-directed alignment, no caching
            have hd1 : deformStep td tup i ⟨vs0, ns0, cache, off, slow⟩ =
                ⟨vs0.set i (fetchatt (td.attrs.getD i default) tup.tdata
                    (att_align_pointer (td.attrs.getD i default) tup.tdata off)),
                 ns0.set i false, cache,
                 att_addlength_pointer (td.attrs.getD i default) tup.tdata
                   (att_align_pointer (td.attrs.getD i default) tup.tdata off),
                 true || (td.attrs.getD i default).attlen ≤ 0⟩ := by
              rw [deformStep, if_neg hnull]
              dsimp only
              rw [if_neg hB1, if_pos (by rw [beq_iff_eq]; exact hm), if_neg hB2]
            have hw1 : walkStep td tup i ⟨vs0, ns0, off⟩ =
                ⟨vs0.set i (fetchatt (td.attrs.getD i default) tup.tdata
                    (att_align_pointer (td.attrs.getD i default) tup.tdata off)),
                 ns0.set i false,
                 att_addlength_pointer (td.attrs.getD i default) tup.tdata
                   (att_align_pointer (td.attrs.getD i default) tup.tdata off)⟩ := by
              rw [walkStep, if_neg hnull]
              dsimp only
              rw [if_pos (by rw [beq_iff_eq]; exact hm)]
            rw [hd1, hw1]
            apply ih (i + 1) _ _ _ _ _ hc _ (by omega)
            intro hs
            simp at hs
        · -- fixed-length or cstring: nominal alignment
          have hwalko2 : (if (td.attrs.getD i default).attlen == -1
              then att_align_pointer (td.attrs.getD i default) tup.tdata off
              else alignUp off (td.attrs.getD i default).attalign) =
              alignUp off (td.attrs.getD i default).attalign := by
            rw [if_neg (by rw [beq_iff_eq]; exact hm)]
          have hw1 : walkStep td tup i ⟨vs0, ns0, off⟩ =
              ⟨vs0.set i (fetchatt (td.attrs.getD i default) tup.tdata
                  (alignUp off (td.attrs.getD i default).attalign)),
               ns0.set i false,
               att_addlength_pointer (td.attrs.getD i default) tup.tdata
                 (alignUp off (td.attrs.getD i default).attalign)⟩ := by
            rw [walkStep, if_neg hnull]
            dsimp only
            rw [hwalko2]
          by_cases hslow : slow = false
          · obtain ⟨hoffS, hpfi⟩ := hinv hslow
            have hd1 : deformStep td tup i ⟨vs0, ns0, cache, off, slow⟩ =
                ⟨vs0.set i (fetchatt (td.attrs.getD i default) tup.tdata
                    (alignUp off (td.attrs.getD i default).attalign)),
                 ns0.set i false,
                 cache.set i (Int.ofNat (alignUp off (td.attrs.getD i default).attalign)),
                 att_addlength_pointer (td.attrs.getD i default) tup.tdata
                   (alignUp off (td.attrs.getD i default).attalign),
                 slow || (td.attrs.getD i default).attlen ≤ 0⟩ := by
              rw [deformStep, if_neg hnull]
              dsimp only
              rw [if_neg hB1, if_neg (by rw [beq_iff_eq]; exact hm), if_pos hslow]
            rw [hd1, hw1]
            have hc2 : cacheWF td
                (cache.set i (Int.ofNat (alignUp off (td.attrs.getD i default).attalign)))
                  = true := by
              have : alignUp off (td.attrs.getD i default).attalign = canonOff td i := by
                rw [hoffS]
                rfl
              rw [this]
              exact cacheWF_set_canon hc i hi hpfi (fun hcon => absurd hcon hm)
            apply ih (i + 1) _ _ _ _ _ hc2 _ (by omega)
            intro hs
            rw [Bool.or_eq_false_iff] at hs
            have hlp : 0 < (td.attrs.getD i default).attlen := by
              have := hs.2
              simp only [decide_eq_false_iff_not, not_le] at this
              exact this
            constructor
            · rw [att_addlength_pointer, if_neg (by rw [beq_iff_eq]; omega),
                if_neg (by rw [beq_iff_eq]; omega)]
              rw [hoffS]
              rfl
            · exact prefixFixed_succ td i hpfi hlp
          · have hst : slow = true := by revert hslow; cases slow <;> simp
            have hd1 : deformStep td tup i ⟨vs0, ns0, cache, off, slow⟩ =
                ⟨vs0.set i (fetchatt (td.attrs.getD i default) tup.tdata
                    (alignUp off (td.attrs.getD i default).attalign)),
                 ns0.set i false, cache,
                 att_addlength_pointer (td.attrs.getD i default) tup.tdata
                   (alignUp off (td.attrs.getD i default).attalign),
                 slow || (td.attrs.getD i default).attlen ≤ 0⟩ := by
              rw [deformStep, if_neg hnull]
              dsimp only
              rw [if_neg hB1, if_neg (by rw [beq_iff_eq]; exact hm),
                if_neg (by rw [hst]; simp)]
            rw [hd1, hw1]
            apply ih (i + 1) _ _ _ _ _ hc _ (by omega)
            intro hs
            rw [hst] at hs
            simp at hs

/-! ## Formed-tuple header facts -/

theorem form_tdata (td : TupleDesc) (values : List Datum) (isnull : List Bool)
    (sflag : SetShardFlag) :
    (heap_form_tuple_shard td values isnull sflag).tdata =
      (fillLoop (zip3 td.attrs values isnull) 0).1 := rfl

theorem form_natts (td : TupleDesc) (values : List Datum) (isnull : List Bool)
    (sflag : SetShardFlag) :
    (heap_form_tuple_shard td values isnull sflag).tupNatts = td.natts := rfl

theorem form_tbits (td : TupleDesc) (values : List Datum) (isnull : List Bool)
    (sflag : SetShardFlag) :
    (heap_form_tuple_shard td values isnull sflag).t_bits =
      if isnull.any id then fillBitmap isnull else [] := rfl

theorem infomask_bit0 (im0 : Nat) (h v e : Bool) :
    ((im0 / 8 * 8 + (if h then 1 else 0) + (if v then 2 else 0) + (if e then 4 else 0))
      % 2 == 1) = h := by
  cases h <;> cases v <;> cases e <;> simp <;> omega

theorem infomask_bit1 (im0 : Nat) (h v e : Bool) :
    ((im0 / 8 * 8 + (if h then 1 else 0) + (if v then 2 else 0) + (if e then 4 else 0))
      / 2 % 2 == 1) = v := by
  cases h <;> cases v <;> cases e <;> simp <;> omega

theorem infomask_bit2 (im0 : Nat) (h v e : Bool) :
    ((im0 / 8 * 8 + (if h then 1 else 0) + (if v then 2 else 0) + (if e then 4 else 0))
      / 4 % 2 == 1) = e := by
  cases h <;> cases v <;> cases e <;> simp <;> omega

theorem form_hasnulls (td : TupleDesc) (values : List Datum) (isnull : List Bool)
    (sflag : SetShardFlag) :
    HeapTupleHasNulls (heap_form_tuple_shard td values isnull sflag) =
      isnull.any id := by
  unfold HeapTupleHasNulls heap_form_tuple_shard heap_fill_tuple
  dsimp only
  rw [infomask_bit0]
  exact Bool.and_self _

theorem getD_default_irrel {α : Type} (l : List α) (i : Nat) (d1 d2 : α)
    (h : i < l.length) : l.getD i d1 = l.getD i d2 := by
  induction l generalizing i with
  | nil => simp at h
  | cons x xs ih =>
    cases i with
    | zero => simp [List.getD]
    | succ j => simpa [List.getD] using ih j (by simpa using h)

/-- For a formed tuple, the combined null test of the decode loops agrees with
the input isnull array. -/
theorem form_null_agree (td : TupleDesc) (values : List Datum) (isnull : List Bool)
    (sflag : SetShardFlag) (hlen : isnull.length = td.natts) :
    ∀ j, j < td.natts →
      (HeapTupleHasNulls (heap_form_tuple_shard td values isnull sflag) &&
        att_isnull j (heap_form_tuple_shard td values isnull sflag).t_bits) =
      isnull.getD j false := by
  intro j hj
  by_cases hany : isnull.any id = true
  · rw [form_hasnulls, form_tbits, if_pos hany, hany, Bool.true_and]
    rw [att_isnull_fillBitmap isnull j (by omega)]
    exact getD_default_irrel _ _ _ _ (by omega)
  · rw [Bool.not_eq_true] at hany
    rw [form_hasnulls, hany, Bool.false_and]
    rw [List.any_eq_false] at hany
    have hm := getD_mem_of_lt isnull j (by omega)
    have hx := hany _ hm
    simp only [id] at hx
    cases hget : isnull.getD j (default : Bool) with
    | false => rfl
    | true => exact absurd hget hx

theorem setSeq_cons_succ {α : Type} :
    ∀ (xs : List α) (y : α) (l : List α) (i : Nat),
      setSeq (y :: l) (i + 1) xs = y :: setSeq l i xs := by
  intro xs
  induction xs with
  | nil => intro y l i; rfl
  | cons x xs ih =>
    intro y l i
    show setSeq ((y :: l).set (i + 1) x) (i + 2) xs = y :: setSeq (l.set i x) (i + 1) xs
    rw [List.set_cons_succ]
    exact ih y (l.set i x) (i + 1)

theorem setSeq_zero_full {α : Type} :
    ∀ (xs l0 : List α), l0.length = xs.length → setSeq l0 0 xs = xs := by
  intro xs
  induction xs with
  | nil =>
    intro l0 h
    have h0 : l0 = [] := List.eq_nil_of_length_eq_zero h
    rw [h0]
    rfl
  | cons x xs ih =>
    intro l0 h
    cases l0 with
    | nil => simp at h
    | cons y l0 =>
      show setSeq ((y :: l0).set 0 x) 1 xs = x :: xs
      rw [List.set_cons_zero, setSeq_cons_succ]
      rw [ih l0 (by simpa using h)]

/-- Full deform of a freshly formed tuple: the values come back in stored
form, the isnull array is returned unchanged, and the offset cache stays
well formed. -/
theorem heap_deform_form (td : TupleDesc) (values : List Datum) (isnull : List Bool)
    (cache : List Int) (sflag : SetShardFlag)
    (hwf : wfRow td values isnull = true) (hc : cacheWF td cache = true) :
    (heap_deform_tuple td cache (heap_form_tuple_shard td values isnull sflag)).values =
      (zip3 td.attrs values isnull).map
        (fun x => if x.2.2 then Datum.byval 0 else storedDatum x.1 x.2.1) ∧
    (heap_deform_tuple td cache (heap_form_tuple_shard td values isnull sflag)).nulls =
      isnull ∧
    cacheWF td
      (heap_deform_tuple td cache (heap_form_tuple_shard td values isnull sflag)).cache
        = true := by
  have hva : values.length = td.attrs.length := by
    unfold wfRow at hwf
    rw [Bool.and_eq_true, Bool.and_eq_true] at hwf
    simpa [TupleDesc.natts] using hwf.1.1
  have hna : isnull.length = td.attrs.length := by
    unfold wfRow at hwf
    rw [Bool.and_eq_true, Bool.and_eq_true] at hwf
    simpa [TupleDesc.natts] using hwf.1.2
  have hwi : wfItems (zip3 td.attrs values isnull) = true := by
    unfold wfRow at hwf
    rw [Bool.and_eq_true] at hwf
    exact hwf.2
  have hkey : heap_deform_tuple td cache (heap_form_tuple_shard td values isnull sflag) =
      ⟨(deform_loop td (heap_form_tuple_shard td values isnull sflag) td.natts 0
          ⟨List.replicate td.natts (.byval 0), List.replicate td.natts true,
            cache, 0, false⟩).values,
       (deform_loop td (heap_form_tuple_shard td values isnull sflag) td.natts 0
          ⟨List.replicate td.natts (.byval 0), List.replicate td.natts true,
            cache, 0, false⟩).nulls,
       (deform_loop td (heap_form_tuple_shard td values isnull sflag) td.natts 0
          ⟨List.replicate td.natts (.byval 0), List.replicate td.natts true,
            cache, 0, false⟩).cache⟩ := by
    simp only [heap_deform_tuple, form_natts, Nat.min_self, Nat.sub_self]
    rfl
  have hwalk := walk_loop_fill td (heap_form_tuple_shard td values isnull sflag)
    values isnull hva hna hwi
    (form_null_agree td values isnull sflag (by simpa [TupleDesc.natts] using hna))
    td.natts 0 ([] : List Nat)
    (List.replicate td.natts (.byval 0)) (List.replicate td.natts true)
    (by simp [TupleDesc.natts])
    (by rw [form_tdata]; simp)
  simp only [List.length_nil, List.drop_zero, List.nil_append] at hwalk
  have hA := deform_loop_eq_walk td (heap_form_tuple_shard td values isnull sflag)
    td.natts 0 (List.replicate td.natts (.byval 0)) (List.replicate td.natts true)
    0 false cache hc (fun _ => ⟨rfl, rfl⟩) (by omega)
  rw [hkey]
  refine ⟨?_, ?_, ?_⟩
  · rw [hA.1, hwalk]
    exact setSeq_zero_full _ _ (by
      simp [List.length_map, zip3_length td.attrs values isnull hva hna, TupleDesc.natts])
  · rw [hA.2.1, hwalk]
    exact setSeq_zero_full _ _ (by simp [hna, TupleDesc.natts])
  · exact hA.2.2.2

/-- C2 core equality at the row level. -/
theorem heap_fill_len (td : TupleDesc) (values : List Datum) (isnull : List Bool)
    (infomask0 : Nat) (withBitmap : Bool) (h : wfItems (zip3 td.attrs values isnull) = true) :
    (heap_fill_tuple td values isnull infomask0 withBitmap).1.length =
      heap_compute_data_size td values isnull := by
  have h2 := computeSizeLoop_eq_fill (zip3 td.attrs values isnull) 0 h
  show (fillLoop (zip3 td.attrs values isnull) 0).1.length = _
  unfold heap_compute_data_size
  omega


/-! ## Sample schemas for concrete witnesses and counterexamples -/

/-- Sample column: pass-by-value 4-byte integer (int4-like). -/
def attInt4 : Attr := ⟨4, 4, true, true, false, false⟩

/-- Sample column: packable varlena (text-like, storage extended). -/
def attText : Attr := ⟨-1, 4, false, false, false, false⟩

/-- Sample column: varlena with storage 'p' (not packable). -/
def attTextPlain : Attr := ⟨-1, 4, false, true, false, false⟩

def tdText1 : TupleDesc := ⟨[attText], false, none⟩

def tdInt4Text : TupleDesc := ⟨[attInt4, attText], false, none⟩

def tdInt4Int4 : TupleDesc := ⟨[attInt4, attInt4], false, none⟩

/-! ## C1 -/

/-- C1 counterexample: the round-trip is NOT the identity on values.  On a
packable varlena column, a well-formed value handed in with a 4-byte header
is stored in 1-byte short form, so the decoded bytes differ from the input
bytes even though the row is consistent with the schema and nothing is
null. -/
theorem C1_counterexample :
    wfRow tdText1 [.byref [0, 0, 0, 5, 97]] [false] = true ∧
    cacheWF tdText1 [-1] = true ∧
    (heap_deform_tuple tdText1 [-1]
        (heap_form_tuple tdText1 [.byref [0, 0, 0, 5, 97]] [false])).nulls = [false] ∧
    (heap_deform_tuple tdText1 [-1]
        (heap_form_tuple tdText1 [.byref [0, 0, 0, 5, 97]] [false])).values =
      [.byref [130, 97]] ∧
    Datum.byref [130, 97] ≠ Datum.byref [0, 0, 0, 5, 97] :=
  ⟨by decide, by decide, by decide, by decide, by decide⟩

/-- C1 (amended): decoding a tuple built by `heap_form_tuple_shard` with
`heap_deform_tuple` returns the isnull array unchanged and each non-null
value in stored form — byte-equal to the input except that small
4-byte-header varlenas on packable columns come back in 1-byte short form
and expanded values come back flattened; the offset cache stays well
formed.  (The spec's claim that the values themselves come back byte-equal
is refuted by `C1_counterexample`.) -/
theorem C1_roundtrip_stored (td : TupleDesc) (values : List Datum) (isnull : List Bool)
    (cache : List Int) (sflag : SetShardFlag)
    (hwf : wfRow td values isnull = true) (hc : cacheWF td cache = true) :
    (heap_deform_tuple td cache (heap_form_tuple_shard td values isnull sflag)).values =
      (zip3 td.attrs values isnull).map
        (fun x => if x.2.2 then Datum.byval 0 else storedDatum x.1 x.2.1) ∧
    (heap_deform_tuple td cache (heap_form_tuple_shard td values isnull sflag)).nulls =
      isnull ∧
    cacheWF td
      (heap_deform_tuple td cache (heap_form_tuple_shard td values isnull sflag)).cache
        = true :=
  heap_deform_form td values isnull cache sflag hwf hc

/-- C1 witness: the amended round-trip at a concrete int4 + text row. -/
theorem C1_roundtrip_stored_witness :
    (heap_deform_tuple tdInt4Text [-1, -1]
        (heap_form_tuple_shard tdInt4Text [.byval 7, .byref [0, 0, 0, 6, 104, 105]]
          [false, false] .NoShard)).values =
      (zip3 tdInt4Text.attrs [.byval 7, .byref [0, 0, 0, 6, 104, 105]] [false, false]).map
        (fun x => if x.2.2 then Datum.byval 0 else storedDatum x.1 x.2.1) ∧
    (heap_deform_tuple tdInt4Text [-1, -1]
        (heap_form_tuple_shard tdInt4Text [.byval 7, .byref [0, 0, 0, 6, 104, 105]]
          [false, false] .NoShard)).nulls = [false, false] ∧
    cacheWF tdInt4Text
      (heap_deform_tuple tdInt4Text [-1, -1]
        (heap_form_tuple_shard tdInt4Text [.byval 7, .byref [0, 0, 0, 6, 104, 105]]
          [false, false] .NoShard)).cache = true :=
  C1_roundtrip_stored tdInt4Text [.byval 7, .byref [0, 0, 0, 6, 104, 105]] [false, false]
    [-1, -1] .NoShard (by decide) (by decide)

/-! ## C2 -/

/-- C2: the number of data bytes `heap_fill_tuple` writes equals
`heap_compute_data_size` on the same row, for every well-formed row — null
columns, packable short varlenas, expanded values and aligned full-form
values included. -/
theorem C2_size_agreement (td : TupleDesc) (values : List Datum) (isnull : List Bool)
    (infomask0 : Nat) (withBitmap : Bool)
    (hwf : wfRow td values isnull = true) :
    (heap_fill_tuple td values isnull infomask0 withBitmap).1.length =
      heap_compute_data_size td values isnull := by
  apply heap_fill_len
  unfold wfRow at hwf
  rw [Bool.and_eq_true] at hwf
  exact hwf.2

/-- C2 witness: size agreement at a concrete row with a null column. -/
theorem C2_size_agreement_witness :
    (heap_fill_tuple tdInt4Text [.byval 7, .byref [0, 0, 0, 5, 97]] [false, true]
        0 true).1.length =
      heap_compute_data_size tdInt4Text [.byval 7, .byref [0, 0, 0, 5, 97]]
        [false, true] :=
  C2_size_agreement tdInt4Text [.byval 7, .byref [0, 0, 0, 5, 97]] [false, true] 0 true
    (by decide)


/-! ## C5 -/

/-- C5 counterexample: a value already in 1-byte short form handed to a
NON-packable (storage 'p') varlena column is copied verbatim by `fill_val`,
i.e. it IS written in 1-byte-header form, where the spec says a value on a
non-packable column never is. -/
theorem C5_counterexample :
    ATT_IS_PACKABLE attTextPlain = false ∧
    wfVarlenaBytes [130, 97] = true ∧
    (fill_val attTextPlain (.byref [130, 97]) 0).1 = [130, 97] ∧
    varattIs1B (fill_val attTextPlain (.byref [130, 97]) 0).1 = true :=
  ⟨by decide, by decide, by decide, by decide⟩

/-- C5 (amended): for a non-null, non-external varlena byref value, the
chunk `fill_val` writes starts with a 1-byte header exactly when the value
is already short OR the column is packable and the value can be made short;
an already-short value is copied verbatim (no padding, for any column), a
packable convertible value becomes `toShortForm` (no padding), and
otherwise the value keeps its 4-byte header after alignment padding.  (The
spec's claim that a non-packable column is never written 1-byte-form is
refuted by `C5_counterexample`.) -/
theorem C5_short_threshold (a : Attr) (bs : List Nat) (off : Nat)
    (hlen : a.attlen = -1) (hbyval : a.attbyval = false)
    (hwfb : wfVarlenaBytes bs = true) (hext : varattIsExternal bs = false) :
    (varattIs1B (fill_val a (.byref bs) off).1 = true ↔
      (varattIs1B bs = true ∨
        (ATT_IS_PACKABLE a = true ∧ varattCanMakeShort bs = true))) ∧
    (varattIs1B bs = true → (fill_val a (.byref bs) off).1 = bs) ∧
    (varattIs1B bs = false → ATT_IS_PACKABLE a = true → varattCanMakeShort bs = true →
      (fill_val a (.byref bs) off).1 = toShortForm bs) ∧
    (varattIs1B (fill_val a (.byref bs) off).1 = false →
      (fill_val a (.byref bs) off).1 =
        List.replicate (alignUp off a.attalign - off) 0 ++ bs) := by
  have hpack : ATT_IS_PACKABLE a = !a.attstoragePlain := by
    unfold ATT_IS_PACKABLE
    rw [hlen]
    simp
  by_cases h1 : varattIs1B bs = true
  · have hhead : 128 < bs.headD 0 := by
      have h128 : bs.headD 0 ≠ 128 := by
        revert hext
        unfold varattIsExternal
        simp only [beq_eq_false_iff_ne, ne_eq]
        exact fun h => h
      have h1c : 128 ≤ bs.headD 0 := by
        revert h1
        unfold varattIs1B
        simp
      omega
    have hbslen : bs.length = bs.headD 0 - 128 := wfVarlena_short hwfb hhead
    have htake : bs.take (varSize1B bs) = bs := by
      have hv : varSize1B bs = bs.length := by unfold varSize1B; omega
      rw [hv, List.take_length]
    have hchunk : (fill_val a (.byref bs) off).1 = bs := by
      have : (fill_val a (.byref bs) off).1 = bs.take (varSize1B bs) := by
        simp [fill_val, hbyval, hlen, isExpandedD, pointerBytes, hext, h1]
      rw [this, htake]
    rw [hchunk]
    exact ⟨⟨fun _ => Or.inl h1, fun _ => h1⟩, fun _ => rfl,
      fun hc => absurd (hc.symm.trans h1) Bool.false_ne_true,
      fun hc => absurd (hc.symm.trans h1) Bool.false_ne_true⟩
  · have h1f : varattIs1B bs = false := by revert h1; cases varattIs1B bs <;> simp
    have hhead : bs.headD 0 < 128 := by
      revert h1f
      unfold varattIs1B
      simp only [decide_eq_false_iff_not, not_le]
      exact fun h => h
    have hfull := wfVarlena_full hwfb hhead
    have htake : bs.take (varSize4B bs) = bs := by
      rw [hfull.2, List.take_length]
    by_cases h2 : (!a.attstoragePlain && varattCanMakeShort bs) = true
    · have h2' := Bool.and_eq_true _ _ |>.mp h2
      have hshort1B : varattIs1B (toShortForm bs) = true := by
        unfold toShortForm varattIs1B
        simp only [List.headD_cons]
        simp
      have hchunk : (fill_val a (.byref bs) off).1 = toShortForm bs := by
        simp [fill_val, hbyval, hlen, isExpandedD, pointerBytes, hext, h1f, h2]
      rw [hchunk]
      exact ⟨⟨fun _ => Or.inr ⟨by rw [hpack]; exact h2'.1, h2'.2⟩, fun _ => hshort1B⟩,
        fun hh => absurd (h1f.symm.trans hh) Bool.false_ne_true,
        fun _ _ _ => rfl,
        fun hc => absurd (hc.symm.trans hshort1B) Bool.false_ne_true⟩
    · have h2f : (!a.attstoragePlain && varattCanMakeShort bs) = false := by
        revert h2; cases (!a.attstoragePlain && varattCanMakeShort bs) <;> simp
      have hchunk : (fill_val a (.byref bs) off).1 =
          List.replicate (alignUp off a.attalign - off) 0 ++ bs := by
        have : (fill_val a (.byref bs) off).1 =
            List.replicate (alignUp off a.attalign - off) 0 ++ bs.take (varSize4B bs) := by
          simp [fill_val, hbyval, hlen, isExpandedD, pointerBytes, hext, h1f, h2f]
        rw [this, htake]
      have hf1B : varattIs1B (fill_val a (.byref bs) off).1 = false := by
        rw [hchunk]
        cases hrep : alignUp off a.attalign - off with
        | zero =>
          simp only [hrep, List.replicate, List.nil_append]
          unfold varattIs1B
          simp only [decide_eq_false_iff_not, not_le]
          omega
        | succ n =>
          simp only [hrep, List.replicate, List.cons_append]
          unfold varattIs1B
          simp only [List.headD_cons]
          simp
      refine ⟨⟨fun hh => absurd (hf1B.symm.trans hh) Bool.false_ne_true,
        fun hh => ?_⟩,
        fun hh => absurd (h1f.symm.trans hh) Bool.false_ne_true,
        fun _ hp hcs => ?_, fun _ => hchunk⟩
      · rcases hh with hh | ⟨hp, hcs⟩
        · exact absurd (h1f.symm.trans hh) Bool.false_ne_true
        · rw [hpack] at hp
          exact absurd (h2f.symm.trans ((Bool.and_eq_true _ _).mpr ⟨hp, hcs⟩))
            Bool.false_ne_true
      · rw [hpack] at hp
        exact absurd (h2f.symm.trans ((Bool.and_eq_true _ _).mpr ⟨hp, hcs⟩))
          Bool.false_ne_true

/-- C5 witness: the amended threshold applied to a 50-byte text payload on
a packable column — it is written in 1-byte short form. -/
theorem C5_short_threshold_witness :
    (varattIs1B (fill_val attText
        (.byref ((0 :: 0 :: 0 :: 54 :: List.replicate 50 97))) 8).1 = true ↔
      (varattIs1B ((0 :: 0 :: 0 :: 54 :: List.replicate 50 97)) = true ∨
        (ATT_IS_PACKABLE attText = true ∧
          varattCanMakeShort ((0 :: 0 :: 0 :: 54 :: List.replicate 50 97)) = true))) ∧
    (varattIs1B ((0 :: 0 :: 0 :: 54 :: List.replicate 50 97)) = true →
      (fill_val attText (.byref ((0 :: 0 :: 0 :: 54 :: List.replicate 50 97))) 8).1 =
        (0 :: 0 :: 0 :: 54 :: List.replicate 50 97)) ∧
    (varattIs1B ((0 :: 0 :: 0 :: 54 :: List.replicate 50 97)) = false →
      ATT_IS_PACKABLE attText = true →
      varattCanMakeShort ((0 :: 0 :: 0 :: 54 :: List.replicate 50 97)) = true →
      (fill_val attText (.byref ((0 :: 0 :: 0 :: 54 :: List.replicate 50 97))) 8).1 =
        toShortForm ((0 :: 0 :: 0 :: 54 :: List.replicate 50 97))) ∧
    (varattIs1B (fill_val attText
        (.byref ((0 :: 0 :: 0 :: 54 :: List.replicate 50 97))) 8).1 = false →
      (fill_val attText (.byref ((0 :: 0 :: 0 :: 54 :: List.replicate 50 97))) 8).1 =
        List.replicate (alignUp 8 attText.attalign - 8) 0 ++
          (0 :: 0 :: 0 :: 54 :: List.replicate 50 97)) :=
  C5_short_threshold attText (0 :: 0 :: 0 :: 54 :: List.replicate 50 97) 8
    (by decide) (by decide) (by decide) (by decide)


/-! ## C6 -/

/-- C6 counterexample: encoding `{7, NULL}` on a two-int column schema
produces bitmap byte 1 — bit 0, belonging to the NON-null column, is SET,
while `isnull[0]` is false; so "bit i of the bitmap equals isnull[i]" has
the polarity backwards (a set bit means the attribute is present). -/
theorem C6_counterexample :
    (heap_form_tuple tdInt4Int4 [.byval 7, .byval 0] [false, true]).t_bits = [1] ∧
    ((heap_form_tuple tdInt4Int4 [.byval 7, .byval 0]
        [false, true]).t_bits.getD 0 0 / 2 ^ 0 % 2 = 1) ∧
    [false, true].getD 0 false = false :=
  ⟨by decide, by decide, by decide⟩

/-- C6 (amended): if some column is null, the formed tuple carries the
bitmap `fillBitmap isnull`, the has-nulls flag is set, and for every
attribute index the decoder's bit test `att_isnull` returns exactly
`isnull[i]` — i.e. bit i is CLEAR when column i is null and SET when it is
present, the opposite polarity of the spec's sentence; if no column is
null, no bitmap is emitted and the flag is clear; and `heap_fill_tuple`
recomputes the three content flags from the columns alone, merging them
with only the non-content bits of the incoming infomask. -/
theorem C6_null_bitmap (td : TupleDesc) (values : List Datum) (isnull : List Bool)
    (sflag : SetShardFlag) (hlen : isnull.length = td.natts) :
    (isnull.any id = true →
      (heap_form_tuple_shard td values isnull sflag).t_bits = fillBitmap isnull ∧
      HeapTupleHasNulls (heap_form_tuple_shard td values isnull sflag) = true ∧
      ∀ j, j < td.natts →
        att_isnull j (heap_form_tuple_shard td values isnull sflag).t_bits
          = isnull.getD j false) ∧
    (isnull.any id = false →
      (heap_form_tuple_shard td values isnull sflag).t_bits = [] ∧
      HeapTupleHasNulls (heap_form_tuple_shard td values isnull sflag) = false) ∧
    (∀ infomask0 withBitmap,
      (heap_fill_tuple td values isnull infomask0 withBitmap).2.2 =
        infomask0 / 8 * 8 + (heap_fill_tuple td values isnull 0 withBitmap).2.2) := by
  refine ⟨fun hany => ⟨?_, ?_, ?_⟩, fun hnone => ⟨?_, ?_⟩, ?_⟩
  · rw [form_tbits, if_pos hany]
  · rw [form_hasnulls, hany]
  · intro j hj
    rw [form_tbits, if_pos hany, att_isnull_fillBitmap isnull j (by omega)]
    exact getD_default_irrel _ _ _ _ (by omega)
  · rw [form_tbits, hnone]
    simp
  · rw [form_hasnulls, hnone]
  · intro infomask0 withBitmap
    unfold heap_fill_tuple
    dsimp only
    omega

/-- C6 witness: the amended bitmap law at the row `{7, NULL}`. -/
theorem C6_null_bitmap_witness :
    (([false, true] : List Bool).any id = true →
      (heap_form_tuple_shard tdInt4Int4 [.byval 7, .byval 0] [false, true]
          .NoShard).t_bits = fillBitmap [false, true] ∧
      HeapTupleHasNulls (heap_form_tuple_shard tdInt4Int4 [.byval 7, .byval 0]
          [false, true] .NoShard) = true ∧
      ∀ j, j < tdInt4Int4.natts →
        att_isnull j (heap_form_tuple_shard tdInt4Int4 [.byval 7, .byval 0]
            [false, true] .NoShard).t_bits
          = [false, true].getD j false) ∧
    (([false, true] : List Bool).any id = false →
      (heap_form_tuple_shard tdInt4Int4 [.byval 7, .byval 0] [false, true]
          .NoShard).t_bits = [] ∧
      HeapTupleHasNulls (heap_form_tuple_shard tdInt4Int4 [.byval 7, .byval 0]
          [false, true] .NoShard) = false) ∧
    (∀ infomask0 withBitmap,
      (heap_fill_tuple tdInt4Int4 [.byval 7, .byval 0] [false, true]
          infomask0 withBitmap).2.2 =
        infomask0 / 8 * 8 + (heap_fill_tuple tdInt4Int4 [.byval 7, .byval 0]
          [false, true] 0 withBitmap).2.2) :=
  C6_null_bitmap tdInt4Int4 [.byval 7, .byval 0] [false, true] .NoShard (by decide)


/-! ## Slot model (`TupleTableSlot`) -/

/-- `TupleTableSlot`: descriptor, optional physical tuple, the PGXC DataRow
flag (with `datarowVals`/`datarowNulls` standing for the already-decoded
message content), the values/isnull arrays and the incremental-deform cursor
state.  The shared `attcacheoff` array of the descriptor is threaded
separately as a `List Int` argument, as everywhere in this development. -/
structure Slot where
  tts_tupleDescriptor : TupleDesc
  tts_tuple : Option HTuple
  tts_datarow : Bool
  datarowVals : List Datum
  datarowNulls : List Bool
  tts_values : List Datum
  tts_isnull : List Bool
  tts_nvalid : Nat
  tts_off : Nat
  tts_slow : Bool
  deriving DecidableEq, Repr, Inhabited

/-- `slot_deform_tuple`: extract columns of the slot's physical tuple up
through the `natts`'th, starting fresh when nothing is extracted yet and
otherwise resuming from the saved `tts_off`/`tts_slow` cursor; the final
cursor and the advanced `tts_nvalid` are saved back. -/
def slot_deform_tuple (slot : Slot) (cache : List Int) (natts : Nat) : Slot × List Int :=
  let tup := slot.tts_tuple.getD default
  let td := slot.tts_tupleDescriptor
  let s0 : Nat × Bool :=
    if slot.tts_nvalid == 0 then (0, false) else (slot.tts_off, slot.tts_slow)
  let st := deform_loop td tup (natts - slot.tts_nvalid) slot.tts_nvalid
    ⟨slot.tts_values, slot.tts_isnull, cache, s0.1, s0.2⟩
  ({ slot with
      tts_values := st.values
      tts_isnull := st.nulls
      tts_nvalid := max slot.tts_nvalid natts
      tts_off := st.off
      tts_slow := st.slow },
   st.cache)

/-- `slot_deform_datarow`: load the arrays from the remote-node DataRow
message (its decoded content is the slot's `datarowVals`/`datarowNulls`); a
message whose column count differs from the descriptor's raises the
data-corrupted error. -/
def slot_deform_datarow (slot : Slot) : Except Unit Slot :=
  if slot.datarowVals.length == slot.tts_tupleDescriptor.natts &&
      slot.datarowNulls.length == slot.tts_tupleDescriptor.natts then
    .ok { slot with
          tts_values := slot.datarowVals
          tts_isnull := slot.datarowNulls
          tts_nvalid := slot.tts_tupleDescriptor.natts }
  else .error ()

/-- Per-index loop of `slot_getmissingattrs` over the missing-values table:
each entry gets `ammissing` and `!ammissingPresent`, with no column flag
checks; with no table at all (`tbl = []`) every entry becomes zero/NULL,
which is the function's memset branch. -/
def missingFill (tbl : List (Option Datum)) : Nat → Nat → List Datum → List Bool →
    List Datum × List Bool
  | 0, _, vs, ns => (vs, ns)
  | k + 1, i, vs, ns =>
    let m := tbl.getD i none
    missingFill tbl k (i + 1) (vs.set i (m.getD (.byval 0))) (ns.set i (!m.isSome))

/-- `slot_getmissingattrs`: fill entries `[startAttNum, lastAttNum)` of the
slot arrays from the descriptor's missing table. -/
def slot_getmissingattrs (slot : Slot) (startAttNum lastAttNum : Nat) : Slot :=
  let r := missingFill (slot.tts_tupleDescriptor.missing.getD [])
    (lastAttNum - startAttNum) startAttNum slot.tts_values slot.tts_isnull
  { slot with tts_values := r.1, tts_isnull := r.2 }

/-- `slot_getsomeattrs`: make the slot arrays valid at least through
`attnum` — quick out when they already are, DataRow slots load the whole
message, a non-positive or beyond-descriptor attribute number is the
caller-error elog, and otherwise the physical tuple is deformed up to
`min(tuple natts, attnum)` with the tail filled from missing values. -/
def slot_getsomeattrs (slot : Slot) (cache : List Int) (attnum : Int) :
    Except Unit (Slot × List Int) :=
  if attnum ≤ (slot.tts_nvalid : Int) then .ok (slot, cache)
  else if slot.tts_datarow then do
    let s ← slot_deform_datarow slot
    .ok (s, cache)
  else if attnum ≤ 0 ∨ (slot.tts_tupleDescriptor.natts : Int) < attnum then .error ()
  else
    match slot.tts_tuple with
    | none => .error ()
    | some tup =>
      let attno : Nat := min tup.tupNatts attnum.toNat
      let r := slot_deform_tuple slot cache attno
      let s2 := if attno < attnum.toNat then slot_getmissingattrs r.1 attno attnum.toNat
                else r.1
      .ok ({ s2 with tts_nvalid := attnum.toNat }, r.2)

/-- `slot_getallattrs`: make every entry of the slot arrays valid. -/
def slot_getallattrs (slot : Slot) (cache : List Int) : Except Unit (Slot × List Int) :=
  let tdesc_natts := slot.tts_tupleDescriptor.natts
  if slot.tts_nvalid == tdesc_natts then .ok (slot, cache)
  else if slot.tts_datarow then do
    let s ← slot_deform_datarow slot
    .ok (s, cache)
  else
    match slot.tts_tuple with
    | none => .error ()
    | some tup =>
      let attnum := min tup.tupNatts tdesc_natts
      let r := slot_deform_tuple slot cache attnum
      let s2 := if attnum < tdesc_natts then slot_getmissingattrs r.1 attnum tdesc_natts
                else r.1
      .ok ({ s2 with tts_nvalid := tdesc_natts }, r.2)

/-- `heap_attisnull` (`attnum` 1-based, or a system attribute number ≤ 0;
the system attribute numbers are modelled from the spec, `sysattr.h` being
outside the sources): attributes past the tuple's physical count are null
unless a missing value is flagged, positive attributes ask the bitmap, and
the known never-null system attributes answer false. -/
def heap_attisnull (tup : HTuple) (attnum : Int) (td : Option TupleDesc) :
    Except Unit Bool :=
  if (tup.tupNatts : Int) < attnum then
    match td with
    | some d =>
      if (d.attrs.getD (attnum.toNat - 1) default).atthasmissing then .ok false
      else .ok true
    | none => .ok true
  else if 0 < attnum then
    if !HeapTupleHasNulls tup then .ok false
    else .ok (att_isnull (attnum.toNat - 1) tup.t_bits)
  else if -8 ≤ attnum ∧ attnum ≤ -1 then .ok false
  else .error ()

/-- `heap_getsysattr`: system attributes never read as null.  The value
cases whose header fields (xmin, cmin, shard id, GTS timestamps) are
outside the codec state are modelled as zero; the system attribute numbers
are modelled from the spec (`sysattr.h` is outside the sources). -/
def heap_getsysattr (tup : HTuple) (attnum : Int) : Except Unit (Datum × Bool) :=
  if attnum == -1 then .ok (.byval (tup.t_self.1 * 65536 + tup.t_self.2), false)
  else if attnum == -2 then .ok (.byval tup.t_oid, false)
  else if attnum == -7 then .ok (.byval tup.t_tableOid, false)
  else if attnum == -8 then .ok (.byval tup.t_xc_node_id, false)
  else if attnum == -3 ∨ attnum == -4 ∨ attnum == -5 ∨ attnum == -6 ∨
      attnum == -9 ∨ attnum == -10 ∨ attnum == -11 then .ok (.byval 0, false)
  else .error ()

/-- `slot_getattr`: system attributes go to `heap_getsysattr`, a cached
attribute is answered from the arrays, a number beyond the descriptor
answers zero/NULL, DataRow slots load the message, a number beyond the
tuple's physical attributes answers the missing value, a bitmap-null or
dropped column answers zero/NULL, and otherwise the tuple is deformed
through `attnum` and the arrays answer. -/
def slot_getattr (slot : Slot) (cache : List Int) (attnum : Int) :
    Except Unit (Datum × Bool × Slot × List Int) :=
  let td := slot.tts_tupleDescriptor
  if attnum ≤ 0 then
    match slot.tts_tuple with
    | none => .error ()
    | some tup => do
      let r ← heap_getsysattr tup attnum
      .ok (r.1, r.2, slot, cache)
  else if attnum ≤ (slot.tts_nvalid : Int) then
    .ok (slot.tts_values.getD (attnum.toNat - 1) (.byval 0),
         slot.tts_isnull.getD (attnum.toNat - 1) true, slot, cache)
  else if (td.natts : Int) < attnum then
    .ok (.byval 0, true, slot, cache)
  else if slot.tts_datarow then do
    let s ← slot_deform_datarow slot
    .ok (s.tts_values.getD (attnum.toNat - 1) (.byval 0),
         s.tts_isnull.getD (attnum.toNat - 1) true, s, cache)
  else
    match slot.tts_tuple with
    | none => .error ()
    | some tup =>
      if (tup.tupNatts : Int) < attnum then
        let m := getmissingattr td attnum.toNat
        .ok (m.1, m.2, slot, cache)
      else if HeapTupleHasNulls tup && att_isnull (attnum.toNat - 1) tup.t_bits then
        .ok (.byval 0, true, slot, cache)
      else if (td.attrs.getD (attnum.toNat - 1) default).attisdropped then
        .ok (.byval 0, true, slot, cache)
      else
        let r := slot_deform_tuple slot cache attnum.toNat
        .ok (r.1.tts_values.getD (attnum.toNat - 1) (.byval 0),
             r.1.tts_isnull.getD (attnum.toNat - 1) true, r.1, r.2)

/-- `slot_attisnull`: same branch order as `slot_getattr`, answering only
the null flag and leaving the slot unchanged. -/
def slot_attisnull (slot : Slot) (cache : List Int) (attnum : Int) : Except Unit Bool :=
  if attnum ≤ 0 then
    match slot.tts_tuple with
    | none => .error ()
    | some tup => heap_attisnull tup attnum (some slot.tts_tupleDescriptor)
  else if attnum ≤ (slot.tts_nvalid : Int) then
    .ok (slot.tts_isnull.getD (attnum.toNat - 1) true)
  else if (slot.tts_tupleDescriptor.natts : Int) < attnum then .ok true
  else if slot.tts_datarow then do
    let s ← slot_deform_datarow slot
    .ok (s.tts_isnull.getD (attnum.toNat - 1) true)
  else
    match slot.tts_tuple with
    | none => .error ()
    | some tup => heap_attisnull tup attnum (some slot.tts_tupleDescriptor)

/-! ## Raw tuple copy (`heap_copytuple`) -/

/-- The `HeapTupleData` management struct as `heap_copytuple` sees it:
length, item pointer, owning table, origin node, and the optional header
pointer with (`t_len` bytes of) tuple contents behind it. -/
structure RawTuple where
  t_len : Nat
  t_self : Nat × Nat
  t_tableOid : Nat
  t_xc_node_id : Nat
  t_data : Option (List Nat)
  deriving DecidableEq, Repr

/-- `heap_copytuple`: NULL in (invalid tuple pointer) or NULL `t_data` give
NULL back; otherwise a fresh tuple with the same identity fields and a copy
of the first `t_len` data bytes. -/
def heap_copytuple : Option RawTuple → Option RawTuple
  | none => none
  | some t =>
    match t.t_data with
    | none => none
    | some d =>
      some { t_len := t.t_len
             t_self := t.t_self
             t_tableOid := t.t_tableOid
             t_xc_node_id := t.t_xc_node_id
             t_data := some (d.take t.t_len) }


/-! ## C9 -/

/-- C9: on a slot whose extracted-prefix counter does not exceed the
descriptor (the slot invariant), an attribute number strictly beyond the
descriptor's column count makes `slot_getattr` answer the zero Datum with
isnull true and `slot_attisnull` answer true, with no error and no change
to the slot or the offset cache — the out-of-range test fires before the
DataRow and physical-tuple paths. -/
theorem C9_out_of_range_null (slot : Slot) (cache : List Int) (attnum : Int)
    (hnv : slot.tts_nvalid ≤ slot.tts_tupleDescriptor.natts)
    (hgt : (slot.tts_tupleDescriptor.natts : Int) < attnum) :
    slot_getattr slot cache attnum = .ok (.byval 0, true, slot, cache) ∧
    slot_attisnull slot cache attnum = .ok true := by
  have h0 : ¬ attnum ≤ 0 := by omega
  have h1 : ¬ attnum ≤ (slot.tts_nvalid : Int) := by omega
  constructor
  · simp only [slot_getattr]
    rw [if_neg h0, if_neg h1, if_pos hgt]
  · simp only [slot_attisnull]
    rw [if_neg h0, if_neg h1, if_pos hgt]

/-- C9 witness: attribute 3 of a two-column slot. -/
theorem C9_out_of_range_null_witness :
    slot_getattr ⟨tdInt4Int4, none, false, [], [], [], [], 0, 0, false⟩ [-1, -1] 3 =
      .ok (.byval 0, true, ⟨tdInt4Int4, none, false, [], [], [], [], 0, 0, false⟩,
        [-1, -1]) ∧
    slot_attisnull ⟨tdInt4Int4, none, false, [], [], [], [], 0, 0, false⟩ [-1, -1] 3 =
      .ok true :=
  C9_out_of_range_null ⟨tdInt4Int4, none, false, [], [], [], [], 0, 0, false⟩ [-1, -1] 3
    (by decide) (by decide)

/-! ## C10 -/

/-- C10: `heap_copytuple` answers NULL for an invalid tuple pointer and for
a tuple with no data; a valid tuple whose data holds its `t_len` bytes
comes back as an identical copy (identity fields and bytes), and copying is
idempotent: a copy of a copy is byte-identical to the first copy, for every
input. -/
theorem C10_copytuple (t : RawTuple) (d : List Nat)
    (hd : t.t_data = some d) (hlen : d.length = t.t_len) :
    heap_copytuple none = none ∧
    (∀ u : RawTuple, u.t_data = none → heap_copytuple (some u) = none) ∧
    heap_copytuple (some t) = some t ∧
    (∀ v : Option RawTuple, heap_copytuple (heap_copytuple v) = heap_copytuple v) := by
  refine ⟨rfl, fun u hu => ?_, ?_, fun v => ?_⟩
  · simp only [heap_copytuple, hu]
  · have htake : d.take t.t_len = d := by
      rw [← hlen]
      exact List.take_length d
    simp only [heap_copytuple, hd, htake]
    rw [← hd]
  · cases v with
    | none => rfl
    | some u =>
      cases hu : u.t_data with
      | none => simp [heap_copytuple, hu]
      | some d2 =>
        simp [heap_copytuple, hu, List.take_take]

/-- C10 witness: a concrete two-byte tuple round-trips through the copy. -/
theorem C10_copytuple_witness :
    heap_copytuple none = none ∧
    (∀ u : RawTuple, u.t_data = none → heap_copytuple (some u) = none) ∧
    heap_copytuple (some ⟨2, (0, 1), 5, 6, some [9, 8]⟩) =
      some ⟨2, (0, 1), 5, 6, some [9, 8]⟩ ∧
    (∀ v : Option RawTuple, heap_copytuple (heap_copytuple v) = heap_copytuple v) :=
  C10_copytuple ⟨2, (0, 1), 5, 6, some [9, 8]⟩ [9, 8] (by decide) (by decide)


/-! ## Tuple modification (`heap_modify_tuple`, `heap_modify_tuple_by_cols`) -/

/-- Replacement loop of `heap_modify_tuple`: overwrite each column flagged
in `doReplace` with the replacement value/isnull. -/
def replaceLoop (replValues : List Datum) (replIsnull doReplace : List Bool) :
    Nat → Nat → List Datum → List Bool → List Datum × List Bool
  | 0, _, vs, ns => (vs, ns)
  | k + 1, i, vs, ns =>
    if doReplace.getD i false then
      replaceLoop replValues replIsnull doReplace k (i + 1)
        (vs.set i (replValues.getD i (.byval 0))) (ns.set i (replIsnull.getD i false))
    else replaceLoop replValues replIsnull doReplace k (i + 1) vs ns

/-- `heap_modify_tuple`: deform the old tuple, overwrite the flagged
columns, re-form, and copy the old tuple's identification fields (t_ctid,
t_self, t_tableOid, t_xc_node_id, and the OID when the descriptor has
OIDs). -/
def heap_modify_tuple (tuple : HTuple) (td : TupleDesc) (cache : List Int)
    (replValues : List Datum) (replIsnull doReplace : List Bool) : HTuple × List Int :=
  let dout := heap_deform_tuple td cache tuple
  let r := replaceLoop replValues replIsnull doReplace td.natts 0 dout.values dout.nulls
  let newTuple := heap_form_tuple td r.1 r.2
  ({ newTuple with
      t_ctid := tuple.t_ctid
      t_self := tuple.t_self
      t_tableOid := tuple.t_tableOid
      t_xc_node_id := tuple.t_xc_node_id
      t_oid := if td.tdhasoid then tuple.t_oid else newTuple.t_oid },
   dout.cache)

/-- Replacement loop of `heap_modify_tuple_by_cols`: each target column
number must lie in `1..natts` or the call fails with the invalid-column
elog. -/
def colsLoop (replCols : List Int) (replValues : List Datum) (replIsnull : List Bool)
    (natts : Nat) : Nat → Nat → List Datum → List Bool →
    Except Unit (List Datum × List Bool)
  | 0, _, vs, ns => .ok (vs, ns)
  | k + 1, i, vs, ns =>
    let attnum := replCols.getD i 0
    if attnum ≤ 0 ∨ (natts : Int) < attnum then .error ()
    else colsLoop replCols replValues replIsnull natts k (i + 1)
      (vs.set (attnum.toNat - 1) (replValues.getD i (.byval 0)))
      (ns.set (attnum.toNat - 1) (replIsnull.getD i false))

/-- `heap_modify_tuple_by_cols`: deform the old tuple, overwrite the listed
(1-based) target columns — an out-of-range column number is the
invalid-column elog — re-form, and copy the old tuple's identification
fields (t_ctid, t_self, t_tableOid, and the OID when the descriptor has
OIDs; unlike `heap_modify_tuple` this variant does not copy
t_xc_node_id). -/
def heap_modify_tuple_by_cols (tuple : HTuple) (td : TupleDesc) (cache : List Int)
    (nCols : Nat) (replCols : List Int) (replValues : List Datum)
    (replIsnull : List Bool) : Except Unit (HTuple × List Int) :=
  let dout := heap_deform_tuple td cache tuple
  match colsLoop replCols replValues replIsnull td.natts nCols 0 dout.values dout.nulls with
  | .error _ => .error ()
  | .ok r =>
    let newTuple := heap_form_tuple td r.1 r.2
    .ok ({ newTuple with
        t_ctid := tuple.t_ctid
        t_self := tuple.t_self
        t_tableOid := tuple.t_tableOid
        t_oid := if td.tdhasoid then tuple.t_oid else newTuple.t_oid },
      dout.cache)

/-- The index of the LAST entry of `replCols[i..i+k)` naming `target`, if
any — with duplicate target columns the later replacement wins. -/
def findLastInRange (replCols : List Int) (target : Int) (i : Nat) : Nat → Option Nat
  | 0 => none
  | k + 1 =>
    if replCols.getD (i + k) 0 == target then some (i + k)
    else findLastInRange replCols target i k

theorem deformStep_values_length (td : TupleDesc) (tup : HTuple) (i : Nat)
    (st : DStat) : (deformStep td tup i st).values.length = st.values.length := by
  unfold deformStep
  by_cases h : (HeapTupleHasNulls tup && att_isnull i tup.t_bits) = true
  · rw [if_pos h]
    simp
  · rw [if_neg h]
    dsimp only
    simp

theorem deformStep_nulls_length (td : TupleDesc) (tup : HTuple) (i : Nat)
    (st : DStat) : (deformStep td tup i st).nulls.length = st.nulls.length := by
  unfold deformStep
  by_cases h : (HeapTupleHasNulls tup && att_isnull i tup.t_bits) = true
  · rw [if_pos h]
    simp
  · rw [if_neg h]
    dsimp only
    simp

theorem deform_loop_values_length (td : TupleDesc) (tup : HTuple) :
    ∀ (k i : Nat) (st : DStat),
      (deform_loop td tup k i st).values.length = st.values.length := by
  intro k
  induction k with
  | zero => intro i st; rfl
  | succ k ih =>
    intro i st
    show (deform_loop td tup k (i + 1) (deformStep td tup i st)).values.length = _
    rw [ih, deformStep_values_length]

theorem deform_loop_nulls_length (td : TupleDesc) (tup : HTuple) :
    ∀ (k i : Nat) (st : DStat),
      (deform_loop td tup k i st).nulls.length = st.nulls.length := by
  intro k
  induction k with
  | zero => intro i st; rfl
  | succ k ih =>
    intro i st
    show (deform_loop td tup k (i + 1) (deformStep td tup i st)).nulls.length = _
    rw [ih, deformStep_nulls_length]

theorem missingTail_lengths (td : TupleDesc) :
    ∀ (k i : Nat) (vs : List Datum) (ns : List Bool),
      (missingTail td k i vs ns).1.length = vs.length ∧
      (missingTail td k i vs ns).2.length = ns.length := by
  intro k
  induction k with
  | zero => intro i vs ns; exact ⟨rfl, rfl⟩
  | succ k ih =>
    intro i vs ns
    have h : missingTail td (k + 1) i vs ns =
        missingTail td k (i + 1)
          (vs.set i (getmissingattr td (i + 1)).1)
          (ns.set i (getmissingattr td (i + 1)).2) := rfl
    rw [h]
    constructor
    · rw [(ih _ _ _).1]
      simp
    · rw [(ih _ _ _).2]
      simp

theorem heap_deform_lengths (td : TupleDesc) (cache : List Int) (tup : HTuple) :
    (heap_deform_tuple td cache tup).values.length = td.natts ∧
    (heap_deform_tuple td cache tup).nulls.length = td.natts := by
  unfold heap_deform_tuple
  dsimp only
  constructor
  · rw [(missingTail_lengths td _ _ _ _).1, deform_loop_values_length]
    simp
  · rw [(missingTail_lengths td _ _ _ _).2, deform_loop_nulls_length]
    simp


theorem findLastInRange_cons (replCols : List Int) (target : Int) :
    ∀ (k i : Nat),
      findLastInRange replCols target i (k + 1) =
        (match findLastInRange replCols target (i + 1) k with
         | some x => some x
         | none => if replCols.getD i 0 == target then some i else none) := by
  intro k
  induction k with
  | zero =>
    intro i
    show (if replCols.getD (i + 0) 0 == target then some (i + 0) else none) = _
    rfl
  | succ k ih =>
    intro i
    show (if replCols.getD (i + (k + 1)) 0 == target then some (i + (k + 1))
          else findLastInRange replCols target i (k + 1)) = _
    have harith : i + (k + 1) = (i + 1) + k := by omega
    by_cases h : (replCols.getD (i + (k + 1)) 0 == target) = true
    · rw [if_pos h]
      show _ = (match findLastInRange replCols target (i + 1) (k + 1) with
         | some x => some x
         | none => if replCols.getD i 0 == target then some i else none)
      have h2 : findLastInRange replCols target (i + 1) (k + 1) = some ((i + 1) + k) := by
        show (if replCols.getD ((i + 1) + k) 0 == target then some ((i + 1) + k)
              else findLastInRange replCols target (i + 1) k) = _
        rw [← harith, if_pos h]
      rw [h2, harith]
    · rw [if_neg h, ih i]
      show _ = (match findLastInRange replCols target (i + 1) (k + 1) with
         | some x => some x
         | none => if replCols.getD i 0 == target then some i else none)
      have h2 : findLastInRange replCols target (i + 1) (k + 1) =
          findLastInRange replCols target (i + 1) k := by
        show (if replCols.getD ((i + 1) + k) 0 == target then some ((i + 1) + k)
              else findLastInRange replCols target (i + 1) k) = _
        rw [← harith, if_neg h]
      rw [h2]

theorem colsLoop_error_iff (replCols : List Int) (replValues : List Datum)
    (replIsnull : List Bool) (natts : Nat) :
    ∀ (k i : Nat) (vs : List Datum) (ns : List Bool),
      (colsLoop replCols replValues replIsnull natts k i vs ns = .error () ↔
        ∃ t, t < k ∧ (replCols.getD (i + t) 0 ≤ 0 ∨
          (natts : Int) < replCols.getD (i + t) 0)) := by
  intro k
  induction k with
  | zero =>
    intro i vs ns
    constructor
    · intro h
      exact absurd h (by simp [colsLoop])
    · rintro ⟨t, ht, _⟩
      omega
  | succ k ih =>
    intro i vs ns
    unfold colsLoop
    dsimp only
    by_cases h : replCols.getD i 0 ≤ 0 ∨ (natts : Int) < replCols.getD i 0
    · rw [if_pos h]
      constructor
      · intro _
        exact ⟨0, by omega, by simpa using h⟩
      · intro _
        rfl
    · rw [if_neg h]
      rw [ih]
      constructor
      · rintro ⟨t, ht, hbad⟩
        exact ⟨t + 1, by omega, by
          have : i + 1 + t = i + (t + 1) := by omega
          rw [this] at hbad
          exact hbad⟩
      · rintro ⟨t, ht, hbad⟩
        cases t with
        | zero => exact absurd (by simpa using hbad) h
        | succ t =>
          exact ⟨t, by omega, by
            have : i + (t + 1) = i + 1 + t := by omega
            rw [this] at hbad
            exact hbad⟩

theorem colsLoop_ok_getD (replCols : List Int) (replValues : List Datum)
    (replIsnull : List Bool) (natts : Nat) :
    ∀ (k i : Nat) (vs : List Datum) (ns : List Bool) (r : List Datum × List Bool),
      colsLoop replCols replValues replIsnull natts k i vs ns = .ok r →
      vs.length = natts → ns.length = natts →
      r.1.length = natts ∧ r.2.length = natts ∧
      ∀ j, j < natts →
        r.1.getD j (.byval 0) =
          (match findLastInRange replCols ((j : Int) + 1) i k with
           | some t => replValues.getD t (.byval 0)
           | none => vs.getD j (.byval 0)) ∧
        r.2.getD j false =
          (match findLastInRange replCols ((j : Int) + 1) i k with
           | some t => replIsnull.getD t false
           | none => ns.getD j false) := by
  intro k
  induction k with
  | zero =>
    intro i vs ns r hok hvl hnl
    have hr : r = (vs, ns) := by
      have : (Except.ok (vs, ns) : Except Unit (List Datum × List Bool)) = .ok r := hok
      simpa using this.symm
    subst hr
    exact ⟨hvl, hnl, fun j _ => ⟨rfl, rfl⟩⟩
  | succ k ih =>
    intro i vs ns r hok hvl hnl
    unfold colsLoop at hok
    dsimp only at hok
    by_cases h : replCols.getD i 0 ≤ 0 ∨ (natts : Int) < replCols.getD i 0
    · rw [if_pos h] at hok
      exact absurd hok (by simp)
    · rw [if_neg h] at hok
      have hbnd : 1 ≤ replCols.getD i 0 ∧ replCols.getD i 0 ≤ (natts : Int) := by omega
      have hidx : (replCols.getD i 0).toNat - 1 < natts := by omega
      have hrec := ih (i + 1) _ _ r hok (by simpa using hvl) (by simpa using hnl)
      refine ⟨hrec.1, hrec.2.1, fun j hj => ?_⟩
      have hj2 := hrec.2.2 j hj
      rw [findLastInRange_cons]
      cases hfind : findLastInRange replCols ((j : Int) + 1) (i + 1) k with
      | some t =>
        rw [hfind] at hj2
        exact ⟨by rw [hj2.1], by rw [hj2.2]⟩
      | none =>
        rw [hfind] at hj2
        by_cases heq : (replCols.getD i 0 == (j : Int) + 1) = true
        · rw [if_pos heq]
          rw [beq_iff_eq] at heq
          have hji : (replCols.getD i 0).toNat - 1 = j := by omega
          constructor
          · rw [hj2.1, hji, getD_set_self _ _ _ _ (by omega)]
          · rw [hj2.2, hji, getD_set_self _ _ _ _ (by omega)]
        · rw [if_neg heq]
          rw [beq_iff_eq] at heq
          have hji : (replCols.getD i 0).toNat - 1 ≠ j := by omega
          constructor
          · rw [hj2.1, getD_set_ne _ _ _ _ _ hji]
          · rw [hj2.2, getD_set_ne _ _ _ _ _ hji]


/-! ## C8 -/

/-- C8: `heap_modify_tuple_by_cols` fails with the invalid-column error
exactly when some listed target column number is out of range (non-positive
or beyond the descriptor); on success the new tuple is formed from the old
tuple's decoded columns with the listed 1-based columns overwritten by the
replacement value/isnull (the later of duplicate targets winning), and the
old tuple's identity fields — t_ctid, t_self, t_tableOid, and the OID when
the descriptor has OIDs — are copied onto it. -/
theorem C8_modify_by_cols (tuple : HTuple) (td : TupleDesc) (cache : List Int)
    (nCols : Nat) (replCols : List Int) (replValues : List Datum)
    (replIsnull : List Bool) (hn : nCols ≤ replCols.length) :
    (heap_modify_tuple_by_cols tuple td cache nCols replCols replValues replIsnull
        = .error () ↔
      ∃ t, t < nCols ∧ (replCols.getD t 0 ≤ 0 ∨ (td.natts : Int) < replCols.getD t 0)) ∧
    (∀ newTuple cache',
      heap_modify_tuple_by_cols tuple td cache nCols replCols replValues replIsnull
          = .ok (newTuple, cache') →
      newTuple.t_ctid = tuple.t_ctid ∧ newTuple.t_self = tuple.t_self ∧
      newTuple.t_tableOid = tuple.t_tableOid ∧
      (td.tdhasoid = true → newTuple.t_oid = tuple.t_oid) ∧
      cache' = (heap_deform_tuple td cache tuple).cache ∧
      ∃ vs ns, vs.length = td.natts ∧ ns.length = td.natts ∧
        (∀ j, j < td.natts →
          vs.getD j (.byval 0) =
            (match findLastInRange replCols ((j : Int) + 1) 0 nCols with
             | some t => replValues.getD t (.byval 0)
             | none => (heap_deform_tuple td cache tuple).values.getD j (.byval 0)) ∧
          ns.getD j false =
            (match findLastInRange replCols ((j : Int) + 1) 0 nCols with
             | some t => replIsnull.getD t false
             | none => (heap_deform_tuple td cache tuple).nulls.getD j false)) ∧
        newTuple.tupNatts = (heap_form_tuple td vs ns).tupNatts ∧
        newTuple.infomask = (heap_form_tuple td vs ns).infomask ∧
        newTuple.t_bits = (heap_form_tuple td vs ns).t_bits ∧
        newTuple.tdata = (heap_form_tuple td vs ns).tdata) := by
  constructor
  · have herr := colsLoop_error_iff replCols replValues replIsnull td.natts nCols 0
      (heap_deform_tuple td cache tuple).values (heap_deform_tuple td cache tuple).nulls
    simp only [Nat.zero_add] at herr
    rw [← herr]
    unfold heap_modify_tuple_by_cols
    dsimp only
    cases hc : colsLoop replCols replValues replIsnull td.natts nCols 0
        (heap_deform_tuple td cache tuple).values
        (heap_deform_tuple td cache tuple).nulls with
    | error e =>
      cases e
      simp
    | ok r => simp
  · intro newTuple cache' hok
    unfold heap_modify_tuple_by_cols at hok
    dsimp only at hok
    cases hc : colsLoop replCols replValues replIsnull td.natts nCols 0
        (heap_deform_tuple td cache tuple).values
        (heap_deform_tuple td cache tuple).nulls with
    | error e =>
      rw [hc] at hok
      exact absurd hok (by simp)
    | ok r =>
      rw [hc] at hok
      have hinj := Except.ok.inj hok
      have hnew : newTuple = { heap_form_tuple td r.1 r.2 with
          t_ctid := tuple.t_ctid
          t_self := tuple.t_self
          t_tableOid := tuple.t_tableOid
          t_oid := if td.tdhasoid then tuple.t_oid
                   else (heap_form_tuple td r.1 r.2).t_oid } :=
        (congrArg Prod.fst hinj).symm
      have hcache : cache' = (heap_deform_tuple td cache tuple).cache :=
        (congrArg Prod.snd hinj).symm
      have hlen := heap_deform_lengths td cache tuple
      have hch := colsLoop_ok_getD replCols replValues replIsnull td.natts nCols 0
        _ _ r hc hlen.1 hlen.2
      subst hnew
      refine ⟨rfl, rfl, rfl, fun hoid => by simp [hoid], hcache,
        r.1, r.2, hch.1, hch.2.1, hch.2.2, rfl, rfl, rfl, rfl⟩

/-- C8 witness: replacing column 2 of a two-int row succeeds, and the
error characterization holds at this instance. -/
theorem C8_modify_by_cols_witness :
    (heap_modify_tuple_by_cols
        (heap_form_tuple tdInt4Int4 [.byval 1, .byval 2] [false, false])
        tdInt4Int4 [-1, -1] 1 [2] [.byval 9] [false] = .error () ↔
      ∃ t, t < 1 ∧ (([2] : List Int).getD t 0 ≤ 0 ∨
        (tdInt4Int4.natts : Int) < ([2] : List Int).getD t 0)) ∧
    (∀ newTuple cache',
      heap_modify_tuple_by_cols
          (heap_form_tuple tdInt4Int4 [.byval 1, .byval 2] [false, false])
          tdInt4Int4 [-1, -1] 1 [2] [.byval 9] [false] = .ok (newTuple, cache') →
      newTuple.t_ctid =
        (heap_form_tuple tdInt4Int4 [.byval 1, .byval 2] [false, false]).t_ctid ∧
      newTuple.t_self =
        (heap_form_tuple tdInt4Int4 [.byval 1, .byval 2] [false, false]).t_self ∧
      newTuple.t_tableOid =
        (heap_form_tuple tdInt4Int4 [.byval 1, .byval 2] [false, false]).t_tableOid ∧
      (tdInt4Int4.tdhasoid = true → newTuple.t_oid =
        (heap_form_tuple tdInt4Int4 [.byval 1, .byval 2] [false, false]).t_oid) ∧
      cache' = (heap_deform_tuple tdInt4Int4 [-1, -1]
        (heap_form_tuple tdInt4Int4 [.byval 1, .byval 2] [false, false])).cache ∧
      ∃ vs ns, vs.length = tdInt4Int4.natts ∧ ns.length = tdInt4Int4.natts ∧
        (∀ j, j < tdInt4Int4.natts →
          vs.getD j (.byval 0) =
            (match findLastInRange [2] ((j : Int) + 1) 0 1 with
             | some t => ([Datum.byval 9] : List Datum).getD t (.byval 0)
             | none => (heap_deform_tuple tdInt4Int4 [-1, -1]
                 (heap_form_tuple tdInt4Int4 [.byval 1, .byval 2]
                   [false, false])).values.getD j (.byval 0)) ∧
          ns.getD j false =
            (match findLastInRange [2] ((j : Int) + 1) 0 1 with
             | some t => ([false] : List Bool).getD t false
             | none => (heap_deform_tuple tdInt4Int4 [-1, -1]
                 (heap_form_tuple tdInt4Int4 [.byval 1, .byval 2]
                   [false, false])).nulls.getD j false)) ∧
        newTuple.tupNatts = (heap_form_tuple tdInt4Int4 vs ns).tupNatts ∧
        newTuple.infomask = (heap_form_tuple tdInt4Int4 vs ns).infomask ∧
        newTuple.t_bits = (heap_form_tuple tdInt4Int4 vs ns).t_bits ∧
        newTuple.tdata = (heap_form_tuple tdInt4Int4 vs ns).tdata) :=
  C8_modify_by_cols (heap_form_tuple tdInt4Int4 [.byval 1, .byval 2] [false, false])
    tdInt4Int4 [-1, -1] 1 [2] [.byval 9] [false] (by decide)


/-! ## Tuple expansion (`expand_tuple`, `heap_expand_tuple`) -/

/-- The `firstmissingnum` scan of `expand_tuple`: the first attribute at or
after the source's count whose missing value is present — the loop body has
no else-branch, so skipping an absent entry changes nothing. -/
def firstMissingNum (tbl : List (Option Datum)) : Nat → Nat → Nat
  | 0, i => i
  | k + 1, i =>
    if (tbl.getD i none).isSome then i else firstMissingNum tbl k (i + 1)

/-- The target-data-length walk of `expand_tuple` over
`[firstmissingnum, natts)`: a present missing value is aligned and added,
an absent one forces `hasNulls`. -/
def expandLenLoop (td : TupleDesc) (tbl : List (Option Datum)) :
    Nat → Nat → Nat → Bool → Nat × Bool
  | 0, _, len, hn => (len, hn)
  | k + 1, i, len, hn =>
    match tbl.getD i none with
    | some d =>
      let a := td.attrs.getD i default
      expandLenLoop td tbl k (i + 1)
        (att_addlength_datum a d (att_align_datum a d len)) hn
    | none => expandLenLoop td tbl k (i + 1) len true

/-- The null-bitmap write state of `expand_tuple`'s fill loop: the bytes
already behind the write pointer, the byte under it (`none` models the
pointer still sitting before the array, which happens only for an
attribute-less source), and the current bit mask. -/
def BitsState := List Nat × Option Nat × Nat

/-- One `fill_val` bitmap advance: shift the mask or move to the next
(zeroed) byte of the bitmap. -/
def bitsAdvance : List Nat × Option Nat × Nat → List Nat × Option Nat × Nat
  | (acc, cur, m) =>
    if m == 128 then (acc ++ cur.toList, some 0, 1) else (acc, cur, m * 2)

/-- The missing-attribute fill loop of `expand_tuple`: a present missing
value advances the bitmap state (when a bitmap exists), sets its bit, and
appends its `fill_val` bytes; an absent one advances the bitmap state and
ORs `HEAP_HASNULL` into the infomask — even when no bitmap was allocated,
since `&nullBits` is passed either way. -/
def expandFillLoop (td : TupleDesc) (tbl : Option (List (Option Datum))) :
    Nat → Nat → List Nat → Option (List Nat × Option Nat × Nat) → Nat →
    List Nat × Option (List Nat × Option Nat × Nat) × Nat
  | 0, _, data, bits, mask => (data, bits, mask)
  | k + 1, i, data, bits, mask =>
    let a := td.attrs.getD i default
    let m : Option Datum := match tbl with
      | some t => t.getD i none
      | none => none
    match m with
    | some d =>
      let bits2 := match bits with
        | none => none
        | some s =>
          let s2 := bitsAdvance s
          some (s2.1, some (s2.2.1.getD 0 ||| s2.2.2), s2.2.2)
      let c := fill_val a d data.length
      expandFillLoop td tbl k (i + 1) (data ++ c.1) bits2
        (mask ||| (if c.2.1 then 2 else 0) ||| (if c.2.2 then 4 else 0))
    | none =>
      let bits2 := match bits with
        | none => none
        | some s => some (bitsAdvance s)
      expandFillLoop td tbl k (i + 1) data bits2 (mask ||| 1)

/-- `expand_tuple` (heap-tuple target): widen a tuple with fewer attributes
than the descriptor, appending each missing column's default when one is
flagged present and NULL otherwise; the source's data bytes, bitmap bits
and infomask are carried forward, and a bitmap is allocated only when
`hasNulls` ended up set. -/
def expand_tuple (src : HTuple) (td : TupleDesc) : HTuple :=
  let sourceNatts := src.tupNatts
  let natts := td.natts
  let hasNulls0 := HeapTupleHasNulls src
  let sourceNullLen := if hasNulls0 then (sourceNatts + 7) / 8 else 0
  let sourceDataLen := src.tdata.length
  let r : Nat × Bool :=
    match td.missing with
    | some tbl =>
      let fmn := firstMissingNum tbl (natts - sourceNatts) sourceNatts
      if natts ≤ fmn then (sourceDataLen, true)
      else expandLenLoop td tbl (natts - fmn) fmn sourceDataLen hasNulls0
    | none => (sourceDataLen, true)
  let hasNulls := r.2
  let targetNullLen := if hasNulls then (natts + 7) / 8 else 0
  let bits0 : Option (List Nat × Option Nat × Nat) :=
    if 0 < targetNullLen then
      if 0 < sourceNullLen then
        let copied := src.t_bits.take sourceNullLen
        some (copied.dropLast, some (copied.getD (sourceNullLen - 1) 0),
          if sourceNatts == 0 then 128 else 2 ^ ((sourceNatts - 1) % 8))
      else
        let sNL := (sourceNatts + 7) / 8
        let full := List.replicate sNL 255
        let full2 := if sourceNatts % 8 ≠ 0 then
            full.set (sNL - 1) (2 ^ (sourceNatts % 8) - 1)
          else full
        some (full2.dropLast,
          if sourceNatts == 0 then none else some (full2.getD (sNL - 1) 0),
          if sourceNatts == 0 then 128 else 2 ^ ((sourceNatts - 1) % 8))
    else none
  let fl := expandFillLoop td td.missing (natts - sourceNatts) sourceNatts
    src.tdata bits0 src.infomask
  { tupNatts := natts
    infomask := fl.2.2
    t_bits := match fl.2.1 with
      | none => []
      | some s => s.1 ++ (s.2.1).toList
    tdata := fl.1
    t_ctid := (0, 0)
    t_self := src.t_self
    t_tableOid := src.t_tableOid
    t_xc_node_id := 0
    t_oid := 0
    shardid := 0 }

/-- `heap_expand_tuple`: `expand_tuple` with a heap-tuple target. -/
def heap_expand_tuple (src : HTuple) (td : TupleDesc) : HTuple :=
  expand_tuple src td


/-! ## C7 -/

/-- Sample column: int4 with a missing (default) value flagged. -/
def attInt4Missing : Attr := ⟨4, 4, true, true, false, true⟩

/-- C7 (code bug): expanding a 1-column no-nulls row to a 3-column schema
whose appended columns follow the pattern [absent-missing,
present-missing] makes `expand_tuple` set `HEAP_HASNULL` while allocating
NO null bitmap: the `firstmissingnum` scan skips absent entries without
setting `hasNulls` (upstream PostgreSQL's scan carries
`else hasNulls = true`), and the later fill loop ORs `HEAP_HASNULL` into
the infomask with `nullBits` still NULL.  The resulting corrupt tuple
decodes with EVERY column null, although column 1 holds 7 and column 3 has
default 42.  A schema whose appended columns are [present-missing,
absent-missing] — the absent one after the first present one — is handled
correctly, showing the intended behaviour next to the broken one. -/
theorem C7_expand_hasnulls_bug :
    (HeapTupleHasNulls (heap_form_tuple ⟨[attInt4], false, none⟩ [.byval 7] [false])
        = false) ∧
    (heap_form_tuple ⟨[attInt4], false, none⟩ [.byval 7] [false]).tupNatts = 1 ∧
    (HeapTupleHasNulls (heap_expand_tuple
        (heap_form_tuple ⟨[attInt4], false, none⟩ [.byval 7] [false])
        ⟨[attInt4, attInt4Missing, attInt4Missing], false,
          some [none, none, some (.byval 42)]⟩) = true ∧
     (heap_expand_tuple
        (heap_form_tuple ⟨[attInt4], false, none⟩ [.byval 7] [false])
        ⟨[attInt4, attInt4Missing, attInt4Missing], false,
          some [none, none, some (.byval 42)]⟩).t_bits = [] ∧
     (heap_deform_tuple
        ⟨[attInt4, attInt4Missing, attInt4Missing], false,
          some [none, none, some (.byval 42)]⟩ [-1, -1, -1]
        (heap_expand_tuple
          (heap_form_tuple ⟨[attInt4], false, none⟩ [.byval 7] [false])
          ⟨[attInt4, attInt4Missing, attInt4Missing], false,
            some [none, none, some (.byval 42)]⟩)).nulls = [true, true, true] ∧
     getmissingattr ⟨[attInt4, attInt4Missing, attInt4Missing], false,
          some [none, none, some (.byval 42)]⟩ 3 = (.byval 42, false)) ∧
    (HeapTupleHasNulls (heap_expand_tuple
        (heap_form_tuple ⟨[attInt4], false, none⟩ [.byval 7] [false])
        ⟨[attInt4, attInt4Missing, attInt4Missing], false,
          some [none, some (.byval 5), none]⟩) = true ∧
     (heap_expand_tuple
        (heap_form_tuple ⟨[attInt4], false, none⟩ [.byval 7] [false])
        ⟨[attInt4, attInt4Missing, attInt4Missing], false,
          some [none, some (.byval 5), none]⟩).t_bits = [3] ∧
     (heap_deform_tuple
        ⟨[attInt4, attInt4Missing, attInt4Missing], false,
          some [none, some (.byval 5), none]⟩ [-1, -1, -1]
        (heap_expand_tuple
          (heap_form_tuple ⟨[attInt4], false, none⟩ [.byval 7] [false])
          ⟨[attInt4, attInt4Missing, attInt4Missing], false,
            some [none, some (.byval 5), none]⟩)).nulls = [false, false, true] ∧
     (heap_deform_tuple
        ⟨[attInt4, attInt4Missing, attInt4Missing], false,
          some [none, some (.byval 5), none]⟩ [-1, -1, -1]
        (heap_expand_tuple
          (heap_form_tuple ⟨[attInt4], false, none⟩ [.byval 7] [false])
          ⟨[attInt4, attInt4Missing, attInt4Missing], false,
            some [none, some (.byval 5), none]⟩)).values =
       [.byval 7, .byval 5, .byval 0]) := by decide


/-! ## Loop-splitting and state-independence machinery -/

theorem setSeq_length {α : Type} :
    ∀ (xs l : List α) (i : Nat), (setSeq l i xs).length = l.length := by
  intro xs
  induction xs with
  | nil => intro l i; rfl
  | cons x xs ih =>
    intro l i
    show (setSeq (l.set i x) (i + 1) xs).length = l.length
    rw [ih]
    simp

theorem setSeq_getD_lt {α : Type} [Inhabited α] :
    ∀ (xs l : List α) (i j : Nat) (d : α), j < i →
      (setSeq l i xs).getD j d = l.getD j d := by
  intro xs
  induction xs with
  | nil => intro l i j d _; rfl
  | cons x xs ih =>
    intro l i j d hj
    show (setSeq (l.set i x) (i + 1) xs).getD j d = l.getD j d
    rw [ih _ _ _ _ (by omega), getD_set_ne _ _ _ _ _ (by omega)]

theorem setSeq_getD_ge {α : Type} [Inhabited α] :
    ∀ (xs l : List α) (i j : Nat) (d1 d2 : α), i ≤ j → j < i + xs.length →
      j < l.length → (setSeq l i xs).getD j d1 = xs.getD (j - i) d2 := by
  intro xs
  induction xs with
  | nil =>
    intro l i j d1 d2 h1 h2 _
    simp at h2
    omega
  | cons x xs ih =>
    intro l i j d1 d2 h1 h2 h3
    show (setSeq (l.set i x) (i + 1) xs).getD j d1 = _
    by_cases hji : j = i
    · subst hji
      rw [setSeq_getD_lt _ _ _ _ _ (by omega), getD_set_self _ _ _ _ (by omega)]
      simp [List.getD]
    · have hj2 : i + 1 ≤ j := by omega
      rw [ih _ _ _ _ d2 hj2 (by simp at h2 ⊢; omega) (by simpa using h3)]
      have : j - i = (j - (i + 1)) + 1 := by omega
      rw [this]
      simp [List.getD]

theorem deform_loop_add (td : TupleDesc) (tup : HTuple) :
    ∀ (k1 k2 i : Nat) (st : DStat),
      deform_loop td tup (k1 + k2) i st =
        deform_loop td tup k2 (i + k1) (deform_loop td tup k1 i st) := by
  intro k1
  induction k1 with
  | zero =>
    intro k2 i st
    rw [Nat.zero_add, Nat.add_zero]
    rfl
  | succ k1 ih =>
    intro k2 i st
    have h1 : k1 + 1 + k2 = (k1 + k2) + 1 := by omega
    rw [h1]
    show deform_loop td tup (k1 + k2) (i + 1) (deformStep td tup i st) = _
    rw [ih]
    have h2 : i + 1 + k1 = i + (k1 + 1) := by omega
    rw [h2]
    rfl

theorem walk_loop_add (td : TupleDesc) (tup : HTuple) :
    ∀ (k1 k2 i : Nat) (st : WStat),
      walk_loop td tup (k1 + k2) i st =
        walk_loop td tup k2 (i + k1) (walk_loop td tup k1 i st) := by
  intro k1
  induction k1 with
  | zero =>
    intro k2 i st
    rw [Nat.zero_add, Nat.add_zero]
    rfl
  | succ k1 ih =>
    intro k2 i st
    have h1 : k1 + 1 + k2 = (k1 + k2) + 1 := by omega
    rw [h1]
    show walk_loop td tup (k1 + k2) (i + 1) (walkStep td tup i st) = _
    rw [ih]
    have h2 : i + 1 + k1 = i + (k1 + 1) := by omega
    rw [h2]
    rfl

theorem walk_loop_getD_lt (td : TupleDesc) (tup : HTuple) :
    ∀ (k i : Nat) (st : WStat) (j : Nat) (d : Datum) (b : Bool), j < i →
      (walk_loop td tup k i st).values.getD j d = st.values.getD j d ∧
      (walk_loop td tup k i st).nulls.getD j b = st.nulls.getD j b := by
  intro k
  induction k with
  | zero => intro i st j d b _; exact ⟨rfl, rfl⟩
  | succ k ih =>
    intro i st j d b hj
    have hunf : walk_loop td tup (k + 1) i st =
        walk_loop td tup k (i + 1) (walkStep td tup i st) := rfl
    rw [hunf]
    have hstep := ih (i + 1) (walkStep td tup i st) j d b (by omega)
    constructor
    · rw [hstep.1]
      show (walkStep td tup i st).values.getD j d = _
      unfold walkStep
      by_cases h : (HeapTupleHasNulls tup && att_isnull i tup.t_bits) = true
      · rw [if_pos h]
        exact getD_set_ne _ _ _ _ _ (by omega)
      · rw [if_neg h]
        dsimp only
        exact getD_set_ne _ _ _ _ _ (by omega)
    · rw [hstep.2]
      show (walkStep td tup i st).nulls.getD j b = _
      unfold walkStep
      by_cases h : (HeapTupleHasNulls tup && att_isnull i tup.t_bits) = true
      · rw [if_pos h]
        exact getD_set_ne _ _ _ _ _ (by omega)
      · rw [if_neg h]
        dsimp only
        exact getD_set_ne _ _ _ _ _ (by omega)

/-- The value one deform step stores at its index — independent of the
current values/nulls arrays. -/
def deformVal (td : TupleDesc) (tup : HTuple) (i : Nat) (c : List Int)
    (off : Nat) (slow : Bool) : Datum :=
  (deformStep td tup i ⟨List.replicate (i + 1) (.byval 0),
    List.replicate (i + 1) true, c, off, slow⟩).values.getD i (.byval 0)

/-- The null flag one deform step stores at its index. -/
def deformNullb (td : TupleDesc) (tup : HTuple) (i : Nat) (c : List Int)
    (off : Nat) (slow : Bool) : Bool :=
  (deformStep td tup i ⟨List.replicate (i + 1) (.byval 0),
    List.replicate (i + 1) true, c, off, slow⟩).nulls.getD i false

/-- One deform step is a `set` of both arrays at its index by values that
do not depend on the arrays, with control state (cache, offset, slow)
likewise independent of them. -/
theorem deformStep_split (td : TupleDesc) (tup : HTuple) (i : Nat)
    (c : List Int) (off : Nat) (slow : Bool) :
    ∀ (vs : List Datum) (ns : List Bool),
      deformStep td tup i ⟨vs, ns, c, off, slow⟩ =
        ⟨vs.set i (deformVal td tup i c off slow),
         ns.set i (deformNullb td tup i c off slow),
         (deformStep td tup i ⟨[], [], c, off, slow⟩).cache,
         (deformStep td tup i ⟨[], [], c, off, slow⟩).off,
         (deformStep td tup i ⟨[], [], c, off, slow⟩).slow⟩ := by
  intro vs ns
  have hlt : i < (List.replicate (i + 1) (Datum.byval 0)).length := by simp
  have hltb : i < (List.replicate (i + 1) true).length := by simp
  unfold deformVal deformNullb deformStep
  by_cases h : (HeapTupleHasNulls tup && att_isnull i tup.t_bits) = true
  · simp only [if_pos h]
    rw [getD_set_self _ _ _ _ hlt, getD_set_self _ _ _ _ hltb]
  · simp only [if_neg h]
    rw [getD_set_self _ _ _ _ hlt, getD_set_self _ _ _ _ hltb]

/-- A deform-loop run is a `setSeq` overlay of its input arrays by update
lists that do not depend on those arrays, with control state independent
of them. -/
theorem deform_loop_shape (td : TupleDesc) (tup : HTuple) :
    ∀ (k i : Nat) (c : List Int) (off : Nat) (slow : Bool),
      ∃ (uv : List Datum) (un : List Bool), uv.length = k ∧ un.length = k ∧
        ∀ (vs : List Datum) (ns : List Bool),
          deform_loop td tup k i ⟨vs, ns, c, off, slow⟩ =
            ⟨setSeq vs i uv, setSeq ns i un,
             (deform_loop td tup k i ⟨[], [], c, off, slow⟩).cache,
             (deform_loop td tup k i ⟨[], [], c, off, slow⟩).off,
             (deform_loop td tup k i ⟨[], [], c, off, slow⟩).slow⟩ := by
  intro k
  induction k with
  | zero =>
    intro i c off slow
    exact ⟨[], [], rfl, rfl, fun vs ns => rfl⟩
  | succ k ih =>
    intro i c off slow
    have hstep := deformStep_split td tup i c off slow
    obtain ⟨uv, un, huv, hun, hrec⟩ := ih (i + 1)
      (deformStep td tup i ⟨[], [], c, off, slow⟩).cache
      (deformStep td tup i ⟨[], [], c, off, slow⟩).off
      (deformStep td tup i ⟨[], [], c, off, slow⟩).slow
    refine ⟨deformVal td tup i c off slow :: uv,
      deformNullb td tup i c off slow :: un,
      by simpa using huv, by simpa using hun, fun vs ns => ?_⟩
    have hctrl : deform_loop td tup (k + 1) i ⟨[], [], c, off, slow⟩ =
        deform_loop td tup k (i + 1)
          ⟨[], [],
           (deformStep td tup i ⟨[], [], c, off, slow⟩).cache,
           (deformStep td tup i ⟨[], [], c, off, slow⟩).off,
           (deformStep td tup i ⟨[], [], c, off, slow⟩).slow⟩ := by
      show deform_loop td tup k (i + 1) (deformStep td tup i ⟨[], [], c, off, slow⟩) = _
      rw [hstep [] []]
      rfl
    have h1 : deform_loop td tup (k + 1) i ⟨vs, ns, c, off, slow⟩ =
        deform_loop td tup k (i + 1) (deformStep td tup i ⟨vs, ns, c, off, slow⟩) := rfl
    rw [h1, hstep vs ns, hrec]
    rw [hctrl, hrec]
    rfl


theorem cacheWF_neg (td : TupleDesc) :
    cacheWF td (List.replicate td.natts (-1)) = true := by
  unfold cacheWF
  rw [Bool.and_eq_true]
  constructor
  · simp
  · rw [List.all_eq_true]
    intro i hi
    have hg : (List.replicate td.natts (-1 : Int)).getD i (-1) = -1 := by
      rw [List.mem_range] at hi
      rw [List.getD_eq_getElem?_getD]
      simp [List.getElem?_replicate, hi]
    rw [Bool.or_eq_true]
    left
    rw [hg]
    simp

/-- Missing-table consistency: an entry flagged present in the side table
belongs to a column with `atthasmissing` set and not dropped.  This is the
catalog invariant `getmissingattr` relies on. -/
def wfMissing (td : TupleDesc) : Bool :=
  match td.missing with
  | none => true
  | some tbl =>
    (List.range td.natts).all fun i =>
      !(tbl.getD i none).isSome ||
      ((td.attrs.getD i default).atthasmissing && !(td.attrs.getD i default).attisdropped)

/-- Under the catalog invariant, `getmissingattr` answers exactly the
missing-table entry — the pair `slot_getmissingattrs` writes. -/
theorem getmissingattr_eq (td : TupleDesc) (i : Nat) (hwfm : wfMissing td = true)
    (hi : i < td.natts) :
    getmissingattr td (i + 1) =
      (((td.missing.getD []).getD i none).getD (.byval 0),
       !((td.missing.getD []).getD i none).isSome) := by
  unfold getmissingattr
  dsimp only
  have hidx : i + 1 - 1 = i := by omega
  rw [hidx]
  by_cases h : ((td.attrs.getD i default).atthasmissing &&
      !(td.attrs.getD i default).attisdropped) = true
  · rw [if_pos h]
    cases hm : td.missing with
    | none => rfl
    | some tbl =>
      dsimp only [Option.getD]
      cases he : tbl.getD i none with
      | none => rfl
      | some d => rfl
  · rw [if_neg h]
    cases hm : td.missing with
    | none => rfl
    | some tbl =>
      unfold wfMissing at hwfm
      rw [hm] at hwfm
      rw [List.all_eq_true] at hwfm
      have := hwfm i (by rw [List.mem_range]; exact hi)
      rw [Bool.or_eq_true] at this
      cases this with
      | inl hnone =>
        have : (tbl.getD i none).isSome = false := by
          revert hnone
          cases (tbl.getD i none).isSome <;> simp
        cases he : tbl.getD i none with
        | none =>
          show (Datum.byval 0, true) =
            ((tbl.getD i none).getD (Datum.byval 0), !(tbl.getD i none).isSome)
          rw [he]
          rfl
        | some d =>
          rw [he] at this
          simp at this
      | inr hflag => exact absurd hflag h

theorem missingFill_length (tbl : List (Option Datum)) :
    ∀ (k i : Nat) (vs : List Datum) (ns : List Bool),
      (missingFill tbl k i vs ns).1.length = vs.length ∧
      (missingFill tbl k i vs ns).2.length = ns.length := by
  intro k
  induction k with
  | zero => intro i vs ns; exact ⟨rfl, rfl⟩
  | succ k ih =>
    intro i vs ns
    have h : missingFill tbl (k + 1) i vs ns =
        missingFill tbl k (i + 1)
          (vs.set i ((tbl.getD i none).getD (.byval 0)))
          (ns.set i (!(tbl.getD i none).isSome)) := rfl
    rw [h]
    refine ⟨?_, ?_⟩
    · rw [(ih _ _ _).1]
      simp
    · rw [(ih _ _ _).2]
      simp

theorem missingFill_getD (tbl : List (Option Datum)) :
    ∀ (k i : Nat) (vs : List Datum) (ns : List Bool) (j : Nat),
      (j < i →
        (missingFill tbl k i vs ns).1.getD j (.byval 0) = vs.getD j (.byval 0) ∧
        (missingFill tbl k i vs ns).2.getD j false = ns.getD j false) ∧
      (i ≤ j → j < i + k → j < vs.length → j < ns.length →
        (missingFill tbl k i vs ns).1.getD j (.byval 0) =
          (tbl.getD j none).getD (.byval 0) ∧
        (missingFill tbl k i vs ns).2.getD j false = !(tbl.getD j none).isSome) := by
  intro k
  induction k with
  | zero =>
    intro i vs ns j
    exact ⟨fun _ => ⟨rfl, rfl⟩, fun _ h2 _ _ => by omega⟩
  | succ k ih =>
    intro i vs ns j
    have h : missingFill tbl (k + 1) i vs ns =
        missingFill tbl k (i + 1)
          (vs.set i ((tbl.getD i none).getD (.byval 0)))
          (ns.set i (!(tbl.getD i none).isSome)) := rfl
    rw [h]
    constructor
    · intro hj
      have hrec := (ih (i + 1) (vs.set i ((tbl.getD i none).getD (.byval 0)))
        (ns.set i (!(tbl.getD i none).isSome)) j).1 (by omega)
      rw [hrec.1, hrec.2, getD_set_ne _ _ _ _ _ (by omega),
        getD_set_ne _ _ _ _ _ (by omega)]
      exact ⟨rfl, rfl⟩
    · intro h1 h2 h3 h4
      by_cases hji : j = i
      · subst hji
        have hrec := (ih (j + 1) (vs.set j ((tbl.getD j none).getD (.byval 0)))
          (ns.set j (!(tbl.getD j none).isSome)) j).1 (by omega)
        rw [hrec.1, hrec.2, getD_set_self _ _ _ _ (by omega),
          getD_set_self _ _ _ _ (by omega)]
        exact ⟨rfl, rfl⟩
      · have hrec := (ih (i + 1) (vs.set i ((tbl.getD i none).getD (.byval 0)))
          (ns.set i (!(tbl.getD i none).isSome)) j).2 (by omega) (by omega)
          (by simpa using h3) (by simpa using h4)
        exact hrec

theorem missingTail_getD (td : TupleDesc) :
    ∀ (k i : Nat) (vs : List Datum) (ns : List Bool) (j : Nat),
      (j < i →
        (missingTail td k i vs ns).1.getD j (.byval 0) = vs.getD j (.byval 0) ∧
        (missingTail td k i vs ns).2.getD j false = ns.getD j false) ∧
      (i ≤ j → j < i + k → j < vs.length → j < ns.length →
        (missingTail td k i vs ns).1.getD j (.byval 0) =
          (getmissingattr td (j + 1)).1 ∧
        (missingTail td k i vs ns).2.getD j false = (getmissingattr td (j + 1)).2) := by
  intro k
  induction k with
  | zero =>
    intro i vs ns j
    exact ⟨fun _ => ⟨rfl, rfl⟩, fun _ h2 _ _ => by omega⟩
  | succ k ih =>
    intro i vs ns j
    have h : missingTail td (k + 1) i vs ns =
        missingTail td k (i + 1)
          (vs.set i (getmissingattr td (i + 1)).1)
          (ns.set i (getmissingattr td (i + 1)).2) := rfl
    rw [h]
    constructor
    · intro hj
      have hrec := (ih (i + 1) (vs.set i (getmissingattr td (i + 1)).1)
        (ns.set i (getmissingattr td (i + 1)).2) j).1 (by omega)
      rw [hrec.1, hrec.2, getD_set_ne _ _ _ _ _ (by omega),
        getD_set_ne _ _ _ _ _ (by omega)]
      exact ⟨rfl, rfl⟩
    · intro h1 h2 h3 h4
      by_cases hji : j = i
      · subst hji
        have hrec := (ih (j + 1) (vs.set j (getmissingattr td (j + 1)).1)
          (ns.set j (getmissingattr td (j + 1)).2) j).1 (by omega)
        rw [hrec.1, hrec.2, getD_set_self _ _ _ _ (by omega),
          getD_set_self _ _ _ _ (by omega)]
        exact ⟨rfl, rfl⟩
      · exact (ih (i + 1) (vs.set i (getmissingattr td (i + 1)).1)
          (ns.set i (getmissingattr td (i + 1)).2) j).2 (by omega) (by omega)
          (by simpa using h3) (by simpa using h4)


theorem heap_deform_getD_lt (td : TupleDesc) (cache : List Int) (tup : HTuple)
    (j : Nat) (hj : j < min tup.tupNatts td.natts) :
    (heap_deform_tuple td cache tup).values.getD j (.byval 0) =
      (deform_loop td tup (min tup.tupNatts td.natts) 0
        ⟨List.replicate td.natts (.byval 0), List.replicate td.natts true,
         cache, 0, false⟩).values.getD j (.byval 0) ∧
    (heap_deform_tuple td cache tup).nulls.getD j false =
      (deform_loop td tup (min tup.tupNatts td.natts) 0
        ⟨List.replicate td.natts (.byval 0), List.replicate td.natts true,
         cache, 0, false⟩).nulls.getD j false := by
  unfold heap_deform_tuple
  dsimp only
  exact (missingTail_getD td _ _ _ _ j).1 hj

theorem heap_deform_getD_ge (td : TupleDesc) (cache : List Int) (tup : HTuple)
    (j : Nat) (h1 : min tup.tupNatts td.natts ≤ j) (h2 : j < td.natts) :
    (heap_deform_tuple td cache tup).values.getD j (.byval 0) =
      (getmissingattr td (j + 1)).1 ∧
    (heap_deform_tuple td cache tup).nulls.getD j false =
      (getmissingattr td (j + 1)).2 := by
  have hmin : min tup.tupNatts td.natts ≤ td.natts := Nat.min_le_right _ _
  unfold heap_deform_tuple
  dsimp only
  refine (missingTail_getD td _ _ _ _ j).2 h1 (by omega) ?_ ?_
  · rw [deform_loop_values_length]
    simp
    omega
  · rw [deform_loop_nulls_length]
    simp
    omega

/-- A deform run from the start with any well-formed cache agrees entry for
entry with the reference full deform (run with an all-unset cache) on the
columns it covers. -/
theorem deform_run_ref (td : TupleDesc) (tup : HTuple) (c0 : List Int)
    (hc0 : cacheWF td c0 = true) (attno : Nat)
    (hattno : attno ≤ min tup.tupNatts td.natts) :
    ∀ j, j < attno →
      (deform_loop td tup attno 0
        ⟨List.replicate td.natts (.byval 0), List.replicate td.natts true,
         c0, 0, false⟩).values.getD j (.byval 0) =
        (heap_deform_tuple td (List.replicate td.natts (-1)) tup).values.getD j
          (.byval 0) ∧
      (deform_loop td tup attno 0
        ⟨List.replicate td.natts (.byval 0), List.replicate td.natts true,
         c0, 0, false⟩).nulls.getD j false =
        (heap_deform_tuple td (List.replicate td.natts (-1)) tup).nulls.getD j
          false := by
  intro j hj
  have hphysn : min tup.tupNatts td.natts ≤ td.natts := Nat.min_le_right _ _
  have hA1 := deform_loop_eq_walk td tup attno 0
    (List.replicate td.natts (.byval 0)) (List.replicate td.natts true) 0 false c0
    hc0 (fun _ => ⟨rfl, rfl⟩) (by omega)
  have hA2 := deform_loop_eq_walk td tup (min tup.tupNatts td.natts) 0
    (List.replicate td.natts (.byval 0)) (List.replicate td.natts true) 0 false
    (List.replicate td.natts (-1)) (cacheWF_neg td) (fun _ => ⟨rfl, rfl⟩) (by omega)
  have hsplit : walk_loop td tup (min tup.tupNatts td.natts) 0
      ⟨List.replicate td.natts (.byval 0), List.replicate td.natts true, 0⟩ =
      walk_loop td tup (min tup.tupNatts td.natts - attno) attno
        (walk_loop td tup attno 0
          ⟨List.replicate td.natts (.byval 0), List.replicate td.natts true, 0⟩) := by
    have h := walk_loop_add td tup attno (min tup.tupNatts td.natts - attno) 0
      ⟨List.replicate td.natts (.byval 0), List.replicate td.natts true, 0⟩
    rw [show attno + (min tup.tupNatts td.natts - attno) = min tup.tupNatts td.natts
      from by omega] at h
    rw [show (0 : Nat) + attno = attno from by omega] at h
    exact h
  have hlt := walk_loop_getD_lt td tup (min tup.tupNatts td.natts - attno) attno
    (walk_loop td tup attno 0
      ⟨List.replicate td.natts (.byval 0), List.replicate td.natts true, 0⟩)
    j (.byval 0) false hj
  have href := heap_deform_getD_lt td (List.replicate td.natts (-1)) tup j (by omega)
  constructor
  · rw [hA1.1, href.1, hA2.1, hsplit, hlt.1]
  · rw [hA1.2.1, href.2, hA2.2.1, hsplit, hlt.2]


/-- Invariant of a slot holding physical tuple `tup` (threaded offset cache
included): the arrays have descriptor length, at most `natts` entries are
valid, the saved cursor and the cache are those of a canonical deform run
over the already-extracted prefix from SOME well-formed starting cache, and
every valid entry agrees with the reference full deform of the tuple. -/
def SlotInv (slot : Slot) (cache : List Int) (tup : HTuple) : Prop :=
  slot.tts_tuple = some tup ∧
  slot.tts_datarow = false ∧
  slot.tts_values.length = slot.tts_tupleDescriptor.natts ∧
  slot.tts_isnull.length = slot.tts_tupleDescriptor.natts ∧
  slot.tts_nvalid ≤ slot.tts_tupleDescriptor.natts ∧
  ∃ c0, cacheWF slot.tts_tupleDescriptor c0 = true ∧
    cache = (deform_loop slot.tts_tupleDescriptor tup
      (min slot.tts_nvalid (min tup.tupNatts slot.tts_tupleDescriptor.natts)) 0
      ⟨List.replicate slot.tts_tupleDescriptor.natts (.byval 0),
       List.replicate slot.tts_tupleDescriptor.natts true, c0, 0, false⟩).cache ∧
    (slot.tts_nvalid ≠ 0 →
      slot.tts_off = (deform_loop slot.tts_tupleDescriptor tup
        (min slot.tts_nvalid (min tup.tupNatts slot.tts_tupleDescriptor.natts)) 0
        ⟨List.replicate slot.tts_tupleDescriptor.natts (.byval 0),
         List.replicate slot.tts_tupleDescriptor.natts true, c0, 0, false⟩).off ∧
      slot.tts_slow = (deform_loop slot.tts_tupleDescriptor tup
        (min slot.tts_nvalid (min tup.tupNatts slot.tts_tupleDescriptor.natts)) 0
        ⟨List.replicate slot.tts_tupleDescriptor.natts (.byval 0),
         List.replicate slot.tts_tupleDescriptor.natts true, c0, 0, false⟩).slow) ∧
    (∀ j, j < slot.tts_nvalid →
      slot.tts_values.getD j (.byval 0) =
        (heap_deform_tuple slot.tts_tupleDescriptor
          (List.replicate slot.tts_tupleDescriptor.natts (-1)) tup).values.getD j
          (.byval 0) ∧
      slot.tts_isnull.getD j false =
        (heap_deform_tuple slot.tts_tupleDescriptor
          (List.replicate slot.tts_tupleDescriptor.natts (-1)) tup).nulls.getD j
          false)

/-- `slot_deform_tuple` preserves the slot invariant, advances the
valid-prefix counter to `max` of old and requested, and leaves the
descriptor, tuple and DataRow fields alone — for any legal requested count
(at most the lesser of tuple and descriptor width). -/
theorem slot_deform_tuple_spec (slot : Slot) (cache : List Int) (tup : HTuple)
    (attno : Nat) (hinv : SlotInv slot cache tup)
    (hattno : attno ≤ min tup.tupNatts slot.tts_tupleDescriptor.natts) :
    SlotInv (slot_deform_tuple slot cache attno).1
      (slot_deform_tuple slot cache attno).2 tup ∧
    (slot_deform_tuple slot cache attno).1.tts_nvalid = max slot.tts_nvalid attno ∧
    (slot_deform_tuple slot cache attno).1.tts_tupleDescriptor =
      slot.tts_tupleDescriptor ∧
    (slot_deform_tuple slot cache attno).1.tts_tuple = slot.tts_tuple ∧
    (slot_deform_tuple slot cache attno).1.tts_datarow = slot.tts_datarow := by
  obtain ⟨htup, hdr, hvl, hnl, hnv, c0, hc0, hcache, hcur, hpre⟩ := hinv
  have hphysn : min tup.tupNatts slot.tts_tupleDescriptor.natts ≤
      slot.tts_tupleDescriptor.natts := Nat.min_le_right _ _
  have hkey : slot_deform_tuple slot cache attno =
      ({ slot with
          tts_values := (deform_loop slot.tts_tupleDescriptor tup
            (attno - slot.tts_nvalid) slot.tts_nvalid
            ⟨slot.tts_values, slot.tts_isnull, cache,
             (if slot.tts_nvalid == 0 then ((0 : Nat), false)
              else (slot.tts_off, slot.tts_slow)).1,
             (if slot.tts_nvalid == 0 then ((0 : Nat), false)
              else (slot.tts_off, slot.tts_slow)).2⟩).values
          tts_isnull := (deform_loop slot.tts_tupleDescriptor tup
            (attno - slot.tts_nvalid) slot.tts_nvalid
            ⟨slot.tts_values, slot.tts_isnull, cache,
             (if slot.tts_nvalid == 0 then ((0 : Nat), false)
              else (slot.tts_off, slot.tts_slow)).1,
             (if slot.tts_nvalid == 0 then ((0 : Nat), false)
              else (slot.tts_off, slot.tts_slow)).2⟩).nulls
          tts_nvalid := max slot.tts_nvalid attno
          tts_off := (deform_loop slot.tts_tupleDescriptor tup
            (attno - slot.tts_nvalid) slot.tts_nvalid
            ⟨slot.tts_values, slot.tts_isnull, cache,
             (if slot.tts_nvalid == 0 then ((0 : Nat), false)
              else (slot.tts_off, slot.tts_slow)).1,
             (if slot.tts_nvalid == 0 then ((0 : Nat), false)
              else (slot.tts_off, slot.tts_slow)).2⟩).off
          tts_slow := (deform_loop slot.tts_tupleDescriptor tup
            (attno - slot.tts_nvalid) slot.tts_nvalid
            ⟨slot.tts_values, slot.tts_isnull, cache,
             (if slot.tts_nvalid == 0 then ((0 : Nat), false)
              else (slot.tts_off, slot.tts_slow)).1,
             (if slot.tts_nvalid == 0 then ((0 : Nat), false)
              else (slot.tts_off, slot.tts_slow)).2⟩).slow },
        (deform_loop slot.tts_tupleDescriptor tup
            (attno - slot.tts_nvalid) slot.tts_nvalid
            ⟨slot.tts_values, slot.tts_isnull, cache,
             (if slot.tts_nvalid == 0 then ((0 : Nat), false)
              else (slot.tts_off, slot.tts_slow)).1,
             (if slot.tts_nvalid == 0 then ((0 : Nat), false)
              else (slot.tts_off, slot.tts_slow)).2⟩).cache) := by
    unfold slot_deform_tuple
    rw [htup]
    rfl
  by_cases hle : attno ≤ slot.tts_nvalid
  · -- the loop runs zero steps: everything but the saved cursor stays put
    have hcount : attno - slot.tts_nvalid = 0 := by omega
    have hmax : max slot.tts_nvalid attno = slot.tts_nvalid := by omega
    rw [hkey, hcount, hmax]
    simp only [deform_loop]
    refine ⟨⟨htup, hdr, hvl, hnl, hnv, c0, hc0, hcache, ?_, hpre⟩, trivial, trivial,
      trivial, trivial⟩
    intro hne
    have hz2 : (slot.tts_nvalid == 0) = false := by
      rw [beq_eq_false_iff_ne]
      exact hne
    show (if slot.tts_nvalid == 0 then ((0 : Nat), false)
          else (slot.tts_off, slot.tts_slow)).1 = _ ∧
        (if slot.tts_nvalid == 0 then ((0 : Nat), false)
          else (slot.tts_off, slot.tts_slow)).2 = _
    simp only [hz2, Bool.false_eq_true, if_false]
    exact hcur hne
  · -- the loop really runs: splice it onto the canonical prefix run
    have hgt : slot.tts_nvalid < attno := by omega
    have hmax : max slot.tts_nvalid attno = attno := by omega
    have hmlt : min slot.tts_nvalid (min tup.tupNatts slot.tts_tupleDescriptor.natts)
        = slot.tts_nvalid := by omega
    rw [hmlt] at hcache hcur
    have hc2 : cache = (deform_loop slot.tts_tupleDescriptor tup slot.tts_nvalid 0
        ⟨List.replicate slot.tts_tupleDescriptor.natts (.byval 0),
         List.replicate slot.tts_tupleDescriptor.natts true, c0, 0, false⟩).cache :=
      hcache
    have ho2 : (if slot.tts_nvalid == 0 then ((0 : Nat), false)
        else (slot.tts_off, slot.tts_slow)).1 =
        (deform_loop slot.tts_tupleDescriptor tup slot.tts_nvalid 0
          ⟨List.replicate slot.tts_tupleDescriptor.natts (.byval 0),
           List.replicate slot.tts_tupleDescriptor.natts true, c0, 0, false⟩).off := by
      by_cases hz : slot.tts_nvalid = 0
      · have hz2 : (slot.tts_nvalid == 0) = true := by rw [hz]; rfl
        simp only [hz2, if_true]
        rw [hz]
        rfl
      · have hz2 : (slot.tts_nvalid == 0) = false := by
          rw [beq_eq_false_iff_ne]
          exact hz
        simp only [hz2, Bool.false_eq_true, if_false]
        exact (hcur hz).1
    have hs2 : (if slot.tts_nvalid == 0 then ((0 : Nat), false)
        else (slot.tts_off, slot.tts_slow)).2 =
        (deform_loop slot.tts_tupleDescriptor tup slot.tts_nvalid 0
          ⟨List.replicate slot.tts_tupleDescriptor.natts (.byval 0),
           List.replicate slot.tts_tupleDescriptor.natts true, c0, 0, false⟩).slow := by
      by_cases hz : slot.tts_nvalid = 0
      · have hz2 : (slot.tts_nvalid == 0) = true := by rw [hz]; rfl
        simp only [hz2, if_true]
        rw [hz]
        rfl
      · have hz2 : (slot.tts_nvalid == 0) = false := by
          rw [beq_eq_false_iff_ne]
          exact hz
        simp only [hz2, Bool.false_eq_true, if_false]
        exact (hcur hz).2
    have hSin : (⟨slot.tts_values, slot.tts_isnull, cache,
        (if slot.tts_nvalid == 0 then ((0 : Nat), false)
         else (slot.tts_off, slot.tts_slow)).1,
        (if slot.tts_nvalid == 0 then ((0 : Nat), false)
         else (slot.tts_off, slot.tts_slow)).2⟩ : DStat) =
        ⟨slot.tts_values, slot.tts_isnull,
         (deform_loop slot.tts_tupleDescriptor tup slot.tts_nvalid 0
           ⟨List.replicate slot.tts_tupleDescriptor.natts (.byval 0),
            List.replicate slot.tts_tupleDescriptor.natts true, c0, 0, false⟩).cache,
         (deform_loop slot.tts_tupleDescriptor tup slot.tts_nvalid 0
           ⟨List.replicate slot.tts_tupleDescriptor.natts (.byval 0),
            List.replicate slot.tts_tupleDescriptor.natts true, c0, 0, false⟩).off,
         (deform_loop slot.tts_tupleDescriptor tup slot.tts_nvalid 0
           ⟨List.replicate slot.tts_tupleDescriptor.natts (.byval 0),
            List.replicate slot.tts_tupleDescriptor.natts true, c0, 0, false⟩).slow⟩ := by
      rw [hc2, ho2, hs2]
    rw [hkey, hSin, hmax]
    obtain ⟨uv, un, huv, hun, hsh⟩ := deform_loop_shape slot.tts_tupleDescriptor tup
      (attno - slot.tts_nvalid) slot.tts_nvalid
      (deform_loop slot.tts_tupleDescriptor tup slot.tts_nvalid 0
        ⟨List.replicate slot.tts_tupleDescriptor.natts (.byval 0),
         List.replicate slot.tts_tupleDescriptor.natts true, c0, 0, false⟩).cache
      (deform_loop slot.tts_tupleDescriptor tup slot.tts_nvalid 0
        ⟨List.replicate slot.tts_tupleDescriptor.natts (.byval 0),
         List.replicate slot.tts_tupleDescriptor.natts true, c0, 0, false⟩).off
      (deform_loop slot.tts_tupleDescriptor tup slot.tts_nvalid 0
        ⟨List.replicate slot.tts_tupleDescriptor.natts (.byval 0),
         List.replicate slot.tts_tupleDescriptor.natts true, c0, 0, false⟩).slow
    have happ1 := hsh slot.tts_values slot.tts_isnull
    have hCattno : deform_loop slot.tts_tupleDescriptor tup attno 0
        ⟨List.replicate slot.tts_tupleDescriptor.natts (.byval 0),
         List.replicate slot.tts_tupleDescriptor.natts true, c0, 0, false⟩ =
        deform_loop slot.tts_tupleDescriptor tup (attno - slot.tts_nvalid)
          slot.tts_nvalid
          (deform_loop slot.tts_tupleDescriptor tup slot.tts_nvalid 0
            ⟨List.replicate slot.tts_tupleDescriptor.natts (.byval 0),
             List.replicate slot.tts_tupleDescriptor.natts true, c0, 0, false⟩) := by
      have h := deform_loop_add slot.tts_tupleDescriptor tup slot.tts_nvalid
        (attno - slot.tts_nvalid) 0
        ⟨List.replicate slot.tts_tupleDescriptor.natts (.byval 0),
         List.replicate slot.tts_tupleDescriptor.natts true, c0, 0, false⟩
      rw [show slot.tts_nvalid + (attno - slot.tts_nvalid) = attno from by omega] at h
      rw [show (0 : Nat) + slot.tts_nvalid = slot.tts_nvalid from by omega] at h
      exact h
    have heta : (⟨(deform_loop slot.tts_tupleDescriptor tup slot.tts_nvalid 0
        ⟨List.replicate slot.tts_tupleDescriptor.natts (.byval 0),
         List.replicate slot.tts_tupleDescriptor.natts true, c0, 0, false⟩).values,
        (deform_loop slot.tts_tupleDescriptor tup slot.tts_nvalid 0
        ⟨List.replicate slot.tts_tupleDescriptor.natts (.byval 0),
         List.replicate slot.tts_tupleDescriptor.natts true, c0, 0, false⟩).nulls,
        (deform_loop slot.tts_tupleDescriptor tup slot.tts_nvalid 0
        ⟨List.replicate slot.tts_tupleDescriptor.natts (.byval 0),
         List.replicate slot.tts_tupleDescriptor.natts true, c0, 0, false⟩).cache,
        (deform_loop slot.tts_tupleDescriptor tup slot.tts_nvalid 0
        ⟨List.replicate slot.tts_tupleDescriptor.natts (.byval 0),
         List.replicate slot.tts_tupleDescriptor.natts true, c0, 0, false⟩).off,
        (deform_loop slot.tts_tupleDescriptor tup slot.tts_nvalid 0
        ⟨List.replicate slot.tts_tupleDescriptor.natts (.byval 0),
         List.replicate slot.tts_tupleDescriptor.natts true, c0, 0, false⟩).slow⟩ :
          DStat) =
        deform_loop slot.tts_tupleDescriptor tup slot.tts_nvalid 0
          ⟨List.replicate slot.tts_tupleDescriptor.natts (.byval 0),
           List.replicate slot.tts_tupleDescriptor.natts true, c0, 0, false⟩ := rfl
    have happC : deform_loop slot.tts_tupleDescriptor tup attno 0
        ⟨List.replicate slot.tts_tupleDescriptor.natts (.byval 0),
         List.replicate slot.tts_tupleDescriptor.natts true, c0, 0, false⟩ =
        ⟨setSeq (deform_loop slot.tts_tupleDescriptor tup slot.tts_nvalid 0
            ⟨List.replicate slot.tts_tupleDescriptor.natts (.byval 0),
             List.replicate slot.tts_tupleDescriptor.natts true, c0, 0, false⟩).values
          slot.tts_nvalid uv,
         setSeq (deform_loop slot.tts_tupleDescriptor tup slot.tts_nvalid 0
            ⟨List.replicate slot.tts_tupleDescriptor.natts (.byval 0),
             List.replicate slot.tts_tupleDescriptor.natts true, c0, 0, false⟩).nulls
          slot.tts_nvalid un,
         (deform_loop slot.tts_tupleDescriptor tup (attno - slot.tts_nvalid)
           slot.tts_nvalid
           ⟨[], [],
            (deform_loop slot.tts_tupleDescriptor tup slot.tts_nvalid 0
              ⟨List.replicate slot.tts_tupleDescriptor.natts (.byval 0),
               List.replicate slot.tts_tupleDescriptor.natts true,
               c0, 0, false⟩).cache,
            (deform_loop slot.tts_tupleDescriptor tup slot.tts_nvalid 0
              ⟨List.replicate slot.tts_tupleDescriptor.natts (.byval 0),
               List.replicate slot.tts_tupleDescriptor.natts true,
               c0, 0, false⟩).off,
            (deform_loop slot.tts_tupleDescriptor tup slot.tts_nvalid 0
              ⟨List.replicate slot.tts_tupleDescriptor.natts (.byval 0),
               List.replicate slot.tts_tupleDescriptor.natts true,
               c0, 0, false⟩).slow⟩).cache,
         (deform_loop slot.tts_tupleDescriptor tup (attno - slot.tts_nvalid)
           slot.tts_nvalid
           ⟨[], [],
            (deform_loop slot.tts_tupleDescriptor tup slot.tts_nvalid 0
              ⟨List.replicate slot.tts_tupleDescriptor.natts (.byval 0),
               List.replicate slot.tts_tupleDescriptor.natts true,
               c0, 0, false⟩).cache,
            (deform_loop slot.tts_tupleDescriptor tup slot.tts_nvalid 0
              ⟨List.replicate slot.tts_tupleDescriptor.natts (.byval 0),
               List.replicate slot.tts_tupleDescriptor.natts true,
               c0, 0, false⟩).off,
            (deform_loop slot.tts_tupleDescriptor tup slot.tts_nvalid 0
              ⟨List.replicate slot.tts_tupleDescriptor.natts (.byval 0),
               List.replicate slot.tts_tupleDescriptor.natts true,
               c0, 0, false⟩).slow⟩).off,
         (deform_loop slot.tts_tupleDescriptor tup (attno - slot.tts_nvalid)
           slot.tts_nvalid
           ⟨[], [],
            (deform_loop slot.tts_tupleDescriptor tup slot.tts_nvalid 0
              ⟨List.replicate slot.tts_tupleDescriptor.natts (.byval 0),
               List.replicate slot.tts_tupleDescriptor.natts true,
               c0, 0, false⟩).cache,
            (deform_loop slot.tts_tupleDescriptor tup slot.tts_nvalid 0
              ⟨List.replicate slot.tts_tupleDescriptor.natts (.byval 0),
               List.replicate slot.tts_tupleDescriptor.natts true,
               c0, 0, false⟩).off,
            (deform_loop slot.tts_tupleDescriptor tup slot.tts_nvalid 0
              ⟨List.replicate slot.tts_tupleDescriptor.natts (.byval 0),
               List.replicate slot.tts_tupleDescriptor.natts true,
               c0, 0, false⟩).slow⟩).slow⟩ := by
      rw [hCattno, ← heta, hsh]
    have hnatts : attno ≤ slot.tts_tupleDescriptor.natts := by omega
    have hCvl : (deform_loop slot.tts_tupleDescriptor tup slot.tts_nvalid 0
        ⟨List.replicate slot.tts_tupleDescriptor.natts (.byval 0),
         List.replicate slot.tts_tupleDescriptor.natts true,
         c0, 0, false⟩).values.length = slot.tts_tupleDescriptor.natts := by
      rw [deform_loop_values_length]
      simp
    have hCnl : (deform_loop slot.tts_tupleDescriptor tup slot.tts_nvalid 0
        ⟨List.replicate slot.tts_tupleDescriptor.natts (.byval 0),
         List.replicate slot.tts_tupleDescriptor.natts true,
         c0, 0, false⟩).nulls.length = slot.tts_tupleDescriptor.natts := by
      rw [deform_loop_nulls_length]
      simp
    rw [happ1]
    refine ⟨⟨htup, hdr, ?_, ?_, ?_, c0, hc0, ?_, ?_, ?_⟩, rfl, rfl, rfl, rfl⟩
    · show (setSeq slot.tts_values slot.tts_nvalid uv).length = _
      rw [setSeq_length]
      exact hvl
    · show (setSeq slot.tts_isnull slot.tts_nvalid un).length = _
      rw [setSeq_length]
      exact hnl
    · show attno ≤ slot.tts_tupleDescriptor.natts
      exact hnatts
    · show _ = (deform_loop slot.tts_tupleDescriptor tup
        (min attno (min tup.tupNatts slot.tts_tupleDescriptor.natts)) 0
        ⟨List.replicate slot.tts_tupleDescriptor.natts (.byval 0),
         List.replicate slot.tts_tupleDescriptor.natts true, c0, 0, false⟩).cache
      rw [show min attno (min tup.tupNatts slot.tts_tupleDescriptor.natts) = attno
        from by omega]
      rw [happC]
    · intro _
      show _ = _ ∧ _ = _
      rw [show min attno (min tup.tupNatts slot.tts_tupleDescriptor.natts) = attno
        from by omega]
      rw [happC]
      exact ⟨rfl, rfl⟩
    · intro j hj
      show (setSeq slot.tts_values slot.tts_nvalid uv).getD j (.byval 0) = _ ∧
        (setSeq slot.tts_isnull slot.tts_nvalid un).getD j false = _
      by_cases hjn : j < slot.tts_nvalid
      · rw [setSeq_getD_lt _ _ _ _ _ hjn, setSeq_getD_lt _ _ _ _ _ hjn]
        exact hpre j hjn
      · have hjn2 : slot.tts_nvalid ≤ j := by omega
        have hjattno : j < attno := hj
        have href := deform_run_ref slot.tts_tupleDescriptor tup c0 hc0 attno
          (by omega) j hjattno
        rw [happC] at href
        have hrefv := href.1
        have hrefn := href.2
        rw [setSeq_getD_ge uv slot.tts_values _ _ _ (.byval 0) hjn2
          (by omega) (by omega)]
        rw [setSeq_getD_ge un slot.tts_isnull _ _ _ false hjn2
          (by omega) (by omega)]
        rw [setSeq_getD_ge uv _ _ _ _ (.byval 0) hjn2 (by omega) (by omega)] at hrefv
        rw [setSeq_getD_ge un _ _ _ _ false hjn2 (by omega) (by omega)] at hrefn
        exact ⟨hrefv, hrefn⟩


theorem slot_deform_zero (slot : Slot) (cache : List Int)
    (hz : slot.tts_nvalid = 0) :
    (slot_deform_tuple slot cache 0).1.tts_off = 0 ∧
    (slot_deform_tuple slot cache 0).1.tts_slow = false := by
  unfold slot_deform_tuple
  have hz2 : (slot.tts_nvalid == 0) = true := by rw [hz]; rfl
  simp only [hz2, if_true, hz, Nat.sub_zero]
  constructor
  · show (deform_loop slot.tts_tupleDescriptor (slot.tts_tuple.getD default) 0 0
      ⟨slot.tts_values, slot.tts_isnull, cache, 0, false⟩).off = 0
    rfl
  · show (deform_loop slot.tts_tupleDescriptor (slot.tts_tuple.getD default) 0 0
      ⟨slot.tts_values, slot.tts_isnull, cache, 0, false⟩).slow = false
    rfl


/-! ## C4 -/

/-- C4: on a slot holding a physical tuple (with the slot invariant tying
the saved cursor and cache to a canonical prefix run), any in-range
`slot_getsomeattrs` call succeeds, leaves the arrays' first
`max(tts_nvalid, attnum)` entries equal to the corresponding entries of one
full `heap_deform_tuple` of the same tuple, re-establishes the invariant
(so any sequence of such calls, in any order, keeps the property),
is the identity when `attnum` is within the already-valid prefix
(idempotent on same-or-smaller requests), and plain `slot_deform_tuple`
calls preserve the invariant likewise. -/
theorem C4_incremental_view (slot : Slot) (cache : List Int) (tup : HTuple)
    (attnum : Int) (hinv : SlotInv slot cache tup)
    (hwfm : wfMissing slot.tts_tupleDescriptor = true)
    (ha1 : 1 ≤ attnum) (ha2 : attnum ≤ (slot.tts_tupleDescriptor.natts : Int)) :
    ∃ slot' cache', slot_getsomeattrs slot cache attnum = .ok (slot', cache') ∧
      SlotInv slot' cache' tup ∧
      slot'.tts_tupleDescriptor = slot.tts_tupleDescriptor ∧
      slot'.tts_nvalid = max slot.tts_nvalid attnum.toNat ∧
      (attnum ≤ (slot.tts_nvalid : Int) → slot' = slot ∧ cache' = cache) ∧
      (∀ j, j < slot'.tts_nvalid →
        slot'.tts_values.getD j (.byval 0) =
          (heap_deform_tuple slot.tts_tupleDescriptor
            (List.replicate slot.tts_tupleDescriptor.natts (-1)) tup).values.getD j
            (.byval 0) ∧
        slot'.tts_isnull.getD j false =
          (heap_deform_tuple slot.tts_tupleDescriptor
            (List.replicate slot.tts_tupleDescriptor.natts (-1)) tup).nulls.getD j
            false) ∧
      (∀ attno, attno ≤ min tup.tupNatts slot.tts_tupleDescriptor.natts →
        SlotInv (slot_deform_tuple slot cache attno).1
          (slot_deform_tuple slot cache attno).2 tup ∧
        (slot_deform_tuple slot cache attno).1.tts_nvalid =
          max slot.tts_nvalid attno) := by
  have hseq : ∀ attno, attno ≤ min tup.tupNatts slot.tts_tupleDescriptor.natts →
      SlotInv (slot_deform_tuple slot cache attno).1
        (slot_deform_tuple slot cache attno).2 tup ∧
      (slot_deform_tuple slot cache attno).1.tts_nvalid =
        max slot.tts_nvalid attno :=
    fun attno h => ⟨(slot_deform_tuple_spec slot cache tup attno hinv h).1,
      (slot_deform_tuple_spec slot cache tup attno hinv h).2.1⟩
  obtain ⟨htup, hdr, hvl, hnl, hnv, c0, hc0, hcache, hcur, hpre⟩ := hinv
  by_cases hquick : attnum ≤ (slot.tts_nvalid : Int)
  · refine ⟨slot, cache, ?_, ⟨htup, hdr, hvl, hnl, hnv, c0, hc0, hcache, hcur, hpre⟩,
      rfl, by omega, fun _ => ⟨rfl, rfl⟩, fun j hj => hpre j hj, hseq⟩
    unfold slot_getsomeattrs
    rw [if_pos hquick]
  · have hkey2 : slot_getsomeattrs slot cache attnum =
        .ok ({ (if min tup.tupNatts attnum.toNat < attnum.toNat then
                slot_getmissingattrs
                  (slot_deform_tuple slot cache (min tup.tupNatts attnum.toNat)).1
                  (min tup.tupNatts attnum.toNat) attnum.toNat
              else (slot_deform_tuple slot cache (min tup.tupNatts attnum.toNat)).1)
            with tts_nvalid := attnum.toNat },
          (slot_deform_tuple slot cache (min tup.tupNatts attnum.toNat)).2) := by
      unfold slot_getsomeattrs
      rw [if_neg hquick, hdr]
      simp only [Bool.false_eq_true, if_false]
      rw [if_neg (by omega), htup]
    have hattno : min tup.tupNatts attnum.toNat ≤
        min tup.tupNatts slot.tts_tupleDescriptor.natts := by omega
    obtain ⟨hinvr, hnvr, htdr, htupr, hdrr⟩ := slot_deform_tuple_spec slot cache tup
      (min tup.tupNatts attnum.toNat)
      ⟨htup, hdr, hvl, hnl, hnv, c0, hc0, hcache, hcur, hpre⟩ hattno
    obtain ⟨htup2, hdr2, hvl2, hnl2, hnv2, c1, hc1, hcache1, hcur1, hpre1⟩ := hinvr
    rw [htdr] at hvl2 hnl2 hnv2 hc1 hcache1 hcur1 hpre1
    by_cases hfill : min tup.tupNatts attnum.toNat < attnum.toNat
    · -- the tuple is narrower than the request: fill the tail from missing values
      rw [if_pos hfill] at hkey2
      have hattno_eq : min tup.tupNatts attnum.toNat = tup.tupNatts := by omega
      have hphys_eq : min tup.tupNatts slot.tts_tupleDescriptor.natts =
          tup.tupNatts := by omega
      have hsg : slot_getmissingattrs
          (slot_deform_tuple slot cache (min tup.tupNatts attnum.toNat)).1
          (min tup.tupNatts attnum.toNat) attnum.toNat =
          { (slot_deform_tuple slot cache (min tup.tupNatts attnum.toNat)).1 with
            tts_values := (missingFill (slot.tts_tupleDescriptor.missing.getD [])
              (attnum.toNat - min tup.tupNatts attnum.toNat)
              (min tup.tupNatts attnum.toNat)
              (slot_deform_tuple slot cache (min tup.tupNatts attnum.toNat)).1.tts_values
              (slot_deform_tuple slot cache
                (min tup.tupNatts attnum.toNat)).1.tts_isnull).1
            tts_isnull := (missingFill (slot.tts_tupleDescriptor.missing.getD [])
              (attnum.toNat - min tup.tupNatts attnum.toNat)
              (min tup.tupNatts attnum.toNat)
              (slot_deform_tuple slot cache (min tup.tupNatts attnum.toNat)).1.tts_values
              (slot_deform_tuple slot cache
                (min tup.tupNatts attnum.toNat)).1.tts_isnull).2 } := by
        unfold slot_getmissingattrs
        rw [htdr]
        rfl
      rw [hsg] at hkey2
      have hmfl := missingFill_length (slot.tts_tupleDescriptor.missing.getD [])
        (attnum.toNat - min tup.tupNatts attnum.toNat) (min tup.tupNatts attnum.toNat)
        (slot_deform_tuple slot cache (min tup.tupNatts attnum.toNat)).1.tts_values
        (slot_deform_tuple slot cache (min tup.tupNatts attnum.toNat)).1.tts_isnull
      have hmfg := missingFill_getD (slot.tts_tupleDescriptor.missing.getD [])
        (attnum.toNat - min tup.tupNatts attnum.toNat) (min tup.tupNatts attnum.toNat)
        (slot_deform_tuple slot cache (min tup.tupNatts attnum.toNat)).1.tts_values
        (slot_deform_tuple slot cache (min tup.tupNatts attnum.toNat)).1.tts_isnull
      have hm1 : min (slot_deform_tuple slot cache
          (min tup.tupNatts attnum.toNat)).1.tts_nvalid
          (min tup.tupNatts slot.tts_tupleDescriptor.natts) =
          min attnum.toNat (min tup.tupNatts slot.tts_tupleDescriptor.natts) := by
        rw [hnvr]
        omega
      have hprefix : ∀ j, j < attnum.toNat →
          (missingFill (slot.tts_tupleDescriptor.missing.getD [])
            (attnum.toNat - min tup.tupNatts attnum.toNat)
            (min tup.tupNatts attnum.toNat)
            (slot_deform_tuple slot cache (min tup.tupNatts attnum.toNat)).1.tts_values
            (slot_deform_tuple slot cache
              (min tup.tupNatts attnum.toNat)).1.tts_isnull).1.getD j (.byval 0) =
            (heap_deform_tuple slot.tts_tupleDescriptor
              (List.replicate slot.tts_tupleDescriptor.natts (-1)) tup).values.getD j
              (.byval 0) ∧
          (missingFill (slot.tts_tupleDescriptor.missing.getD [])
            (attnum.toNat - min tup.tupNatts attnum.toNat)
            (min tup.tupNatts attnum.toNat)
            (slot_deform_tuple slot cache (min tup.tupNatts attnum.toNat)).1.tts_values
            (slot_deform_tuple slot cache
              (min tup.tupNatts attnum.toNat)).1.tts_isnull).2.getD j false =
            (heap_deform_tuple slot.tts_tupleDescriptor
              (List.replicate slot.tts_tupleDescriptor.natts (-1)) tup).nulls.getD j
              false := by
        intro j hj
        by_cases hjlt : j < min tup.tupNatts attnum.toNat
        · have hlt := (hmfg j).1 hjlt
          rw [hlt.1, hlt.2]
          exact hpre1 j (by omega)
        · have hge := (hmfg j).2 (by omega) (by omega) (by omega) (by omega)
          rw [hge.1, hge.2]
          have hga := getmissingattr_eq slot.tts_tupleDescriptor j hwfm (by omega)
          have href := heap_deform_getD_ge slot.tts_tupleDescriptor
            (List.replicate slot.tts_tupleDescriptor.natts (-1)) tup j
            (by omega) (by omega)
          rw [href.1, href.2, hga]
          exact ⟨rfl, rfl⟩
      refine ⟨_, _, hkey2, ⟨htup2, hdr2, ?_, ?_, ?_, c1, hc1, ?_, ?_, ?_⟩,
        htdr, ?_, fun h => absurd h hquick, ?_, hseq⟩
      · show (missingFill _ _ _ _ _).1.length = slot.tts_tupleDescriptor.natts
        rw [hmfl.1]
        exact hvl2
      · show (missingFill _ _ _ _ _).2.length = slot.tts_tupleDescriptor.natts
        rw [hmfl.2]
        exact hnl2
      · show attnum.toNat ≤ slot.tts_tupleDescriptor.natts
        omega
      · show (slot_deform_tuple slot cache (min tup.tupNatts attnum.toNat)).2 =
          (deform_loop slot.tts_tupleDescriptor tup
            (min attnum.toNat (min tup.tupNatts slot.tts_tupleDescriptor.natts)) 0
            ⟨List.replicate slot.tts_tupleDescriptor.natts (.byval 0),
             List.replicate slot.tts_tupleDescriptor.natts true, c1, 0, false⟩).cache
        rw [← hm1]
        exact hcache1
      · intro _
        show (slot_deform_tuple slot cache (min tup.tupNatts attnum.toNat)).1.tts_off
            = (deform_loop slot.tts_tupleDescriptor tup
              (min attnum.toNat (min tup.tupNatts slot.tts_tupleDescriptor.natts)) 0
              ⟨List.replicate slot.tts_tupleDescriptor.natts (.byval 0),
               List.replicate slot.tts_tupleDescriptor.natts true, c1, 0, false⟩).off ∧
          (slot_deform_tuple slot cache (min tup.tupNatts attnum.toNat)).1.tts_slow
            = (deform_loop slot.tts_tupleDescriptor tup
              (min attnum.toNat (min tup.tupNatts slot.tts_tupleDescriptor.natts)) 0
              ⟨List.replicate slot.tts_tupleDescriptor.natts (.byval 0),
               List.replicate slot.tts_tupleDescriptor.natts true, c1, 0, false⟩).slow
        rw [← hm1]
        by_cases hr0 : (slot_deform_tuple slot cache
            (min tup.tupNatts attnum.toNat)).1.tts_nvalid = 0
        · have hz1 : slot.tts_nvalid = 0 := by
            rw [hnvr] at hr0
            omega
          have hz2 : min tup.tupNatts attnum.toNat = 0 := by
            rw [hnvr] at hr0
            omega
          have hzd := slot_deform_zero slot cache hz1
          rw [hz2] at hr0 ⊢
          rw [hr0]
          have hmz : min (0 : Nat)
              (min tup.tupNatts slot.tts_tupleDescriptor.natts) = 0 := by omega
          rw [hmz]
          exact ⟨hzd.1, hzd.2⟩
        · exact hcur1 hr0
      · intro j hj
        show (missingFill _ _ _ _ _).1.getD j (.byval 0) = _ ∧
          (missingFill _ _ _ _ _).2.getD j false = _
        exact hprefix j (by exact hj)
      · show attnum.toNat = max slot.tts_nvalid attnum.toNat
        omega
      · intro j hj
        exact hprefix j hj
    · -- the tuple covers the request: pure deform, no missing fill
      rw [if_neg hfill] at hkey2
      have hrnv : (slot_deform_tuple slot cache
          (min tup.tupNatts attnum.toNat)).1.tts_nvalid = attnum.toNat := by
        rw [hnvr]
        omega
      have hone : ({ (slot_deform_tuple slot cache (min tup.tupNatts attnum.toNat)).1
          with tts_nvalid := attnum.toNat } : Slot) =
          (slot_deform_tuple slot cache (min tup.tupNatts attnum.toNat)).1 := by
        nth_rewrite 2 [← hrnv]
        rfl
      rw [hone] at hkey2
      refine ⟨_, _, hkey2, ⟨htup2, hdr2, by rw [htdr]; exact hvl2,
        by rw [htdr]; exact hnl2, by rw [htdr]; exact hnv2,
        c1, by rw [htdr]; exact hc1, by rw [htdr]; exact hcache1,
        by rw [htdr]; exact hcur1, by rw [htdr]; exact hpre1⟩,
        htdr, by rw [hrnv]; omega, fun h => absurd h hquick, ?_, hseq⟩
      intro j hj
      exact hpre1 j hj


/-- Witness tuple: a two-int4 row `{7, 9}`. -/
def tupW : HTuple := heap_form_tuple tdInt4Int4 [.byval 7, .byval 9] [false, false]

/-- Witness slot: freshly loaded with `tupW`, nothing extracted yet. -/
def slotW : Slot :=
  ⟨tdInt4Int4, some tupW, false, [], [], List.replicate 2 (.byval 0),
   List.replicate 2 true, 0, 0, false⟩

/-- C4 witness: requesting both attributes of a fresh two-column slot. -/
theorem C4_incremental_view_witness :
    ∃ slot' cache', slot_getsomeattrs slotW [-1, -1] 2 = .ok (slot', cache') ∧
      SlotInv slot' cache' tupW ∧
      slot'.tts_tupleDescriptor = slotW.tts_tupleDescriptor ∧
      slot'.tts_nvalid = max slotW.tts_nvalid (2 : Int).toNat ∧
      ((2 : Int) ≤ (slotW.tts_nvalid : Int) → slot' = slotW ∧ cache' = [-1, -1]) ∧
      (∀ j, j < slot'.tts_nvalid →
        slot'.tts_values.getD j (.byval 0) =
          (heap_deform_tuple slotW.tts_tupleDescriptor
            (List.replicate slotW.tts_tupleDescriptor.natts (-1)) tupW).values.getD j
            (.byval 0) ∧
        slot'.tts_isnull.getD j false =
          (heap_deform_tuple slotW.tts_tupleDescriptor
            (List.replicate slotW.tts_tupleDescriptor.natts (-1)) tupW).nulls.getD j
            false) ∧
      (∀ attno, attno ≤ min tupW.tupNatts slotW.tts_tupleDescriptor.natts →
        SlotInv (slot_deform_tuple slotW [-1, -1] attno).1
          (slot_deform_tuple slotW [-1, -1] attno).2 tupW ∧
        (slot_deform_tuple slotW [-1, -1] attno).1.tts_nvalid =
          max slotW.tts_nvalid attno) :=
  C4_incremental_view slotW [-1, -1] tupW 2
    ⟨rfl, rfl, by decide, by decide, by decide, [-1, -1], by decide, by decide,
      fun h => absurd rfl h, fun j hj => absurd hj (Nat.not_lt_zero j)⟩
    (by decide) (by decide) (by decide)


/-! ## Cache contiguity (set `attcacheoff` entries form a prefix) -/

/-- The set entries of the offset cache are downward closed: whenever entry
`i` is set, every entry before it is set too.  All writers (the deform
loops and `nocachegetattr`) only ever extend the set prefix. -/
def cacheContig (td : TupleDesc) (cache : List Int) : Bool :=
  (List.range td.natts).all fun i =>
    cache.getD i (-1) < 0 ||
    (List.range i).all fun j => 0 ≤ cache.getD j (-1)

theorem cacheContig_set (td : TupleDesc) (cache : List Int) (i : Nat) (v : Int)
    (hc : cacheContig td cache = true)
    (hpre : ∀ j, j < i → 0 ≤ cache.getD j (-1)) (hv : 0 ≤ v) :
    cacheContig td (cache.set i v) = true := by
  unfold cacheContig at hc ⊢
  rw [List.all_eq_true] at hc ⊢
  intro l hl
  rw [List.mem_range] at hl
  by_cases hli : l = i
  · subst hli
    rw [Bool.or_eq_true]
    right
    rw [List.all_eq_true]
    intro j hj
    rw [List.mem_range] at hj
    rw [getD_set_ne _ _ _ _ _ (by omega)]
    simp only [decide_eq_true_eq]
    exact hpre j hj
  · have := hc l (by rw [List.mem_range]; exact hl)
    rw [Bool.or_eq_true] at this
    by_cases hset : i < cache.length
    · cases this with
      | inl hneg =>
        by_cases hil : i < l
        · rw [Bool.or_eq_true]
          by_cases hold : cache.getD l (-1) < 0
          · left
            rw [getD_set_ne _ _ _ _ _ (by omega)]
            exact hneg
          · left
            rw [getD_set_ne _ _ _ _ _ (by omega)]
            exact hneg
        · rw [Bool.or_eq_true]
          left
          rw [getD_set_ne _ _ _ _ _ (by omega)]
          exact hneg
      | inr hall =>
        rw [Bool.or_eq_true]
        right
        rw [List.all_eq_true] at hall ⊢
        intro j hj
        by_cases hji : j = i
        · subst hji
          rw [getD_set_self _ _ _ _ hset]
          simp only [decide_eq_true_eq]
          exact hv
        · rw [getD_set_ne _ _ _ _ _ (by omega)]
          exact hall j hj
    · have hnop : cache.set i v = cache := List.set_eq_of_length_le (by omega)
      rw [hnop]
      rw [Bool.or_eq_true]
      exact this

theorem deformStep_cache_length (td : TupleDesc) (tup : HTuple) (i : Nat)
    (st : DStat) : (deformStep td tup i st).cache.length = st.cache.length := by
  unfold deformStep
  by_cases h : (HeapTupleHasNulls tup && att_isnull i tup.t_bits) = true
  · rw [if_pos h]
  · rw [if_neg h]
    dsimp only
    by_cases h1 : st.slow = false ∧ 0 ≤ st.cache.getD i (-1)
    · rw [if_pos h1]
    · rw [if_neg h1]
      by_cases h2 : ((td.attrs.getD i default).attlen == -1) = true
      · rw [if_pos h2]
        by_cases h3 : st.slow = false ∧
            alignUp st.off (td.attrs.getD i default).attalign = st.off
        · rw [if_pos h3]
          simp
        · rw [if_neg h3]
      · rw [if_neg h2]
        dsimp only
        by_cases h4 : st.slow = false
        · rw [if_pos h4]
          simp
        · rw [if_neg h4]

theorem deform_loop_cache_length (td : TupleDesc) (tup : HTuple) :
    ∀ (k i : Nat) (st : DStat),
      (deform_loop td tup k i st).cache.length = st.cache.length := by
  intro k
  induction k with
  | zero => intro i st; rfl
  | succ k ih =>
    intro i st
    show (deform_loop td tup k (i + 1) (deformStep td tup i st)).cache.length = _
    rw [ih, deformStep_cache_length]

/-- `deform_loop` preserves cache contiguity: while the slow flag is clear
the already-set prefix reaches the loop index, and every write extends that
prefix. -/
theorem deform_loop_contig (td : TupleDesc) (tup : HTuple) :
    ∀ (k i : Nat) (st : DStat),
      st.cache.length = td.natts →
      i + k ≤ td.natts →
      cacheContig td st.cache = true →
      (st.slow = false → ∀ j, j < i → 0 ≤ st.cache.getD j (-1)) →
      cacheContig td (deform_loop td tup k i st).cache = true ∧
      ((deform_loop td tup k i st).slow = false →
        ∀ j, j < i + k → 0 ≤ (deform_loop td tup k i st).cache.getD j (-1)) := by
  intro k
  induction k with
  | zero =>
    intro i st hlen hik hc hpre
    exact ⟨hc, fun hs j hj => hpre hs j (by omega)⟩
  | succ k ih =>
    intro i st hlen hik hc hpre
    have hilen : i < st.cache.length := by omega
    have hkey : deform_loop td tup (k + 1) i st =
        deform_loop td tup k (i + 1) (deformStep td tup i st) := rfl
    rw [hkey]
    have hstep : cacheContig td (deformStep td tup i st).cache = true ∧
        ((deformStep td tup i st).slow = false →
          ∀ j, j < i + 1 → 0 ≤ (deformStep td tup i st).cache.getD j (-1)) := by
      unfold deformStep
      by_cases hnull : (HeapTupleHasNulls tup && att_isnull i tup.t_bits) = true
      · rw [if_pos hnull]
        exact ⟨hc, fun hs => by simp at hs⟩
      · rw [if_neg hnull]
        dsimp only
        by_cases h1 : st.slow = false ∧ 0 ≤ st.cache.getD i (-1)
        · rw [if_pos h1]
          dsimp only
          refine ⟨hc, fun hs j hj => ?_⟩
          rw [Bool.or_eq_false_iff] at hs
          by_cases hji : j = i
          · subst hji
            exact h1.2
          · exact hpre hs.1 j (by omega)
        · rw [if_neg h1]
          by_cases h2 : ((td.attrs.getD i default).attlen == -1) = true
          · rw [if_pos h2]
            by_cases h3 : st.slow = false ∧
                alignUp st.off (td.attrs.getD i default).attalign = st.off
            · rw [if_pos h3]
              dsimp only
              refine ⟨cacheContig_set td st.cache i (Int.ofNat st.off) hc
                (hpre h3.1) (Int.ofNat_nonneg _), fun hs => ?_⟩
              rw [Bool.or_eq_false_iff] at hs
              rw [beq_iff_eq] at h2
              rw [h2] at hs
              exact absurd hs.2 (by simp)
            · rw [if_neg h3]
              dsimp only
              refine ⟨hc, fun hs => ?_⟩
              rw [Bool.or_eq_false_iff] at hs
              exact absurd hs.1 (by simp)
          · rw [if_neg h2]
            dsimp only
            by_cases h4 : st.slow = false
            · rw [if_pos h4]
              refine ⟨cacheContig_set td st.cache i
                (Int.ofNat (alignUp st.off (td.attrs.getD i default).attalign)) hc
                (hpre h4) (Int.ofNat_nonneg _), fun hs j hj => ?_⟩
              by_cases hji : j = i
              · subst hji
                rw [getD_set_self _ _ _ _ hilen]
                exact Int.ofNat_nonneg _
              · rw [getD_set_ne _ _ _ _ _ (by omega)]
                exact hpre h4 j (by omega)
            · rw [if_neg h4]
              refine ⟨hc, fun hs => ?_⟩
              rw [Bool.or_eq_false_iff] at hs
              exact absurd hs.1 h4
    have hslen : (deformStep td tup i st).cache.length = td.natts := by
      rw [deformStep_cache_length]
      exact hlen
    have := ih (i + 1) (deformStep td tup i st) hslen (by omega) hstep.1 hstep.2
    exact ⟨this.1, fun hs j hj => this.2 hs j (by omega)⟩


/-! ## `nocachegetattr` -/

/-- `att_align_nominal` as applied to the C `int` offset of
`nocachegetattr`'s batch loop.  The C macro rounds with a bitmask over a
power-of-two alignment, which on every operand equals rounding up with
floor division — Lean's `Int` division. -/
def alignUpI (off : Int) (a : Nat) : Int := ((off + a - 1) / a) * a

/-- The offset/cache/slow resolution shared by the body of the deforming
loops and by `nocachegetattr`'s careful walk: use a trusted cache entry,
else align (caching a varlena offset only when it is already clean), and
report the fetch offset, the updated cache and the new slow flag. -/
def attOffStep (td : TupleDesc) (tup : HTuple) (i : Nat) (cache : List Int) (off : Nat)
    (slow : Bool) : Nat × List Int × Bool :=
  let a := td.attrs.getD i default
  if slow = false ∧ 0 ≤ cache.getD i (-1) then ((cache.getD i (-1)).toNat, cache, slow)
  else if a.attlen == -1 then
    if slow = false ∧ alignUp off a.attalign = off then
      (off, cache.set i (Int.ofNat off), slow)
    else (att_align_pointer a tup.tdata off, cache, true)
  else
    let o := alignUp off a.attalign
    (o, if slow = false then cache.set i (Int.ofNat o) else cache, slow)

/-- The preceding-nulls test at the top of `nocachegetattr` (0-based target
`n`): with a null bitmap present, test the bits below the target's bit in
its byte through `(~bp[byte]) & ((1 << finalbit) - 1)` and scan the earlier
bytes for a byte other than `0xFF`. -/
def nocache_slowNulls (tup : HTuple) (n : Nat) : Bool :=
  if HeapTupleHasNulls tup then
    if (255 - tup.t_bits.getD (n / 8) 0) % 2 ^ (n % 8) ≠ 0 then true
    else (List.range (n / 8)).any fun i => tup.t_bits.getD i 0 ≠ 255
  else false

/-- The `while (j < natts && att[j]->attcacheoff > 0) j++` scan of
`nocachegetattr`'s batch branch, with explicit fuel. -/
def nocache_skip (td : TupleDesc) (cache : List Int) : Nat → Nat → Nat
  | 0, j => j
  | fuel + 1, j =>
    if j < td.natts ∧ 0 < cache.getD j (-1) then nocache_skip td cache fuel (j + 1) else j

/-- The `for (; j < natts; j++)` fill of `nocachegetattr`'s batch branch:
break at the first non-positive `attlen`, else align the running `int`
offset, store it and advance. -/
def nocache_batch (td : TupleDesc) : Nat → Nat → Int → List Int → List Int
  | 0, _, _, cache => cache
  | fuel + 1, j, off, cache =>
    let a := td.attrs.getD j default
    if a.attlen ≤ 0 then cache
    else
      let o := alignUpI off a.attalign
      nocache_batch td fuel (j + 1) (o + a.attlen) (cache.set j o)

/-- The careful walk of `nocachegetattr` (its `else` branch): per-attribute
cache/alignment resolution as in the deform loops, breaking at the 0-based
target `n` with the fetched value and the cache as written so far.  The C
loop has no bound of its own — it relies on the target being a non-null
column of the descriptor; the fuel models that reliance, `none` standing
for the out-of-bounds runaway a violated precondition would produce. -/
def nocache_careful (td : TupleDesc) (tup : HTuple) (n : Nat) :
    Nat → Nat → List Int → Nat → Bool → Option (Datum × List Int)
  | 0, _, _, _, _ => none
  | fuel + 1, i, cache, off, slow =>
    if HeapTupleHasNulls tup && att_isnull i tup.t_bits then
      nocache_careful td tup n fuel (i + 1) cache off true
    else
      let a := td.attrs.getD i default
      let s1 := attOffStep td tup i cache off slow
      if i == n then some (fetchatt a tup.tdata s1.1, s1.2.1)
      else
        nocache_careful td tup n fuel (i + 1) s1.2.1
          (att_addlength_pointer a tup.tdata s1.1) (s1.2.2 || a.attlen ≤ 0)

/-- `nocachegetattr` (1-based `attnum`): detect preceding nulls, use a
cached offset directly when trusted, else either batch-initialize the
cached offsets over leading fixed-width columns or walk the tuple
carefully.  Returns the fetched value and the updated shared cache. -/
def nocachegetattr (td : TupleDesc) (tup : HTuple) (attnum : Nat) (cache : List Int) :
    Option (Datum × List Int) :=
  let n := attnum - 1
  let slow1 := nocache_slowNulls tup n
  if slow1 = false ∧ 0 ≤ cache.getD n (-1) then
    some (fetchatt (td.attrs.getD n default) tup.tdata (cache.getD n (-1)).toNat, cache)
  else if (slow1 ||
      (HeapTupleHasVarWidth tup &&
        (List.range (n + 1)).any fun j => (td.attrs.getD j default).attlen ≤ 0)) = false then
    let c0 := cache.set 0 0
    let j := nocache_skip td c0 td.natts 1
    let off : Int := c0.getD (j - 1) (-1) + (td.attrs.getD (j - 1) default).attlen
    let c1 := nocache_batch td (td.natts - j) j off c0
    some (fetchatt (td.attrs.getD n default) tup.tdata (c1.getD n (-1)).toNat, c1)
  else
    nocache_careful td tup n td.natts 0 cache 0 false

/-- Start state of the cache-free reference byte-walk over a whole row. -/
def walkInit (td : TupleDesc) : WStat :=
  ⟨List.replicate td.natts (.byval 0), List.replicate td.natts true, 0⟩

/-- The cache-free reference byte-walk over all physically present columns. -/
def walkFull (td : TupleDesc) (tup : HTuple) : WStat :=
  walk_loop td tup (min tup.tupNatts td.natts) 0 (walkInit td)

theorem alignUp_zero (a : Nat) : alignUp 0 a = 0 := by
  rcases Nat.eq_zero_or_pos a with ha | ha
  · subst ha; rfl
  · exact alignUp_zero_left ha

theorem alignUpI_ofNat (x a : Nat) : alignUpI (Int.ofNat x) a = Int.ofNat (alignUp x a) := by
  unfold alignUpI alignUp
  show ((x : Int) + a - 1) / a * a = (((x + a - 1) / a * a : Nat) : Int)
  rcases Nat.eq_zero_or_pos a with ha | ha
  · subst ha; simp
  · have h1 : ((x : Int) + a - 1) = (((x + a - 1 : Nat)) : Int) := by
      rw [Nat.cast_sub (by omega)]
      push_cast
      ring
    rw [h1, ← Int.ofNat_ediv, ← Int.ofNat_mul]

theorem walkStep_values_length (td : TupleDesc) (tup : HTuple) (i : Nat) (st : WStat) :
    (walkStep td tup i st).values.length = st.values.length := by
  unfold walkStep
  by_cases h : (HeapTupleHasNulls tup && att_isnull i tup.t_bits) = true
  · rw [if_pos h]
    exact List.length_set st.values i _
  · rw [if_neg h]
    exact List.length_set st.values i _

theorem walk_loop_values_length (td : TupleDesc) (tup : HTuple) :
    ∀ (k i : Nat) (st : WStat),
      (walk_loop td tup k i st).values.length = st.values.length := by
  intro k
  induction k with
  | zero => intro i st; rfl
  | succ k ih =>
    intro i st
    show (walk_loop td tup k (i + 1) (walkStep td tup i st)).values.length = _
    rw [ih, walkStep_values_length]

theorem prefixFixed_of (td : TupleDesc) (n : Nat)
    (h : ∀ j, j < n → 0 < (td.attrs.getD j default).attlen) :
    prefixFixed td n = true := by
  unfold prefixFixed
  rw [List.all_eq_true]
  intro j hj
  rw [List.mem_range] at hj
  simpa using h j hj

theorem prefixFixed_lt (td : TupleDesc) (n : Nat) (h : prefixFixed td n = true) :
    ∀ j, j < n → 0 < (td.attrs.getD j default).attlen := by
  intro j hj
  unfold prefixFixed at h
  rw [List.all_eq_true] at h
  simpa using h j (by rw [List.mem_range]; omega)

theorem cacheContig_unset_above (td : TupleDesc) (cache : List Int)
    (hc : cacheContig td cache = true) (n : Nat) (hn : n < td.natts)
    (hu : cache.getD n (-1) < 0) :
    ∀ l, n ≤ l → l < td.natts → cache.getD l (-1) < 0 := by
  intro l hnl hl
  rcases Nat.eq_or_lt_of_le hnl with heq | hlt
  · subst heq; exact hu
  · by_contra hset
    unfold cacheContig at hc
    rw [List.all_eq_true] at hc
    have h2 := hc l (by rw [List.mem_range]; omega)
    rw [Bool.or_eq_true] at h2
    rcases h2 with h2 | h2
    · rw [decide_eq_true_eq] at h2
      exact hset h2
    · rw [List.all_eq_true] at h2
      have h3 := h2 n (by rw [List.mem_range]; omega)
      rw [decide_eq_true_eq] at h3
      omega


theorem deformStep_eq_off (td : TupleDesc) (tup : HTuple) (i : Nat) (st : DStat)
    (hnn : (HeapTupleHasNulls tup && att_isnull i tup.t_bits) = false) :
    deformStep td tup i st =
      { values := st.values.set i (fetchatt (td.attrs.getD i default) tup.tdata
          (attOffStep td tup i st.cache st.off st.slow).1)
        nulls := st.nulls.set i false
        cache := (attOffStep td tup i st.cache st.off st.slow).2.1
        off := att_addlength_pointer (td.attrs.getD i default) tup.tdata
          (attOffStep td tup i st.cache st.off st.slow).1
        slow := (attOffStep td tup i st.cache st.off st.slow).2.2 ||
          (td.attrs.getD i default).attlen ≤ 0 } := by
  rw [deformStep, if_neg (by rw [hnn]; simp)]
  rfl

theorem bits255 : ∀ r, r < 8 → 255 / 2 ^ r % 2 = 1 := by decide

set_option maxRecDepth 10000 in
theorem byte_low_bits :
    ∀ b, b < 256 → ∀ f, f < 8 →
      ((255 - b) % 2 ^ f = 0 → ∀ r, r < f → b / 2 ^ r % 2 = 1) := by decide

theorem fillBitmapAux_lt :
    ∀ (rest : List Bool) (cur j : Nat), j ≤ 7 → cur < 2 ^ (j + 1) →
      ∀ b ∈ fillBitmapAux rest cur (2 ^ j), b < 256 := by
  intro rest
  induction rest with
  | nil =>
    intro cur j hj hc b hb
    have h8 : (2 : Nat) ^ (j + 1) ≤ 2 ^ 8 := Nat.pow_le_pow_right (by omega) (by omega)
    rw [fillBitmapAux, List.mem_singleton] at hb
    omega
  | cons x rest ih =>
    intro cur j hj hc b hb
    by_cases hm : j = 7
    · subst hm
      have hmask : ((2 : Nat) ^ 7 == 128) = true := by decide
      rw [fillBitmapAux, if_pos hmask] at hb
      rcases List.mem_cons.mp hb with hb | hb
      · omega
      · have h1 : (1 : Nat) = 2 ^ 0 := rfl
        rw [h1] at hb
        exact ih _ 0 (by omega) (by split <;> decide) b hb
    · have hmask : ((2 : Nat) ^ j == 128) = false := by
        have : (2 : Nat) ^ j ≤ 2 ^ 6 := Nat.pow_le_pow_right (by omega) (by omega)
        rw [beq_eq_false_iff_ne]
        omega
      rw [fillBitmapAux, if_neg (by rw [hmask]; simp)] at hb
      have hp : (2 : Nat) ^ j * 2 = 2 ^ (j + 1) := by
        rw [Nat.pow_succ]
      rw [hp] at hb
      refine ih _ (j + 1) (by omega) ?_ b hb
      have : (2 : Nat) ^ (j + 2) = 2 ^ (j + 1) * 2 := (Nat.pow_succ 2 (j + 1)).symm
      split
      · omega
      · rw [Nat.pow_succ] at *
        omega

theorem fillBitmap_lt (ns : List Bool) : ∀ b ∈ fillBitmap ns, b < 256 := by
  cases ns with
  | nil => intro b hb; cases hb
  | cons x rest =>
    intro b hb
    rw [fillBitmap] at hb
    have h1 : (1 : Nat) = 2 ^ 0 := rfl
    rw [h1] at hb
    exact fillBitmapAux_lt rest _ 0 (by omega) (by split <;> decide) b hb

theorem nocache_slowNulls_no_null (tup : HTuple)
    (hbytes : ∀ b ∈ tup.t_bits, b < 256) (n : Nat)
    (hs : nocache_slowNulls tup n = false) :
    ∀ j, j < n → (HeapTupleHasNulls tup && att_isnull j tup.t_bits) = false := by
  intro j hj
  by_cases hnn : HeapTupleHasNulls tup = true
  case neg =>
    rw [Bool.not_eq_true] at hnn
    rw [hnn, Bool.false_and]
  case pos =>
    rw [hnn, Bool.true_and]
    unfold nocache_slowNulls at hs
    rw [if_pos hnn] at hs
    by_cases hcond : (255 - tup.t_bits.getD (n / 8) 0) % 2 ^ (n % 8) ≠ 0
    · rw [if_pos hcond] at hs
      cases hs
    · rw [if_neg hcond] at hs
      have hfin : (255 - tup.t_bits.getD (n / 8) 0) % 2 ^ (n % 8) = 0 := by omega
      rw [List.any_eq_false] at hs
      have hdj := Nat.div_add_mod j 8
      have hdn := Nat.div_add_mod n 8
      by_cases hq : j / 8 = n / 8
      · have hr : j % 8 < n % 8 := by omega
        have hb256 : tup.t_bits.getD (n / 8) 0 < 256 := by
          by_cases hlen : n / 8 < tup.t_bits.length
          · exact hbytes _ (getD_mem_of_lt _ _ hlen)
          · rw [getD_eq_drop_headD]
            have hdrop : tup.t_bits.drop (n / 8) = [] :=
              List.drop_eq_nil_of_le (by omega)
            rw [hdrop]
            decide
        have hbit : tup.t_bits.getD (j / 8) 0 / 2 ^ (j % 8) % 2 = 1 := by
          rw [hq]
          exact byte_low_bits _ hb256 (n % 8) (Nat.mod_lt _ (by omega)) hfin _ hr
        unfold att_isnull
        rw [hbit]
        rfl
      · have hqlt : j / 8 < n / 8 := by
          have := Nat.div_le_div_right (c := 8) (Nat.le_of_lt hj)
          omega
        have hb : tup.t_bits.getD (j / 8) 0 = 255 := by
          have := hs _ (List.mem_range.mpr hqlt)
          simpa using this
        have hbit : tup.t_bits.getD (j / 8) 0 / 2 ^ (j % 8) % 2 = 1 := by
          rw [hb]
          exact bits255 _ (Nat.mod_lt _ (by omega))
        unfold att_isnull
        rw [hbit]
        rfl


theorem walk_off_fixed (td : TupleDesc) (tup : HTuple) :
    ∀ (k i : Nat) (st : WStat),
      st.off = fixedSizeTo td i →
      (∀ j, i ≤ j → j < i + k →
        (HeapTupleHasNulls tup && att_isnull j tup.t_bits) = false ∧
        0 < (td.attrs.getD j default).attlen) →
      (walk_loop td tup k i st).off = fixedSizeTo td (i + k) := by
  intro k
  induction k with
  | zero =>
    intro i st hoff _
    rw [Nat.add_zero]
    exact hoff
  | succ k ih =>
    intro i st hoff hcond
    show (walk_loop td tup k (i + 1) (walkStep td tup i st)).off = _
    have hci := hcond i (Nat.le_refl i) (by omega)
    have hm1 : ((td.attrs.getD i default).attlen == -1) = false := by
      rw [beq_eq_false_iff_ne]
      have := hci.2
      omega
    have hstep : (walkStep td tup i st).off = fixedSizeTo td (i + 1) := by
      unfold walkStep
      rw [if_neg (by rw [hci.1]; simp)]
      dsimp only
      rw [if_neg (by rw [hm1]; simp)]
      have hm2 : ((td.attrs.getD i default).attlen == -2) = false := by
        rw [beq_eq_false_iff_ne]
        have := hci.2
        omega
      unfold att_addlength_pointer
      rw [if_neg (by rw [hm1]; simp), if_neg (by rw [hm2]; simp)]
      rw [hoff]
      rfl
    have hfin : i + 1 + k = i + (k + 1) := by omega
    rw [← hfin]
    exact ih (i + 1) _ hstep (fun j h1 h2 => hcond j (by omega) (by omega))

theorem walk_value_at (td : TupleDesc) (tup : HTuple) (n : Nat) (hn : n < td.natts)
    (hnulls : ∀ j, j < n → (HeapTupleHasNulls tup && att_isnull j tup.t_bits) = false)
    (hfix : ∀ j, j < n → 0 < (td.attrs.getD j default).attlen)
    (htgt : (HeapTupleHasNulls tup && att_isnull n tup.t_bits) = false) :
    (walk_loop td tup td.natts 0 (walkInit td)).values.getD n (.byval 0) =
      fetchatt (td.attrs.getD n default) tup.tdata
        (if ((td.attrs.getD n default).attlen == -1) = true then
          att_align_pointer (td.attrs.getD n default) tup.tdata (fixedSizeTo td n)
        else alignUp (fixedSizeTo td n) (td.attrs.getD n default).attalign) := by
  have hsplit : td.natts = (n + 1) + (td.natts - (n + 1)) := by omega
  rw [hsplit, walk_loop_add]
  rw [(walk_loop_getD_lt td tup (td.natts - (n + 1)) (0 + (n + 1))
    (walk_loop td tup (n + 1) 0 (walkInit td)) n (.byval 0) false (by omega)).1]
  rw [walk_loop_add td tup n 1 0, Nat.zero_add]
  have hoff := walk_off_fixed td tup n 0 (walkInit td) rfl
    (fun j h1 h2 => ⟨hnulls j (by omega), hfix j (by omega)⟩)
  rw [Nat.zero_add] at hoff
  have hlen : n < (walk_loop td tup n 0 (walkInit td)).values.length := by
    rw [walk_loop_values_length]
    show n < (List.replicate td.natts (Datum.byval 0)).length
    rw [List.length_replicate]
    omega
  have hone : walk_loop td tup 1 n (walk_loop td tup n 0 (walkInit td)) =
      walkStep td tup n (walk_loop td tup n 0 (walkInit td)) := rfl
  rw [hone]
  unfold walkStep
  rw [if_neg (by rw [htgt]; simp)]
  dsimp only
  rw [getD_set_self _ _ _ _ hlen, hoff]

theorem nocache_skip_spec (td : TupleDesc) (cache : List Int) :
    ∀ (fuel j0 : Nat),
      j0 ≤ nocache_skip td cache fuel j0 ∧
      ∀ l, j0 ≤ l → l < nocache_skip td cache fuel j0 →
        l < td.natts ∧ 0 < cache.getD l (-1) := by
  intro fuel
  induction fuel with
  | zero =>
    intro j0
    refine ⟨Nat.le_refl _, fun l h1 h2 => ?_⟩
    have hz : nocache_skip td cache 0 j0 = j0 := rfl
    rw [hz] at h2
    omega
  | succ fuel ih =>
    intro j0
    have hunf : nocache_skip td cache (fuel + 1) j0 =
        if j0 < td.natts ∧ 0 < cache.getD j0 (-1) then nocache_skip td cache fuel (j0 + 1)
        else j0 := rfl
    by_cases hc : j0 < td.natts ∧ 0 < cache.getD j0 (-1)
    · rw [hunf, if_pos hc]
      obtain ⟨ih1, ih2⟩ := ih (j0 + 1)
      refine ⟨by omega, fun l h1 h2 => ?_⟩
      by_cases hl : l = j0
      · subst hl
        exact hc
      · exact ih2 l (by omega) h2
    · rw [hunf, if_neg hc]
      exact ⟨Nat.le_refl _, fun l h1 h2 => by omega⟩

theorem nocache_batch_spec (td : TupleDesc) :
    ∀ (fuel j : Nat) (cache : List Int),
      j + fuel = td.natts →
      cacheWF td cache = true →
      cacheContig td cache = true →
      (∀ l, l < j → 0 ≤ cache.getD l (-1)) →
      prefixFixed td j = true →
      cacheWF td (nocache_batch td fuel j (Int.ofNat (fixedSizeTo td j)) cache) = true ∧
      cacheContig td (nocache_batch td fuel j (Int.ofNat (fixedSizeTo td j)) cache) = true ∧
      (∀ l, l < j →
        (nocache_batch td fuel j (Int.ofNat (fixedSizeTo td j)) cache).getD l (-1) =
          cache.getD l (-1)) ∧
      (∀ l, j ≤ l → l < td.natts →
        (∀ m, j ≤ m → m ≤ l → 0 < (td.attrs.getD m default).attlen) →
        (nocache_batch td fuel j (Int.ofNat (fixedSizeTo td j)) cache).getD l (-1) =
          Int.ofNat (canonOff td l)) := by
  intro fuel
  induction fuel with
  | zero =>
    intro j cache hjf hwf hcg hbelow hpf
    exact ⟨hwf, hcg, fun l _ => rfl, fun l h1 h2 _ => by omega⟩
  | succ fuel ih =>
    intro j cache hjf hwf hcg hbelow hpf
    have hunf : nocache_batch td (fuel + 1) j (Int.ofNat (fixedSizeTo td j)) cache =
        if (td.attrs.getD j default).attlen ≤ 0 then cache
        else nocache_batch td fuel (j + 1)
          (alignUpI (Int.ofNat (fixedSizeTo td j)) (td.attrs.getD j default).attalign +
            (td.attrs.getD j default).attlen)
          (cache.set j (alignUpI (Int.ofNat (fixedSizeTo td j))
            (td.attrs.getD j default).attalign)) := rfl
    by_cases hlen0 : (td.attrs.getD j default).attlen ≤ 0
    · rw [hunf, if_pos hlen0]
      refine ⟨hwf, hcg, fun l _ => rfl, fun l h1 h2 hpos => ?_⟩
      exact absurd (hpos j (Nat.le_refl _) h1) (by omega)
    · rw [hunf, if_neg hlen0]
      have hjn : j < td.natts := by omega
      have hcl : cache.length = td.natts := cacheWF_length hwf
      have halign : alignUpI (Int.ofNat (fixedSizeTo td j))
          (td.attrs.getD j default).attalign = Int.ofNat (canonOff td j) :=
        alignUpI_ofNat _ _
      rw [halign]
      have hoff2 : Int.ofNat (canonOff td j) + (td.attrs.getD j default).attlen =
          Int.ofNat (fixedSizeTo td (j + 1)) := by
        show ((canonOff td j : Nat) : Int) + (td.attrs.getD j default).attlen =
          ((fixedSizeTo td (j + 1) : Nat) : Int)
        have hfs : fixedSizeTo td (j + 1) =
            canonOff td j + (td.attrs.getD j default).attlen.toNat := rfl
        rw [hfs]
        push_cast
        omega
      rw [hoff2]
      have hwf2 : cacheWF td (cache.set j (Int.ofNat (canonOff td j))) = true :=
        cacheWF_set_canon hwf j hjn hpf (fun hm1 => absurd hm1 (by omega))
      have hcg2 : cacheContig td (cache.set j (Int.ofNat (canonOff td j))) = true :=
        cacheContig_set td cache j _ hcg hbelow (Int.ofNat_nonneg _)
      have hbelow2 : ∀ l, l < j + 1 →
          0 ≤ (cache.set j (Int.ofNat (canonOff td j))).getD l (-1) := by
        intro l hl
        by_cases hlj : l = j
        · subst hlj
          rw [getD_set_self _ _ _ _ (by omega)]
          exact Int.ofNat_nonneg _
        · rw [getD_set_ne _ _ _ _ _ (by omega)]
          exact hbelow l (by omega)
      have hpf2 : prefixFixed td (j + 1) = true := prefixFixed_succ td j hpf (by omega)
      obtain ⟨iwf, icg, iut, ican⟩ := ih (j + 1) _ (by omega) hwf2 hcg2 hbelow2 hpf2
      refine ⟨iwf, icg, ?_, ?_⟩
      · intro l hl
        rw [iut l (by omega), getD_set_ne _ _ _ _ _ (by omega)]
      · intro l h1 h2 hpos
        by_cases hlj : l = j
        · rw [hlj, iut j (by omega), getD_set_self _ _ _ _ (by omega)]
        · exact ican l (by omega) h2 (fun m hm1 hm2 => hpos m (by omega) hm2)


theorem nocache_careful_run (td : TupleDesc) (tup : HTuple) (n : Nat)
    (htgt : (HeapTupleHasNulls tup && att_isnull n tup.t_bits) = false) :
    ∀ (fuel i : Nat) (cache : List Int) (off : Nat) (slow : Bool)
      (vs : List Datum) (ns : List Bool), n < vs.length → i ≤ n → n < i + fuel →
      nocache_careful td tup n fuel i cache off slow =
        some ((deform_loop td tup (n + 1 - i) i ⟨vs, ns, cache, off, slow⟩).values.getD n
            (.byval 0),
          (deform_loop td tup (n + 1 - i) i ⟨vs, ns, cache, off, slow⟩).cache) := by
  intro fuel
  induction fuel with
  | zero =>
    intro i cache off slow vs ns hlen h1 h2
    omega
  | succ fuel ih =>
    intro i cache off slow vs ns hlen h1 h2
    have hunf : nocache_careful td tup n (fuel + 1) i cache off slow =
        if HeapTupleHasNulls tup && att_isnull i tup.t_bits then
          nocache_careful td tup n fuel (i + 1) cache off true
        else
          let a := td.attrs.getD i default
          let s1 := attOffStep td tup i cache off slow
          if i == n then some (fetchatt a tup.tdata s1.1, s1.2.1)
          else
            nocache_careful td tup n fuel (i + 1) s1.2.1
              (att_addlength_pointer a tup.tdata s1.1) (s1.2.2 || a.attlen ≤ 0) := rfl
    rw [hunf]
    by_cases hnull : (HeapTupleHasNulls tup && att_isnull i tup.t_bits) = true
    · rw [if_pos hnull]
      have hne : i ≠ n := by
        intro h
        rw [h, htgt] at hnull
        cases hnull
      have hki : n + 1 - i = (n - i) + 1 := by omega
      rw [hki]
      have hDL : deform_loop td tup ((n - i) + 1) i ⟨vs, ns, cache, off, slow⟩ =
          deform_loop td tup (n - i) (i + 1)
            (deformStep td tup i ⟨vs, ns, cache, off, slow⟩) := rfl
      have hstep : deformStep td tup i ⟨vs, ns, cache, off, slow⟩ =
          ⟨vs.set i (.byval 0), ns.set i true, cache, off, true⟩ := by
        rw [deformStep, if_pos hnull]
      rw [hDL, hstep]
      have hrec := ih (i + 1) cache off true (vs.set i (.byval 0)) (ns.set i true)
        (by rw [List.length_set]; omega) (by omega) (by omega)
      have hki2 : n + 1 - (i + 1) = n - i := by omega
      rw [hki2] at hrec
      exact hrec
    · rw [if_neg hnull]
      have hnn : (HeapTupleHasNulls tup && att_isnull i tup.t_bits) = false := by
        revert hnull
        cases (HeapTupleHasNulls tup && att_isnull i tup.t_bits) <;> simp
      by_cases hin : i = n
      · subst hin
        rw [if_pos (beq_self_eq_true i)]
        have hk1 : i + 1 - i = 1 := by omega
        rw [hk1]
        have hDL : deform_loop td tup 1 i ⟨vs, ns, cache, off, slow⟩ =
            deformStep td tup i ⟨vs, ns, cache, off, slow⟩ := rfl
        rw [hDL, deformStep_eq_off td tup i _ hnn]
        rw [getD_set_self _ _ _ _ hlen]
      · have hin2 : (i == n) = false := by
          rw [beq_eq_false_iff_ne]
          exact hin
        rw [if_neg (by rw [hin2]; simp)]
        have hki : n + 1 - i = (n - i) + 1 := by omega
        rw [hki]
        have hDL : deform_loop td tup ((n - i) + 1) i ⟨vs, ns, cache, off, slow⟩ =
            deform_loop td tup (n - i) (i + 1)
              (deformStep td tup i ⟨vs, ns, cache, off, slow⟩) := rfl
        rw [hDL, deformStep_eq_off td tup i _ hnn]
        have hrec := ih (i + 1) (attOffStep td tup i cache off slow).2.1
          (att_addlength_pointer (td.attrs.getD i default) tup.tdata
            (attOffStep td tup i cache off slow).1)
          ((attOffStep td tup i cache off slow).2.2 ||
            (td.attrs.getD i default).attlen ≤ 0)
          (vs.set i (fetchatt (td.attrs.getD i default) tup.tdata
            (attOffStep td tup i cache off slow).1))
          (ns.set i false)
          (by rw [List.length_set]; omega) (by omega) (by omega)
        have hki2 : n + 1 - (i + 1) = n - i := by omega
        rw [hki2] at hrec
        exact hrec

theorem fillLoop_hasvar_false :
    ∀ (items : List (Attr × Datum × Bool)) (off : Nat),
      wfItems items = true → (fillLoop items off).2.1 = false →
      ∀ it ∈ items, it.2.2 = false → 0 < it.1.attlen := by
  intro items
  induction items with
  | nil =>
    intro off _ _ it hit
    cases hit
  | cons x rest ih =>
    intro off hwf hfl it hit hnn
    obtain ⟨a, d, nl⟩ := x
    have hunf : fillLoop ((a, d, nl) :: rest) off =
        if nl then fillLoop rest off
        else
          let c := fill_val a d off
          let r := fillLoop rest (off + c.1.length)
          (c.1 ++ r.1, c.2.1 || r.2.1, c.2.2 || r.2.2) := rfl
    have hwf2 : wfItems rest = true := by
      unfold wfItems at hwf ⊢
      rw [List.all_cons, Bool.and_eq_true] at hwf
      exact hwf.2
    have hwfx : (wfAttr a && (nl || wfDatum a d)) = true := by
      unfold wfItems at hwf
      rw [List.all_cons, Bool.and_eq_true] at hwf
      exact hwf.1
    have hwfa : wfAttr a = true := by
      rw [Bool.and_eq_true] at hwfx
      exact hwfx.1
    rcases List.mem_cons.mp hit with hx | hx
    · subst hx
      have hnl : nl = false := hnn
      subst hnl
      rw [hunf, if_neg (by simp)] at hfl
      dsimp only at hfl
      rw [Bool.or_eq_false_iff] at hfl
      have hfv : (fill_val a d off).2.1 = false := hfl.1
      show 0 < a.attlen
      rcases wfAttr_len_cases hwfa with hp | hm | hm
      · exact hp
      · exfalso
        by_cases hbv : a.attbyval = true
        · rcases wfAttr_byval_len hwfa hbv with h | h | h | h <;> omega
        · unfold fill_val at hfv
          rw [if_neg hbv, if_pos (by rw [beq_iff_eq]; exact hm)] at hfv
          by_cases hexp : isExpandedD d = true
          · rw [if_pos hexp] at hfv
            simp at hfv
          · rw [if_neg hexp] at hfv
            dsimp only at hfv
            by_cases h1 : varattIsExternal (pointerBytes d) = true
            · rw [if_pos h1] at hfv
              simp at hfv
            · rw [if_neg h1] at hfv
              by_cases hb1 : varattIs1B (pointerBytes d) = true
              · rw [if_pos hb1] at hfv
                simp at hfv
              · rw [if_neg hb1] at hfv
                by_cases hcs : (!a.attstoragePlain &&
                    varattCanMakeShort (pointerBytes d)) = true
                · rw [if_pos hcs] at hfv
                  simp at hfv
                · rw [if_neg hcs] at hfv
                  simp at hfv
      · exfalso
        by_cases hbv : a.attbyval = true
        · rcases wfAttr_byval_len hwfa hbv with h | h | h | h <;> omega
        · unfold fill_val at hfv
          have hm1 : (a.attlen == -1) = false := by
            rw [beq_eq_false_iff_ne]
            omega
          rw [if_neg hbv, if_neg (by rw [hm1]; simp),
            if_pos (by rw [beq_iff_eq]; exact hm)] at hfv
          simp at hfv
    · by_cases hnl : nl = true
      · rw [hunf, if_pos hnl] at hfl
        exact ih off hwf2 hfl it hx hnn
      · rw [Bool.not_eq_true] at hnl
        rw [hunf, if_neg (by rw [hnl]; simp)] at hfl
        dsimp only at hfl
        rw [Bool.or_eq_false_iff] at hfl
        exact ih _ hwf2 hfl.2 it hx hnn

theorem form_hasvar (td : TupleDesc) (vs : List Datum) (ns : List Bool)
    (sflag : SetShardFlag) :
    HeapTupleHasVarWidth (heap_form_tuple_shard td vs ns sflag) =
      (fillLoop (zip3 td.attrs vs ns) 0).2.1 := by
  unfold HeapTupleHasVarWidth heap_form_tuple_shard heap_fill_tuple
  dsimp only
  rw [infomask_bit1]

theorem form_hasvar_attlen (td : TupleDesc) (vs : List Datum) (ns : List Bool)
    (hrow : wfRow td vs ns = true)
    (hv : HeapTupleHasVarWidth (heap_form_tuple td vs ns) = false) :
    ∀ j, j < td.natts → ns.getD j false = false →
      0 < (td.attrs.getD j default).attlen := by
  intro j hj hnl
  unfold wfRow at hrow
  rw [Bool.and_eq_true, Bool.and_eq_true] at hrow
  have hlv : vs.length = td.natts := by
    have := hrow.1.1
    rwa [beq_iff_eq] at this
  have hln : ns.length = td.natts := by
    have := hrow.1.2
    rwa [beq_iff_eq] at this
  have hv2 : (fillLoop (zip3 td.attrs vs ns) 0).2.1 = false := by
    rw [← form_hasvar td vs ns .NoShard]
    exact hv
  have hzl : (zip3 td.attrs vs ns).length = td.natts :=
    zip3_length td.attrs vs ns hlv hln
  have hmem := getD_mem_of_lt (zip3 td.attrs vs ns) j (by omega)
  have hgd := zip3_getD td.attrs vs ns j hlv hln hj
  rw [hgd] at hmem
  have := fillLoop_hasvar_false (zip3 td.attrs vs ns) 0 hrow.2 hv2
    (td.attrs.getD j default, vs.getD j default, ns.getD j false) hmem hnl
  exact this


/-- The cache produced by the batch branch of `nocachegetattr` (its skip
scan, the seed offset from the last trusted entry, and the fill loop). -/
def nocache_batch_cache (td : TupleDesc) (cache : List Int) : List Int :=
  let c0 := cache.set 0 0
  let j := nocache_skip td c0 td.natts 1
  nocache_batch td (td.natts - j) j
    (c0.getD (j - 1) (-1) + (td.attrs.getD (j - 1) default).attlen) c0

theorem nocache_batch_branch (td : TupleDesc) (cache : List Int) (n : Nat)
    (hn : n < td.natts)
    (hwf : cacheWF td cache = true) (hcg : cacheContig td cache = true)
    (hmiss : cache.getD n (-1) < 0)
    (hP : ∀ j, j ≤ n → 0 < (td.attrs.getD j default).attlen) :
    cacheWF td (nocache_batch_cache td cache) = true ∧
    cacheContig td (nocache_batch_cache td cache) = true ∧
    (nocache_batch_cache td cache).getD n (-1) = Int.ofNat (canonOff td n) := by
  have hkey : nocache_batch_cache td cache =
      nocache_batch td (td.natts - nocache_skip td (cache.set 0 0) td.natts 1)
        (nocache_skip td (cache.set 0 0) td.natts 1)
        ((cache.set 0 0).getD (nocache_skip td (cache.set 0 0) td.natts 1 - 1) (-1) +
          (td.attrs.getD (nocache_skip td (cache.set 0 0) td.natts 1 - 1) default).attlen)
        (cache.set 0 0) := rfl
  rw [hkey]
  obtain ⟨hj1, hreg⟩ := nocache_skip_spec td (cache.set 0 0) td.natts 1
  generalize hjs : nocache_skip td (cache.set 0 0) td.natts 1 = js
  rw [hjs] at hj1 hreg
  have hreg2 : ∀ l, 1 ≤ l → l < js → l < td.natts ∧ 0 < cache.getD l (-1) := by
    intro l h1 h2
    have := hreg l h1 h2
    rwa [getD_set_ne _ _ _ _ _ (by omega)] at this
  have hcl : cache.length = td.natts := cacheWF_length hwf
  have hn1 : 0 < td.natts := by omega
  have hunset := cacheContig_unset_above td cache hcg n hn hmiss
  have hjle : js ≤ n + 1 := by
    by_contra hcx
    obtain ⟨ha, hb⟩ := hreg2 (n + 1) (by omega) (by omega)
    have := hunset (n + 1) (by omega) ha
    omega
  have hc0wf : cacheWF td (cache.set 0 0) = true := by
    have hpre := cacheWF_set_canon hwf 0 hn1 rfl
      (fun _ => by rw [show fixedSizeTo td 0 = 0 from rfl]; exact alignUp_zero _)
    have hz : Int.ofNat (canonOff td 0) = 0 := by
      unfold canonOff
      rw [show fixedSizeTo td 0 = 0 from rfl, alignUp_zero]
      rfl
    rw [hz] at hpre
    exact hpre
  have hc0cg : cacheContig td (cache.set 0 0) = true :=
    cacheContig_set td cache 0 0 hcg (fun j hj => absurd hj (Nat.not_lt_zero j)) (by omega)
  have hpfjs : prefixFixed td js = true := prefixFixed_of td js (fun j hj => hP j (by omega))
  have hoff0 : (cache.set 0 0).getD (js - 1) (-1) + (td.attrs.getD (js - 1) default).attlen =
      Int.ofNat (fixedSizeTo td js) := by
    rcases Nat.lt_or_ge js 2 with hjs2 | hjs2
    · have hjs1 : js = 1 := by omega
      rw [hjs1, getD_set_self _ _ _ _ (by omega)]
      have hf1 : fixedSizeTo td 1 = alignUp (fixedSizeTo td 0) (td.attrs.getD 0 default).attalign +
          (td.attrs.getD 0 default).attlen.toNat := rfl
      rw [hf1, show fixedSizeTo td 0 = 0 from rfl, alignUp_zero]
      have hp0 := hP 0 (by omega)
      show (0 : Int) + (td.attrs.getD 0 default).attlen =
        ((0 + (td.attrs.getD 0 default).attlen.toNat : Nat) : Int)
      push_cast
      omega
    · obtain ⟨hlt, hpos⟩ := hreg2 (js - 1) (by omega) (by omega)
      obtain ⟨hpf1, hval, _⟩ := cacheWF_entry hwf (js - 1) hlt (by omega)
      rw [getD_set_ne _ _ _ _ _ (by omega), hval]
      have hpl := hP (js - 1) (by omega)
      have hfs : fixedSizeTo td (js - 1 + 1) =
          canonOff td (js - 1) + (td.attrs.getD (js - 1) default).attlen.toNat := rfl
      have hjseq : js - 1 + 1 = js := by omega
      rw [hjseq] at hfs
      rw [hfs]
      show ((canonOff td (js - 1) : Nat) : Int) + (td.attrs.getD (js - 1) default).attlen =
        ((canonOff td (js - 1) + (td.attrs.getD (js - 1) default).attlen.toNat : Nat) : Int)
      push_cast
      omega
  rw [hoff0]
  have hbelow : ∀ l, l < js → 0 ≤ (cache.set 0 0).getD l (-1) := by
    intro l hl
    rcases Nat.eq_zero_or_pos l with hl0 | hlp
    · rw [hl0, getD_set_self _ _ _ _ (by omega)]
    · have := (hreg l hlp hl).2
      omega
  obtain ⟨bwf, bcg, but, bcan⟩ := nocache_batch_spec td (td.natts - js) js (cache.set 0 0)
    (by omega) hc0wf hc0cg hbelow hpfjs
  refine ⟨bwf, bcg, ?_⟩
  rcases Nat.eq_zero_or_pos n with hn0 | hnpos
  · rw [hn0, but 0 (by omega), getD_set_self _ _ _ _ (by omega)]
    have hz : canonOff td 0 = 0 := by
      unfold canonOff
      rw [show fixedSizeTo td 0 = 0 from rfl, alignUp_zero]
    rw [hz]
    rfl
  · have hjsn : js ≤ n := by
      by_contra hcx
      obtain ⟨_, hb⟩ := hreg2 n (by omega) (by omega)
      omega
    exact bcan n hjsn hn (fun m hm1 hm2 => hP m (by omega))


theorem nocachegetattr_spec (td : TupleDesc) (tup : HTuple) (ns : List Bool)
    (attnum : Nat) (cache : List Int)
    (htb : ∀ b ∈ tup.t_bits, b < 256)
    (hnt : ∀ j, j < td.natts →
      (HeapTupleHasNulls tup && att_isnull j tup.t_bits) = ns.getD j false)
    (hvw : HeapTupleHasVarWidth tup = false →
      ∀ j, j < td.natts → ns.getD j false = false →
        0 < (td.attrs.getD j default).attlen)
    (h1 : 1 ≤ attnum) (h2 : attnum ≤ td.natts)
    (hnn : ns.getD (attnum - 1) false = false)
    (hwf : cacheWF td cache = true) (hcg : cacheContig td cache = true) :
    ∃ cache',
      nocachegetattr td tup attnum cache =
        some ((walk_loop td tup td.natts 0 (walkInit td)).values.getD (attnum - 1)
          (.byval 0), cache') ∧
      cacheWF td cache' = true ∧ cacheContig td cache' = true := by
  have hnlt : attnum - 1 < td.natts := by omega
  have htgt : (HeapTupleHasNulls tup && att_isnull (attnum - 1) tup.t_bits) = false := by
    rw [hnt (attnum - 1) hnlt]
    exact hnn
  have hunf : nocachegetattr td tup attnum cache =
      (if nocache_slowNulls tup (attnum - 1) = false ∧
          0 ≤ cache.getD (attnum - 1) (-1) then
        some (fetchatt (td.attrs.getD (attnum - 1) default) tup.tdata
          (cache.getD (attnum - 1) (-1)).toNat, cache)
      else if (nocache_slowNulls tup (attnum - 1) ||
          (HeapTupleHasVarWidth tup &&
            (List.range ((attnum - 1) + 1)).any fun j =>
              (td.attrs.getD j default).attlen ≤ 0)) = false then
        some (fetchatt (td.attrs.getD (attnum - 1) default) tup.tdata
          ((nocache_batch_cache td cache).getD (attnum - 1) (-1)).toNat,
          nocache_batch_cache td cache)
      else nocache_careful td tup (attnum - 1) td.natts 0 cache 0 false) := rfl
  rw [hunf]
  by_cases hA : nocache_slowNulls tup (attnum - 1) = false ∧
      0 ≤ cache.getD (attnum - 1) (-1)
  · rw [if_pos hA]
    refine ⟨cache, ?_, hwf, hcg⟩
    obtain ⟨hpf, hcv, hclean⟩ := cacheWF_entry hwf (attnum - 1) hnlt hA.2
    have hnulls := nocache_slowNulls_no_null tup htb (attnum - 1) hA.1
    have hfix := prefixFixed_lt td (attnum - 1) hpf
    have hwv := walk_value_at td tup (attnum - 1) hnlt hnulls hfix htgt
    rw [hwv]
    have hoff : (cache.getD (attnum - 1) (-1)).toNat = canonOff td (attnum - 1) := by
      rw [hcv]
      simp
    rw [hoff]
    by_cases hm : ((td.attrs.getD (attnum - 1) default).attlen == -1) = true
    · rw [if_pos hm]
      have hcl := hclean (by rwa [beq_iff_eq] at hm)
      have hco : canonOff td (attnum - 1) = fixedSizeTo td (attnum - 1) := hcl
      rw [att_align_pointer_self _ _ _ hcl, hco]
    · rw [if_neg hm]
      rfl
  · rw [if_neg hA]
    by_cases hB : (nocache_slowNulls tup (attnum - 1) ||
        (HeapTupleHasVarWidth tup &&
          (List.range ((attnum - 1) + 1)).any fun j =>
            (td.attrs.getD j default).attlen ≤ 0)) = false
    · rw [if_pos hB]
      rw [Bool.or_eq_false_iff] at hB
      have hs1 : nocache_slowNulls tup (attnum - 1) = false := hB.1
      have hmiss : cache.getD (attnum - 1) (-1) < 0 := by
        by_contra hge
        exact hA ⟨hs1, by omega⟩
      have hnulls := nocache_slowNulls_no_null tup htb (attnum - 1) hs1
      have hP : ∀ j, j ≤ attnum - 1 → 0 < (td.attrs.getD j default).attlen := by
        intro j hj
        by_cases hvwc : HeapTupleHasVarWidth tup = true
        · have hsc := hB.2
          rw [hvwc, Bool.true_and, List.any_eq_false] at hsc
          have := hsc j (List.mem_range.mpr (by omega))
          simp only [decide_eq_true_eq, decide_eq_false_iff_not, not_le] at this
          omega
        · rw [Bool.not_eq_true] at hvwc
          have hjn : j < td.natts := by omega
          have hnsj : ns.getD j false = false := by
            rw [← hnt j hjn]
            rcases Nat.lt_or_ge j (attnum - 1) with hlt | hge
            · exact hnulls j hlt
            · have hje : j = attnum - 1 := by omega
              rw [hje]
              exact htgt
          exact hvw hvwc j hjn hnsj
      obtain ⟨bwf, bcg, bval⟩ := nocache_batch_branch td cache (attnum - 1) hnlt hwf hcg
        hmiss hP
      refine ⟨nocache_batch_cache td cache, ?_, bwf, bcg⟩
      have hfix : ∀ j, j < attnum - 1 → 0 < (td.attrs.getD j default).attlen :=
        fun j hj => hP j (by omega)
      have hwv := walk_value_at td tup (attnum - 1) hnlt hnulls hfix htgt
      rw [hwv, bval]
      have hmn : ((td.attrs.getD (attnum - 1) default).attlen == -1) = false := by
        rw [beq_eq_false_iff_ne]
        have := hP (attnum - 1) (Nat.le_refl _)
        omega
      rw [if_neg (by rw [hmn]; simp)]
      rfl
    · rw [if_neg hB]
      have hcr := nocache_careful_run td tup (attnum - 1) htgt td.natts 0 cache 0 false
        (List.replicate td.natts (.byval 0)) (List.replicate td.natts true)
        (by rw [List.length_replicate]; omega) (by omega) (by omega)
      simp only [Nat.sub_zero] at hcr
      rw [hcr]
      have hLA := deform_loop_eq_walk td tup (attnum - 1 + 1) 0
        (List.replicate td.natts (.byval 0)) (List.replicate td.natts true) 0 false cache
        hwf (fun _ => ⟨rfl, rfl⟩) (by omega)
      have hct := deform_loop_contig td tup (attnum - 1 + 1) 0
        ⟨List.replicate td.natts (.byval 0), List.replicate td.natts true, cache, 0, false⟩
        (cacheWF_length hwf) (by omega) hcg
        (fun _ j hj => absurd hj (Nat.not_lt_zero j))
      refine ⟨_, ?_, hLA.2.2.2, hct.1⟩
      rw [hLA.1]
      have hsplit : td.natts = (attnum - 1 + 1) + (td.natts - (attnum - 1 + 1)) := by omega
      have hwalkext : (walk_loop td tup td.natts 0 (walkInit td)).values.getD (attnum - 1)
          (.byval 0) =
          (walk_loop td tup (attnum - 1 + 1) 0 (walkInit td)).values.getD (attnum - 1)
            (.byval 0) := by
        conv_lhs => rw [hsplit]
        rw [walk_loop_add]
        exact (walk_loop_getD_lt td tup _ _ _ (attnum - 1) (.byval 0) false (by omega)).1
      rw [hwalkext]
      rfl


/-! ## C3: decode-operation sequences sharing the offset cache -/

/-- One decode operation over a row of the schema, the row given by its
values/isnull arrays (the physical tuple is formed from them): a full
`heap_deform_tuple`, a `slot_deform_tuple` of the first `attno` columns
into a fresh slot, or a single-column `nocachegetattr` (1-based). -/
inductive DecodeOp where
  | deform : List Datum → List Bool → DecodeOp
  | slotDeform : List Datum → List Bool → Nat → DecodeOp
  | getattr : List Datum → List Bool → Nat → DecodeOp
  deriving DecidableEq, Repr

/-- What a decode operation returns: a values/isnull view or one datum. -/
inductive DecodeOut where
  | row : List Datum → List Bool → DecodeOut
  | one : Datum → DecodeOut
  deriving DecidableEq, Repr

/-- A freshly made slot holding a physical tuple (`ExecStoreTuple` on an
empty slot: nothing extracted yet). -/
def freshSlot (td : TupleDesc) (tup : HTuple) : Slot :=
  { tts_tupleDescriptor := td
    tts_tuple := some tup
    tts_datarow := false
    datarowVals := []
    datarowNulls := []
    tts_values := List.replicate td.natts (.byval 0)
    tts_isnull := List.replicate td.natts true
    tts_nvalid := 0
    tts_off := 0
    tts_slow := false }

/-- Callers' preconditions for one decode operation: a well-formed row of
the schema, an in-range column count or number, and (as `heap_getattr`
guarantees before calling `nocachegetattr`) a non-null target column. -/
def wfOp (td : TupleDesc) : DecodeOp → Bool
  | .deform vs ns => wfRow td vs ns
  | .slotDeform vs ns attno => wfRow td vs ns && decide (attno ≤ td.natts)
  | .getattr vs ns attnum =>
      wfRow td vs ns && decide (1 ≤ attnum) && decide (attnum ≤ td.natts) &&
        (ns.getD (attnum - 1) false == false)

/-- Run one decode operation against the shared offset cache. -/
def runOp (td : TupleDesc) (cache : List Int) : DecodeOp → Option (DecodeOut × List Int)
  | .deform vs ns =>
      let r := heap_deform_tuple td cache (heap_form_tuple td vs ns)
      some (.row r.values r.nulls, r.cache)
  | .slotDeform vs ns attno =>
      let r := slot_deform_tuple (freshSlot td (heap_form_tuple td vs ns)) cache attno
      some (.row ((List.range attno).map fun i => r.1.tts_values.getD i (.byval 0))
        ((List.range attno).map fun i => r.1.tts_isnull.getD i false), r.2)
  | .getattr vs ns attnum =>
      (nocachegetattr td (heap_form_tuple td vs ns) attnum cache).map
        (fun r => (.one r.1, r.2))

/-- Run a sequence of decode operations, threading the shared cache. -/
def runOps (td : TupleDesc) : List DecodeOp → List Int → Option (List DecodeOut × List Int)
  | [], cache => some ([], cache)
  | op :: rest, cache =>
    match runOp td cache op with
    | none => none
    | some (out, cache2) =>
      match runOps td rest cache2 with
      | none => none
      | some (outs, cache3) => some (out :: outs, cache3)

/-- The cache-free reference answer of a decode operation: what a plain
byte-walk of the row returns, with no cache read or written. -/
def refOut (td : TupleDesc) : DecodeOp → DecodeOut
  | .deform vs ns =>
      .row (walkFull td (heap_form_tuple td vs ns)).values
        (walkFull td (heap_form_tuple td vs ns)).nulls
  | .slotDeform vs ns attno =>
      .row ((List.range attno).map fun i =>
          (walkFull td (heap_form_tuple td vs ns)).values.getD i (.byval 0))
        ((List.range attno).map fun i =>
          (walkFull td (heap_form_tuple td vs ns)).nulls.getD i false)
  | .getattr vs ns attnum =>
      .one ((walkFull td (heap_form_tuple td vs ns)).values.getD (attnum - 1) (.byval 0))

theorem formed_tbits_lt (td : TupleDesc) (vs : List Datum) (ns : List Bool) :
    ∀ b ∈ (heap_form_tuple td vs ns).t_bits, b < 256 := by
  intro b hb
  rw [show (heap_form_tuple td vs ns).t_bits =
    (heap_form_tuple_shard td vs ns .NoShard).t_bits from rfl, form_tbits] at hb
  by_cases hany : (ns.any id) = true
  · rw [if_pos hany] at hb
    exact fillBitmap_lt ns b hb
  · rw [if_neg hany] at hb
    cases hb

theorem runOp_correct (td : TupleDesc) (cache : List Int) (op : DecodeOp)
    (hwf : cacheWF td cache = true) (hcg : cacheContig td cache = true)
    (hop : wfOp td op = true) :
    ∃ out cache', runOp td cache op = some (out, cache') ∧ out = refOut td op ∧
      cacheWF td cache' = true ∧ cacheContig td cache' = true := by
  cases op with
  | deform vs ns =>
    simp only [runOp, refOut]
    have htn : (heap_form_tuple td vs ns).tupNatts = td.natts := form_natts td vs ns .NoShard
    have hmin : min (heap_form_tuple td vs ns).tupNatts td.natts = td.natts := by
      rw [htn, Nat.min_self]
    have hdv : (heap_deform_tuple td cache (heap_form_tuple td vs ns)).values =
        (deform_loop td (heap_form_tuple td vs ns) td.natts 0
          ⟨List.replicate td.natts (.byval 0), List.replicate td.natts true,
           cache, 0, false⟩).values := by
      unfold heap_deform_tuple
      dsimp only
      rw [hmin, Nat.sub_self]
      rfl
    have hdn : (heap_deform_tuple td cache (heap_form_tuple td vs ns)).nulls =
        (deform_loop td (heap_form_tuple td vs ns) td.natts 0
          ⟨List.replicate td.natts (.byval 0), List.replicate td.natts true,
           cache, 0, false⟩).nulls := by
      unfold heap_deform_tuple
      dsimp only
      rw [hmin, Nat.sub_self]
      rfl
    have hdc : (heap_deform_tuple td cache (heap_form_tuple td vs ns)).cache =
        (deform_loop td (heap_form_tuple td vs ns) td.natts 0
          ⟨List.replicate td.natts (.byval 0), List.replicate td.natts true,
           cache, 0, false⟩).cache := by
      unfold heap_deform_tuple
      dsimp only
      rw [hmin]
    have hLA := deform_loop_eq_walk td (heap_form_tuple td vs ns) td.natts 0
      (List.replicate td.natts (.byval 0)) (List.replicate td.natts true) 0 false cache
      hwf (fun _ => ⟨rfl, rfl⟩) (by omega)
    have hct := deform_loop_contig td (heap_form_tuple td vs ns) td.natts 0
      ⟨List.replicate td.natts (.byval 0), List.replicate td.natts true, cache, 0, false⟩
      (cacheWF_length hwf) (by omega) hcg (fun _ j hj => absurd hj (Nat.not_lt_zero j))
    have hwFull : walkFull td (heap_form_tuple td vs ns) =
        walk_loop td (heap_form_tuple td vs ns) td.natts 0 (walkInit td) := by
      unfold walkFull
      rw [hmin]
    refine ⟨_, _, rfl, ?_, ?_, ?_⟩
    · rw [hdv, hdn, hLA.1, hLA.2.1, hwFull]
      rfl
    · rw [hdc]
      exact hLA.2.2.2
    · rw [hdc]
      exact hct.1
  | slotDeform vs ns attno =>
    simp only [wfOp, Bool.and_eq_true, decide_eq_true_eq] at hop
    obtain ⟨hrow, hle⟩ := hop
    simp only [runOp, refOut]
    have hv : (slot_deform_tuple (freshSlot td (heap_form_tuple td vs ns)) cache
        attno).1.tts_values =
        (deform_loop td (heap_form_tuple td vs ns) attno 0
          ⟨List.replicate td.natts (.byval 0), List.replicate td.natts true,
           cache, 0, false⟩).values := rfl
    have hnl2 : (slot_deform_tuple (freshSlot td (heap_form_tuple td vs ns)) cache
        attno).1.tts_isnull =
        (deform_loop td (heap_form_tuple td vs ns) attno 0
          ⟨List.replicate td.natts (.byval 0), List.replicate td.natts true,
           cache, 0, false⟩).nulls := rfl
    have hcc : (slot_deform_tuple (freshSlot td (heap_form_tuple td vs ns)) cache attno).2 =
        (deform_loop td (heap_form_tuple td vs ns) attno 0
          ⟨List.replicate td.natts (.byval 0), List.replicate td.natts true,
           cache, 0, false⟩).cache := rfl
    have hLA := deform_loop_eq_walk td (heap_form_tuple td vs ns) attno 0
      (List.replicate td.natts (.byval 0)) (List.replicate td.natts true) 0 false cache
      hwf (fun _ => ⟨rfl, rfl⟩) (by omega)
    have hct := deform_loop_contig td (heap_form_tuple td vs ns) attno 0
      ⟨List.replicate td.natts (.byval 0), List.replicate td.natts true, cache, 0, false⟩
      (cacheWF_length hwf) (by omega) hcg (fun _ j hj => absurd hj (Nat.not_lt_zero j))
    have htn : (heap_form_tuple td vs ns).tupNatts = td.natts := form_natts td vs ns .NoShard
    have hwFull : walkFull td (heap_form_tuple td vs ns) =
        walk_loop td (heap_form_tuple td vs ns) td.natts 0 (walkInit td) := by
      unfold walkFull
      rw [htn, Nat.min_self]
    refine ⟨_, _, rfl, ?_, ?_, ?_⟩
    · have hvals : ∀ i ∈ List.range attno,
          (slot_deform_tuple (freshSlot td (heap_form_tuple td vs ns)) cache
            attno).1.tts_values.getD i (.byval 0) =
          (walkFull td (heap_form_tuple td vs ns)).values.getD i (.byval 0) := by
        intro i hi
        rw [List.mem_range] at hi
        rw [hv, hLA.1, hwFull]
        have hsplit : td.natts = attno + (td.natts - attno) := by omega
        conv_rhs => rw [hsplit]
        rw [walk_loop_add]
        rw [(walk_loop_getD_lt td (heap_form_tuple td vs ns) (td.natts - attno)
          (0 + attno) (walk_loop td (heap_form_tuple td vs ns) attno 0 (walkInit td))
          i (.byval 0) false (by omega)).1]
        rfl
      have hnulls : ∀ i ∈ List.range attno,
          (slot_deform_tuple (freshSlot td (heap_form_tuple td vs ns)) cache
            attno).1.tts_isnull.getD i false =
          (walkFull td (heap_form_tuple td vs ns)).nulls.getD i false := by
        intro i hi
        rw [List.mem_range] at hi
        rw [hnl2, hLA.2.1, hwFull]
        have hsplit : td.natts = attno + (td.natts - attno) := by omega
        conv_rhs => rw [hsplit]
        rw [walk_loop_add]
        rw [(walk_loop_getD_lt td (heap_form_tuple td vs ns) (td.natts - attno)
          (0 + attno) (walk_loop td (heap_form_tuple td vs ns) attno 0 (walkInit td))
          i (.byval 0) false (by omega)).2]
        rfl
      rw [List.map_congr_left hvals, List.map_congr_left hnulls]
    · rw [hcc]
      exact hLA.2.2.2
    · rw [hcc]
      exact hct.1
  | getattr vs ns attnum =>
    simp only [wfOp, Bool.and_eq_true, decide_eq_true_eq, beq_iff_eq] at hop
    obtain ⟨⟨⟨hrow, ha1⟩, ha2⟩, hnn⟩ := hop
    have hlen2 : ns.length = td.natts := by
      unfold wfRow at hrow
      rw [Bool.and_eq_true, Bool.and_eq_true] at hrow
      have := hrow.1.2
      rwa [beq_iff_eq] at this
    have htb := formed_tbits_lt td vs ns
    have hnt : ∀ j, j < td.natts →
        (HeapTupleHasNulls (heap_form_tuple td vs ns) &&
          att_isnull j (heap_form_tuple td vs ns).t_bits) = ns.getD j false :=
      fun j hj => form_null_agree td vs ns .NoShard hlen2 j hj
    have hvw := form_hasvar_attlen td vs ns hrow
    obtain ⟨cache', heq, hwf2, hcg2⟩ := nocachegetattr_spec td (heap_form_tuple td vs ns)
      ns attnum cache htb hnt hvw ha1 ha2 hnn hwf hcg
    simp only [runOp, refOut]
    rw [heq]
    refine ⟨_, _, rfl, ?_, hwf2, hcg2⟩
    have htn : (heap_form_tuple td vs ns).tupNatts = td.natts := form_natts td vs ns .NoShard
    have hwFull : walkFull td (heap_form_tuple td vs ns) =
        walk_loop td (heap_form_tuple td vs ns) td.natts 0 (walkInit td) := by
      unfold walkFull
      rw [htn, Nat.min_self]
    rw [hwFull]

theorem runOps_correct (td : TupleDesc) : ∀ (ops : List DecodeOp) (cache : List Int),
    cacheWF td cache = true → cacheContig td cache = true →
    (∀ op ∈ ops, wfOp td op = true) →
    ∃ outs cache', runOps td ops cache = some (outs, cache') ∧
      outs = ops.map (refOut td) ∧
      cacheWF td cache' = true ∧ cacheContig td cache' = true := by
  intro ops
  induction ops with
  | nil =>
    intro cache hwf hcg _
    exact ⟨[], cache, rfl, rfl, hwf, hcg⟩
  | cons op rest ih =>
    intro cache hwf hcg hops
    obtain ⟨out, cache2, hrun, hout, hwf2, hcg2⟩ := runOp_correct td cache op hwf hcg
      (hops op (List.mem_cons_self op rest))
    obtain ⟨outs, cache3, hruns, houts, hwf3, hcg3⟩ := ih cache2 hwf2 hcg2
      (fun o ho => hops o (List.mem_cons_of_mem _ ho))
    refine ⟨out :: outs, cache3, ?_, ?_, hwf3, hcg3⟩
    · have hunf : runOps td (op :: rest) cache =
          match runOp td cache op with
          | none => none
          | some (o, c2) =>
            match runOps td rest c2 with
            | none => none
            | some (os, c3) => some (o :: os, c3) := rfl
      rw [hunf]
      simp only [hrun, hruns]
    · rw [List.map_cons, hout, houts]


/-- C3: offset-cache soundness.  For every schema and every sequence of
decode operations over rows of that schema — full `heap_deform_tuple`
calls, `slot_deform_tuple` extractions into fresh slots, and single-column
`nocachegetattr` fetches, in any order, over rows with any mix of null
columns — starting from any well-formed, contiguous shared offset cache
(the all-unset cache included), every operation succeeds and returns
exactly what the cache-free byte-walk of its row returns, and the cache
stays well formed and contiguous throughout: every `attcacheoff` value
ever written is the column's true canonical offset, so a previously set
entry never causes an incorrect decode. -/
theorem C3_cache_soundness (td : TupleDesc) (ops : List DecodeOp) (cache : List Int)
    (hwf : cacheWF td cache = true) (hcg : cacheContig td cache = true)
    (hops : ∀ op ∈ ops, wfOp td op = true) :
    ∃ outs cache', runOps td ops cache = some (outs, cache') ∧
      outs = ops.map (refOut td) ∧
      cacheWF td cache' = true ∧ cacheContig td cache' = true :=
  runOps_correct td ops cache hwf hcg hops

/-- A concrete operation sequence over the int4/text schema exercising all
three decoders, with and without nulls, sharing one cache. -/
def C3ops : List DecodeOp :=
  [.deform [.byval 7, .byref [0, 0, 0, 5, 97]] [false, false],
   .getattr [.byval 7, .byref [0, 0, 0, 5, 97]] [false, false] 1,
   .slotDeform [.byval 7, .byval 0] [false, true] 2,
   .getattr [.byval 7, .byval 0] [false, true] 1]

theorem C3_cache_soundness_witness :
    cacheWF tdInt4Text [-1, -1] = true ∧
    cacheContig tdInt4Text [-1, -1] = true ∧
    (∀ op ∈ C3ops, wfOp tdInt4Text op = true) ∧
    (∃ outs cache', runOps tdInt4Text C3ops [-1, -1] = some (outs, cache') ∧
      outs = C3ops.map (refOut tdInt4Text) ∧
      cacheWF tdInt4Text cache' = true ∧ cacheContig tdInt4Text cache' = true) :=
  ⟨by decide, by decide, by decide,
    C3_cache_soundness tdInt4Text C3ops [-1, -1] (by decide) (by decide) (by decide)⟩

end HeapTuple
